import Mathlib

/-!
# uartassist: hex codec, timeout-bounded receiver and test protocols

A shallow embedding of `src/src/uart_test.c` (with the inline primitives of
`src/inc/uartdev.h` it calls), of `validate_json_config` (json_config.c), of
`uartdev_new` (uartdev.h) and of `parse_uart_config` (args_parser.c), and the
properties their specification states.

Conventions of the embedding

* A C `char` is its byte value, a `Nat`; a C string is the list of its
  characters without the terminating NUL; a byte buffer is the list of its
  bytes. String and buffer arguments are lists, hence never `NULL`; a device
  handle is an `Option`, `none` standing for `NULL`.
* `int` values are `Int`. The counters of the two protocol loops (`i`,
  `sent_bytes`, `total_bytes`, `packet_count`) grow without limit in a long
  run, so their additions are reduced to the 32-bit range by `wrap_int`. The
  other `int` results stay far below `2^31` in every call the program makes
  (string and buffer lengths; `timeout_sec * 1000` with `timeout_sec = 2`;
  `interval_ms * 1000` with `interval_ms` in `1 .. 10000`, args_parser.c lines
  238-240) and are kept exact.
* `<ctype.h>` classification is that of the "C" locale (the program never
  calls `setlocale`).
* The outside world is a `World`: for each primitive (`tcflush`, `write`,
  `poll`, `read`) and for the volatile flag `g_running` it holds the answers
  the coming calls will get, in order, and it records the calls made (`trace`)
  and the counter-carrying lines printed (`out`). A function that touches the
  device takes a `World` and returns the one it leaves.
* The two `while (g_running)` loops take fuel, one unit per iteration, and
  return `none` as value when it runs out; the theorems say how much fuel is
  enough.
* Where the signedness of `char` could matter (`print_ascii`,
  `parse_uart_config`) it is a parameter, and the theorems hold for both.
* The body of `uart_file_test` is not among the sources; it is modelled from
  the specification, and every definition so obtained says so.
-/

namespace UartAssist

/-! ## Definitions -/

/-- The `tolower` of the "C" locale: `'A'..'Z'` go to `'a'..'z'`. -/
def tolower (c : Nat) : Nat :=
  if 65 ≤ c ∧ c ≤ 90 then c + 32 else c

/-- The `toupper` of the "C" locale: `'a'..'z'` go to `'A'..'Z'`. -/
def toupper (c : Nat) : Nat :=
  if 97 ≤ c ∧ c ≤ 122 then c - 32 else c

/-- The validity test of `parse_hex_string` (lines 54 and 58), applied to an
already lower-cased character:
`(c >= '0' && c <= '9') || (c >= 'a' && c <= 'f')`. -/
def is_hex_lower (c : Nat) : Bool :=
  (decide (48 ≤ c) && decide (c ≤ 57)) || (decide (97 ≤ c) && decide (c ≤ 102))

/-- The nibble of a lower-cased hex character (lines 65-75):
`c - '0'` for a decimal digit, `c - 'a' + 10` otherwise. -/
def nibble (c : Nat) : Nat :=
  if 48 ≤ c ∧ c ≤ 57 then c - 48 else c - 97 + 10

/-- The byte built from two lower-cased hex characters (lines 65-77):
`byte = nibble(c1) << 4; byte |= nibble(c2);`, each assignment truncated to
`unsigned char`. -/
def hex_byte (c1 c2 : Nat) : Nat :=
  (((nibble c1 <<< 4) % 256) ||| nibble c2) % 256

/-- The `for (i = 0, j = 0; i < len; i += 2, j++)` loop of `parse_hex_string`
(lines 46-80). The first argument is the part of `hex_str` from index `i` on
(of even length, by the check of line 35), `j` is the output index. The result
is the returned `int` and the buffer as the call leaves it. -/
def parse_hex_loop : List Nat → Nat → List Nat → Int × List Nat
  | c1 :: c2 :: rest, j, buf =>
    let c1 := tolower c1
    let c2 := tolower c2
    if !is_hex_lower c1 then (-1, buf)
    else if !is_hex_lower c2 then (-1, buf)
    else parse_hex_loop rest (j + 1) (buf.set j (hex_byte c1 c2))
  | _, j, buf => (j, buf)

/-- The function `int parse_hex_string(const char *hex_str, char *buf, int buf_len)`
(uart_test.c lines 22-81): the returned value and the caller's buffer after
the call. -/
def parse_hex_string (hex_str : List Nat) (buf : List Nat) (buf_len : Int) :
    Int × List Nat :=
  if buf_len ≤ 0 then (-1, buf)
  else
    let len : Int := hex_str.length
    if len = 0 ∨ len % 2 ≠ 0 then (-1, buf)
    else if len / 2 > buf_len then (-1, buf)
    else parse_hex_loop hex_str 0 buf

/-- One hexadecimal digit in upper case, as `printf` writes it for `%X`. -/
def upper_hex_digit (n : Nat) : Nat :=
  if n < 10 then 48 + n else 55 + n

/-- The characters `printf("%02X", (unsigned char)b)` writes
(see `print_hex`, line 130): two upper-case hex digits, zero padded. -/
def fmt_02X (b : Nat) : List Nat :=
  [upper_hex_digit (b / 16), upper_hex_digit (b % 16)]

/-- A hexadecimal digit in the words of the specification:
`0-9`, `a-f` or `A-F`. -/
def is_hex_digit (c : Nat) : Prop :=
  (48 ≤ c ∧ c ≤ 57) ∨ (97 ≤ c ∧ c ≤ 102) ∨ (65 ≤ c ∧ c ≤ 70)

instance (c : Nat) : Decidable (is_hex_digit c) := by
  unfold is_hex_digit; infer_instance

/-- The value of a hexadecimal digit in the words of the specification:
`'0'-'9'` are 0-9, `'a'-'f'` and `'A'-'F'` are 10-15. -/
def hex_value (c : Nat) : Nat :=
  if 48 ≤ c ∧ c ≤ 57 then c - 48
  else if 97 ≤ c ∧ c ≤ 102 then c - 87
  else if 65 ≤ c ∧ c ≤ 70 then c - 55
  else 0

/-- The bytes that the pairs of a hex string denote, high nibble first. -/
def hex_pairs : List Nat → List Nat
  | c1 :: c2 :: rest => (16 * hex_value c1 + hex_value c2) :: hex_pairs rest
  | _ => []

/-- The number of leading character pairs of a string made of two hex
digits. -/
def valid_pairs : List Nat → Nat
  | c1 :: c2 :: rest =>
    if is_hex_digit c1 ∧ is_hex_digit c2 then valid_pairs rest + 1 else 0
  | _ => 0

/-! ### The device, its environment and the receiver -/

/-- The enumeration `output_format_t` (args_parser.h lines 21-24). -/
inductive output_format_t
  | OUTPUT_ASCII
  | OUTPUT_HEX
  deriving DecidableEq, Repr

/-- The device structure `uartdev_t` (uartdev.h lines 26-39). -/
structure uartdev_t where
  fd : Int
  port : List Nat
  baud : Int
  data_bit : Nat
  parity : Nat
  stop_bit : Nat
  deriving DecidableEq, Repr

/-- The constant `RECV_TIMEOUT_SEC` (uart_assist.h line 15). -/
def RECV_TIMEOUT_SEC : Int := 2

/-- The error number `EINTR` of `<errno.h>`. -/
def EINTR : Int := 4

/-- The event bit `POLLIN` of `<poll.h>`. -/
def POLLIN : Nat := 1

/-- What one `poll` call hands back: its return value, the `errno` it leaves
and the `revents` of the single descriptor polled. -/
structure poll_result where
  ret : Int
  errno : Int
  revents : Nat
  deriving DecidableEq, Repr

/-- What one `read` call finds: a failure (return value -1), or the bytes the
port delivers to this call, of which `read` takes at most `len`. -/
inductive read_result
  | error (errno : Int)
  | data (bytes : List Nat)
  deriving DecidableEq, Repr

/-- The calls the program makes on its environment, with what they
returned. -/
inductive Event
  | tcflush (fd : Int) (ret : Int)
  | write (fd : Int) (data : List Nat) (ret : Int)
  | poll (fd : Int) (timeout_ms : Int) (res : poll_result)
  | read (fd : Int) (len : Int) (ret : Int)
  | usleep (usec : Int)
  deriving DecidableEq, Repr

/-- The lines of the protocols that carry counters: the `Send [%d]` and
`Recv [%d]` progress lines, the `... completed` totals and the loopback
verdict. Diagnostic text (`pr_error`, banners) is not modelled. -/
inductive Msg
  | send_progress (i send_data_len sent_bytes : Int)
  | send_completed (i sent_bytes : Int)
  | recv_progress (packet_count recv_len total_bytes : Int)
      (format : output_format_t) (data : List Nat)
  | recv_completed (packet_count total_bytes : Int)
  | loopback_passed (send_data_len : Int)
  deriving DecidableEq, Repr

/-- The environment of a run. The first five fields are what the outside
world will answer: `g_running k` is the value the `k`-th coming read of the
flag `g_running` sees (the SIGINT handler of main.c clears it), and likewise
for the results of the coming `tcflush`, `write`, `poll` and `read` calls.
`trace` is the calls made so far, `out` the lines printed so far. -/
structure World where
  g_running : Nat → Bool
  tcflush_ret : Nat → Int
  write_ret : Nat → Int
  poll_ret : Nat → poll_result
  read_ret : Nat → read_result
  trace : List Event
  out : List Msg

/-- One read of the volatile flag `g_running`. -/
def World.read_g_running (w : World) : Bool × World :=
  (w.g_running 0, { w with g_running := fun k => w.g_running (k + 1) })

/-- The call `tcflush(fd, TCIOFLUSH)`. -/
def World.tcflush (w : World) (fd : Int) : Int × World :=
  (w.tcflush_ret 0,
    { w with tcflush_ret := fun k => w.tcflush_ret (k + 1),
             trace := w.trace ++ [Event.tcflush fd (w.tcflush_ret 0)] })

/-- The call `write(fd, buf, len)`; `data` is the `len` bytes at `buf`. -/
def World.write (w : World) (fd : Int) (data : List Nat) : Int × World :=
  (w.write_ret 0,
    { w with write_ret := fun k => w.write_ret (k + 1),
             trace := w.trace ++ [Event.write fd data (w.write_ret 0)] })

/-- The call `poll(&pfd, 1, timeout_ms)` with `pfd.fd = fd`,
`pfd.events = POLLIN`. -/
def World.poll (w : World) (fd : Int) (timeout_ms : Int) : poll_result × World :=
  (w.poll_ret 0,
    { w with poll_ret := fun k => w.poll_ret (k + 1),
             trace := w.trace ++ [Event.poll fd timeout_ms (w.poll_ret 0)] })

/-- The call `read(fd, buf, len)`: on failure -1 and an untouched buffer,
otherwise the first `len` of the delivered bytes are stored at the front of
the buffer and their number is returned. -/
def World.read (w : World) (fd : Int) (buf : List Nat) (len : Int) :
    Int × List Nat × World :=
  match w.read_ret 0 with
  | read_result.error _ =>
    (-1, buf,
      { w with read_ret := fun k => w.read_ret (k + 1),
               trace := w.trace ++ [Event.read fd len (-1)] })
  | read_result.data bytes =>
    let got := bytes.take len.toNat
    ((got.length : Int), got ++ buf.drop got.length,
      { w with read_ret := fun k => w.read_ret (k + 1),
               trace := w.trace ++ [Event.read fd len (got.length : Int)] })

/-- The call `usleep(usec)`. -/
def World.usleep (w : World) (usec : Int) : World :=
  { w with trace := w.trace ++ [Event.usleep usec] }

/-- A counter-carrying line written to standard output. -/
def World.print (w : World) (m : Msg) : World :=
  { w with out := w.out ++ [m] }

/-- The function `uartdev_send` (uartdev.h lines 453-464). -/
def uartdev_send (w : World) (dev : Option uartdev_t) (buf : List Nat) (len : Int) :
    Int × World :=
  match dev with
  | none => (-1, w)
  | some d =>
    if len < 0 ∨ d.fd < 0 then (-1, w)
    else w.write d.fd (buf.take len.toNat)

/-- The function `uartdev_recv` (uartdev.h lines 466-477). -/
def uartdev_recv (w : World) (dev : Option uartdev_t) (buf : List Nat) (len : Int) :
    Int × List Nat × World :=
  match dev with
  | none => (-1, buf, w)
  | some d =>
    if len < 0 ∨ d.fd < 0 then (-1, buf, w)
    else w.read d.fd buf len

/-- The function `uartdev_flush` (uartdev.h lines 479-490); its callers in
uart_test.c drop the returned value. -/
def uartdev_flush (w : World) (dev : Option uartdev_t) : Int × World :=
  match dev with
  | none => (-1, w)
  | some d =>
    if d.fd < 0 then (-1, w)
    else w.tcflush d.fd

/-- The function `uart_recv_with_timeout` (uart_test.c lines 140-179): the returned value,
the caller's buffer and the environment after the call. -/
def uart_recv_with_timeout (w : World) (dev : Option uartdev_t) (buf : List Nat)
    (len timeout_sec : Int) : Int × List Nat × World :=
  match dev with
  | none => (-1, buf, w)
  | some d =>
    if len ≤ 0 ∨ d.fd < 0 then (-1, buf, w)
    else
      let p := w.poll d.fd (timeout_sec * 1000)
      if p.1.ret < 0 then
        if p.1.errno = EINTR then (0, buf, p.2)
        else (-1, buf, p.2)
      else if p.1.ret = 0 then (0, buf, p.2)
      else if p.1.revents &&& POLLIN ≠ 0 then
        let r := uartdev_recv p.2 dev buf len
        if r.1 < 0 then (-1, r.2.1, r.2.2)
        else (r.1, r.2.1, r.2.2)
      else (0, buf, p.2)

/-! ### The test protocols -/

/-- The largest value of an `int`, `INT_MAX` of `<limits.h>` (32 bits). -/
def INT_MAX : Int := 2147483647

/-- The value a 32-bit two's-complement `int` holds after an addition whose
exact result is `x`: `x` itself when it lies in `-2^31 .. 2^31 - 1`, and `x`
reduced modulo `2^32` into that range when the addition overflows. C leaves
the overflow of `sent_bytes += send_data_len`, `i++`, `total_bytes += recv_len`
and `packet_count++` undefined; the wrapped value is what the usual builds of
the program compute. -/
def wrap_int (x : Int) : Int :=
  (x + 2147483648) % 4294967296 - 2147483648

/-- The payload block shared by `uart_loopback_test` (lines 196-215) and
`uart_send_test` (lines 286-315): `none` where the function returns -1,
otherwise `send_data` and `send_data_len`. In hex format `send_data` is the
local `send_buf[512]` (zeroed here; only its first `send_data_len` bytes are
ever used), in ASCII format it is `send_str` itself. -/
def send_payload (send_str : List Nat) (format : output_format_t) :
    Option (List Nat × Int) :=
  if format = output_format_t.OUTPUT_HEX then
    let r := parse_hex_string send_str (List.replicate 512 0) 512
    if r.1 < 0 then none
    else some (r.2, r.1)
  else
    let send_data_len : Int := send_str.length
    if send_data_len = 0 then none
    else some (send_str, send_data_len)

/-- The `memcmp` of `<string.h>` on the first `n` bytes of two buffers. -/
def memcmp : List Nat → List Nat → Nat → Int
  | a :: as, b :: bs, n + 1 =>
    if a = b then memcmp as bs n
    else if a < b then -1
    else 1
  | _, _, _ => 0

/-- The function `uart_loopback_test` (uart_test.c lines 181-270): the returned value and
the environment after the call. -/
def uart_loopback_test (w : World) (dev : Option uartdev_t) (send_str : List Nat)
    (format : output_format_t) : Int × World :=
  match dev with
  | none => (-1, w)
  | some _ =>
    match send_payload send_str format with
    | none => (-1, w)
    | some (send_data, send_data_len) =>
      let f := uartdev_flush w dev
      let s := uartdev_send f.2 dev send_data send_data_len
      if s.1 ≠ send_data_len then (-1, s.2)
      else
        let r := uart_recv_with_timeout s.2 dev (List.replicate 1024 0) (1024 - 1)
          RECV_TIMEOUT_SEC
        if r.1 < 0 then (-1, r.2.2)
        else if r.1 = 0 then (-1, r.2.2)
        else
          let recv_buf := r.2.1.set r.1.toNat 0
          if r.1 ≠ send_data_len then (-1, r.2.2)
          else if memcmp send_data recv_buf send_data_len.toNat ≠ 0 then (-1, r.2.2)
          else (0, r.2.2.print (Msg.loopback_passed send_data_len))

/-- The code after the loop of `uart_send_test` (lines 347-349). -/
def send_done (w : World) (i sent_bytes : Int) : Option Int × World :=
  (some 0, w.print (Msg.send_completed i sent_bytes))

/-- The `while (g_running)` loop of `uart_send_test` (lines 320-349) with the
code after it. Each iteration uses one unit of fuel. The result is the
returned value, or `none` when the fuel ran out before the function returned,
and the environment as the run leaves it. -/
def uart_send_loop (dev : Option uartdev_t) (send_data : List Nat)
    (send_data_len interval_ms count : Int) :
    Nat → World → Int → Int → Option Int × World
  | 0, w, _, _ => (none, w)
  | fuel + 1, w, i, sent_bytes =>
    let g := w.read_g_running
    if !g.1 then send_done g.2 i sent_bytes
    else
      let s := uartdev_send g.2 dev send_data send_data_len
      if s.1 ≠ send_data_len then (some (-1), s.2)
      else
        let sent_bytes := wrap_int (sent_bytes + send_data_len)
        let i := wrap_int (i + 1)
        let w1 := s.2.print (Msg.send_progress i send_data_len sent_bytes)
        if count > 0 ∧ i ≥ count then send_done w1 i sent_bytes
        else
          uart_send_loop dev send_data send_data_len interval_ms count fuel
            (w1.usleep (interval_ms * 1000)) i sent_bytes

/-- The function `uart_send_test` (uart_test.c lines 272-350), run with the
given fuel for its loop. -/
def uart_send_test (fuel : Nat) (w : World) (dev : Option uartdev_t)
    (send_str : List Nat) (interval_ms count : Int) (format : output_format_t) :
    Option Int × World :=
  match dev with
  | none => (some (-1), w)
  | some _ =>
    match send_payload send_str format with
    | none => (some (-1), w)
    | some (send_data, send_data_len) =>
      let f := uartdev_flush w dev
      uart_send_loop dev send_data send_data_len interval_ms count fuel f.2 0 0

/-- The code after the loop of `uart_recv_test` (lines 408-410). -/
def recv_done (w : World) (packet_count total_bytes : Int) : Option Int × World :=
  (some 0, w.print (Msg.recv_completed packet_count total_bytes))

/-- The `while (g_running)` loop of `uart_recv_test` (lines 370-410) with the
code after it; `recv_buf` is the local `recv_buf[256]`. Each iteration uses one
unit of fuel. The result is the returned value, or `none` when the fuel ran out
before the function returned, and the environment as the run leaves it. -/
def uart_recv_loop (dev : Option uartdev_t) (format : output_format_t) :
    Nat → World → List Nat → Int → Int → Option Int × World
  | 0, w, _, _, _ => (none, w)
  | fuel + 1, w, recv_buf, total_bytes, packet_count =>
    let g := w.read_g_running
    if !g.1 then recv_done g.2 packet_count total_bytes
    else
      let r := uart_recv_with_timeout g.2 dev recv_buf (256 - 1) RECV_TIMEOUT_SEC
      if r.1 < 0 then (some (-1), r.2.2)
      else if r.1 = 0 then
        let g2 := r.2.2.read_g_running
        if !g2.1 then recv_done g2.2 packet_count total_bytes
        else uart_recv_loop dev format fuel g2.2 r.2.1 total_bytes packet_count
      else
        let total_bytes := wrap_int (total_bytes + r.1)
        let packet_count := wrap_int (packet_count + 1)
        let w1 := r.2.2.print
          (Msg.recv_progress packet_count r.1 total_bytes format (r.2.1.take r.1.toNat))
        uart_recv_loop dev format fuel w1 r.2.1 total_bytes packet_count

/-- The function `uart_recv_test` (uart_test.c lines 352-411), run with the
given fuel for its loop. -/
def uart_recv_test (fuel : Nat) (w : World) (dev : Option uartdev_t)
    (format : output_format_t) : Option Int × World :=
  match dev with
  | none => (some (-1), w)
  | some _ =>
    let f := uartdev_flush w dev
    uart_recv_loop dev format fuel f.2 (List.replicate 256 0) 0 0

/-! ### Observers used in the statements -/

/-- A `write` call. -/
def Event.is_write : Event → Bool
  | Event.write _ _ _ => true
  | _ => false

/-- A `poll` call. -/
def Event.is_poll : Event → Bool
  | Event.poll _ _ _ => true
  | _ => false

/-- A `read` call. -/
def Event.is_read : Event → Bool
  | Event.read _ _ _ => true
  | _ => false

/-- The one write of the loopback protocol: `uartdev_send` after the flush. -/
def loopback_write (w : World) (d : uartdev_t) (send_data : List Nat) (n : Int) :
    Int × World :=
  uartdev_send (uartdev_flush w (some d)).2 (some d) send_data n

/-- The one receive of the loopback protocol: `uart_recv_with_timeout` on the
1024-byte `recv_buf`, in the environment the write leaves. -/
def loopback_recv (w : World) (d : uartdev_t) (send_data : List Nat) (n : Int) :
    Int × List Nat × World :=
  uart_recv_with_timeout (loopback_write w d send_data n).2 (some d)
    (List.replicate 1024 0) (1024 - 1) RECV_TIMEOUT_SEC

/-- The `Send [%d]` lines of `k` successful iterations that start with `i`
payloads sent and `sent_bytes` bytes in total, for a payload of `len` bytes;
both counters are `int`s. -/
def send_progress_lines (len : Int) : Nat → Int → Int → List Msg
  | 0, _, _ => []
  | k + 1, i, sent_bytes =>
    Msg.send_progress (wrap_int (i + 1)) len (wrap_int (sent_bytes + len)) ::
      send_progress_lines len k (wrap_int (i + 1)) (wrap_int (sent_bytes + len))

/-- A call by which a receive attempt reports an error: a `poll` that failed
for a reason other than `EINTR`, or a `read` that failed. -/
def Event.is_recv_fault : Event → Bool
  | Event.poll _ _ res => decide (res.ret < 0) && decide (res.errno ≠ EINTR)
  | Event.read _ _ ret => decide (ret < 0)
  | _ => false

/-- A call by which a receive attempt returns a positive byte count: a `read`
that returned one. -/
def Event.is_packet : Event → Bool
  | Event.read _ _ ret => decide (0 < ret)
  | _ => false

/-- The byte count a call contributes to the received total: that of a `read`
that returned a positive count, 0 for every other call. -/
def Event.recv_bytes : Event → Int
  | Event.read _ _ ret => if 0 < ret then ret else 0
  | _ => 0

/-! ### Display formatting (uart_test.c lines 96-138) -/

/-- The value of a `char` that holds the byte `b`: the byte itself where `char`
is unsigned, and the byte less 256 from 128 on where `char` is signed. -/
def char_value (signed_char : Bool) (b : Nat) : Int :=
  if signed_char = true ∧ 128 ≤ b then (b : Int) - 256 else (b : Int)

/-- The characters `print_ascii` writes for one byte (lines 100-122): the test
`buf[i] >= 32 && buf[i] < 127`, then the `switch` on the four named control
characters, then `printf("\\x%02X", (unsigned char)buf[i])`. -/
def print_ascii_char (signed_char : Bool) (b : Nat) : List Nat :=
  if char_value signed_char b ≥ 32 ∧ char_value signed_char b < 127 then [b]
  else if char_value signed_char b = 10 then [92, 110]
  else if char_value signed_char b = 13 then [92, 114]
  else if char_value signed_char b = 9 then [92, 116]
  else if char_value signed_char b = 0 then [92, 48]
  else [92, 120] ++ fmt_02X b

/-- The function `print_ascii` (uart_test.c lines 96-124): the characters
written to standard output for the first `len` bytes of `buf`. -/
def print_ascii (signed_char : Bool) (buf : List Nat) (len : Int) : List Nat :=
  (buf.take len.toNat).flatMap (print_ascii_char signed_char)

/-- The `for` loop of `print_hex` (lines 129-134) over the bytes from index `i`
on: `%02X` and a space for each byte, a newline when `(i + 1) % 16 == 0`. -/
def print_hex_loop : List Nat → Nat → List Nat
  | [], _ => []
  | b :: rest, i =>
    fmt_02X b ++ [32] ++ (if (i + 1) % 16 = 0 then [10] else []) ++
      print_hex_loop rest (i + 1)

/-- The function `print_hex` (uart_test.c lines 126-138): the characters written
to standard output for the first `len` bytes of `buf`. -/
def print_hex (buf : List Nat) (len : Int) : List Nat :=
  print_hex_loop (buf.take len.toNat) 0 ++ (if len % 16 ≠ 0 then [10] else [])

/-- The rendering of one byte in the words of the specification: printable
ASCII (0x20-0x7E) as it is, the bytes 0x0A, 0x0D, 0x09 and 0x00 as backslash
followed by `n`, `r`, `t` and `0`, every other byte as backslash, `x` and two
upper-case hex digits. -/
def render_ascii_byte (b : Nat) : List Nat :=
  if 32 ≤ b ∧ b ≤ 126 then [b]
  else if b = 10 then [92, 110]
  else if b = 13 then [92, 114]
  else if b = 9 then [92, 116]
  else if b = 0 then [92, 48]
  else [92, 120, upper_hex_digit (b / 16), upper_hex_digit (b % 16)]

/-- The number of characters the specification gives to a byte: 1 when
printable, 2 for the four named escapes, 4 otherwise. -/
def render_ascii_width (b : Nat) : Nat :=
  if 32 ≤ b ∧ b ≤ 126 then 1
  else if b = 10 ∨ b = 13 ∨ b = 9 ∨ b = 0 then 2
  else 4

/-- An upper-case hexadecimal digit: `0-9` or `A-F`. -/
def is_upper_hex_digit (c : Nat) : Prop :=
  (48 ≤ c ∧ c ≤ 57) ∨ (65 ≤ c ∧ c ≤ 70)

/-- The groups of one line of `print_hex` output: two hex digits and a space
for each byte. -/
def hex_groups (row : List Nat) : List Nat :=
  row.flatMap (fun b => fmt_02X b ++ [32])

/-- One line of `print_hex` output: its groups and the newline that ends it. -/
def hex_line (row : List Nat) : List Nat :=
  hex_groups row ++ [10]

/-- The first `k` rows of 16 bytes of a byte sequence (the last row holds what
is left when fewer than 16 remain). -/
def hex_rows : Nat → List Nat → List (List Nat)
  | 0, _ => []
  | k + 1, l => l.take 16 :: hex_rows k (l.drop 16)

/-! ### Device creation (uartdev.h) and the framing argument (args_parser.c) -/

/-- The error number `EINVAL` of `<errno.h>`. -/
def EINVAL : Int := 22

/-- The error number `ENOMEM` of `<errno.h>`. -/
def ENOMEM : Int := 12

/-- The function `_get_baud` (uartdev.h lines 41-106), with the speed constants
`B1200` ... `B4000000` of the Linux `<termios.h>` (all of the conditional rates
are defined there). -/
def _get_baud (baud : Int) : Int :=
  if baud = 1200 then 9
  else if baud = 2400 then 11
  else if baud = 4800 then 12
  else if baud = 9600 then 13
  else if baud = 19200 then 14
  else if baud = 38400 then 15
  else if baud = 57600 then 4097
  else if baud = 115200 then 4098
  else if baud = 230400 then 4099
  else if baud = 460800 then 4100
  else if baud = 500000 then 4101
  else if baud = 576000 then 4102
  else if baud = 921600 then 4103
  else if baud = 1000000 then 4104
  else if baud = 1152000 then 4105
  else if baud = 1500000 then 4106
  else if baud = 2000000 then 4107
  else if baud = 2500000 then 4108
  else if baud = 3000000 then 4109
  else if baud = 3500000 then 4110
  else if baud = 4000000 then 4111
  else -1

/-- The function `uartdev_new` (uartdev.h lines 121-217). `malloc_dev` and
`malloc_port` say whether its two allocations succeed. The result is the new
handle, or the `errno` left with a `NULL` result, and the environment of the
device, on which the function makes no call. -/
def uartdev_new (malloc_dev malloc_port : Bool) (w : World) (port : Option (List Nat))
    (baud data_bit : Int) (parity : Nat) (stop_bit : Int) : Except Int uartdev_t × World :=
  match port with
  | none => (Except.error EINVAL, w)
  | some p =>
    if p = [] then (Except.error EINVAL, w)
    else if _get_baud baud < 0 then (Except.error EINVAL, w)
    else if malloc_dev = false then (Except.error ENOMEM, w)
    else if malloc_port = false then (Except.error ENOMEM, w)
    else if ¬ (data_bit = 5 ∨ data_bit = 6 ∨ data_bit = 7 ∨ data_bit = 8) then
      (Except.error EINVAL, w)
    else if ¬ (stop_bit = 1 ∨ stop_bit = 2) then (Except.error EINVAL, w)
    else if ¬ (parity = 78 ∨ parity = 69 ∨ parity = 79 ∨
        parity = 110 ∨ parity = 101 ∨ parity = 111) then
      (Except.error EINVAL, w)
    else
      (Except.ok { fd := -1, port := p, baud := baud, data_bit := data_bit.toNat,
                   parity := parity, stop_bit := stop_bit.toNat }, w)

/-- The arguments `uartdev_new` is specified to accept: a non-empty port name,
a supported baud rate, 5 to 8 data bits, 1 or 2 stop bits and a parity letter
among `N`, `E`, `O`, `n`, `e`, `o`. -/
def framing_valid (port : Option (List Nat)) (baud data_bit : Int) (parity : Nat)
    (stop_bit : Int) : Prop :=
  (∃ p, port = some p ∧ p ≠ []) ∧ 0 ≤ _get_baud baud ∧
  (data_bit = 5 ∨ data_bit = 6 ∨ data_bit = 7 ∨ data_bit = 8) ∧
  (stop_bit = 1 ∨ stop_bit = 2) ∧
  (parity = 78 ∨ parity = 69 ∨ parity = 79 ∨ parity = 110 ∨ parity = 101 ∨ parity = 111)

/-- The function `parse_uart_config` (args_parser.c lines 41-92): the returned
value and the three outputs `*data_bit`, `*parity`, `*stop_bit` as the call
leaves them. -/
def parse_uart_config (signed_char : Bool) (str : List Nat) (data_bit : Int) (parity : Nat)
    (stop_bit : Int) : Int × Int × Nat × Int :=
  let len : Int := str.length
  if len < 3 ∨ len > 4 then (-1, data_bit, parity, stop_bit)
  else
    let d := char_value signed_char (str.getD 0 0) - 48
    if d < 5 ∨ d > 8 then (-1, data_bit, parity, stop_bit)
    else
      let p := toupper (str.getD 1 0)
      if p ≠ 78 ∧ p ≠ 69 ∧ p ≠ 79 then (-1, data_bit, parity, stop_bit)
      else
        let s :=
          if len = 3 then char_value signed_char (str.getD 2 0) - 48
          else (char_value signed_char (str.getD 2 0) - 48) * 10 +
            (char_value signed_char (str.getD 3 0) - 48)
        if s ≠ 1 ∧ s ≠ 2 then (-1, data_bit, parity, stop_bit)
        else (0, d, p, s)

/-! ### Sample inputs -/

/-- A sample handle: an open port on descriptor 3, set to 115200 8N1. -/
def sample_dev : uartdev_t :=
  { fd := 3, port := [47, 100, 101, 118], baud := 115200, data_bit := 8, parity := 78,
    stop_bit := 1 }

/-- A sample environment with a looped-back port that echoes "Hi": every write
reports 2 bytes, every wait finds the port readable, every read delivers the
bytes of "Hi"; the flag is cleared after it has been read twice. -/
def echo_world : World :=
  { g_running := fun k => decide (k < 2),
    tcflush_ret := fun _ => 0,
    write_ret := fun _ => 2,
    poll_ret := fun _ => { ret := 1, errno := 0, revents := 1 },
    read_ret := fun _ => read_result.data [72, 105],
    trace := [],
    out := [] }

/-- A sample environment with a silent port: every wait times out; the flag is
cleared after it has been read twice. -/
def idle_world : World :=
  { g_running := fun k => decide (k < 2),
    tcflush_ret := fun _ => 0,
    write_ret := fun _ => 2,
    poll_ret := fun _ => { ret := 0, errno := 0, revents := 0 },
    read_ret := fun _ => read_result.data [],
    trace := [],
    out := [] }

/-- A sample environment that is never cancelled and in which every write
reports 2 bytes. -/
def steady_world : World :=
  { g_running := fun _ => true,
    tcflush_ret := fun _ => 0,
    write_ret := fun _ => 2,
    poll_ret := fun _ => { ret := 0, errno := 0, revents := 0 },
    read_ret := fun _ => read_result.data [],
    trace := [],
    out := [] }

/-- A sample environment that is never cancelled, whose flush fails and whose
writes report 2 bytes twice and 1 byte from then on. -/
def short_write_world : World :=
  { g_running := fun _ => true,
    tcflush_ret := fun _ => -1,
    write_ret := fun k => if k < 2 then 2 else 1,
    poll_ret := fun _ => { ret := 1, errno := 0, revents := 1 },
    read_ret := fun _ => read_result.data [72, 105],
    trace := [],
    out := [] }

/-- A long ASCII send string: 131071 letters `A` (a command-line argument of
Linux can be that long). -/
def bulk_text : List Nat :=
  List.replicate 131071 65

/-- A sample environment that is never cancelled and in which every write
reports 131071 bytes. -/
def bulk_world : World :=
  { g_running := fun _ => true,
    tcflush_ret := fun _ => 0,
    write_ret := fun _ => 131071,
    poll_ret := fun _ => { ret := 0, errno := 0, revents := 0 },
    read_ret := fun _ => read_result.data [],
    trace := [],
    out := [] }

/-- A sample environment like `bulk_world`, cancelled after 16385
iterations. -/
def bulk_cancel_world : World :=
  { g_running := fun k => decide (k < 16385),
    tcflush_ret := fun _ => 0,
    write_ret := fun _ => 131071,
    poll_ret := fun _ => { ret := 0, errno := 0, revents := 0 },
    read_ret := fun _ => read_result.data [],
    trace := [],
    out := [] }

/-- A sample environment in which every wait finds data and every read
delivers 255 bytes, cancelled after 8421505 iterations. -/
def flood_world : World :=
  { g_running := fun k => decide (k < 8421505),
    tcflush_ret := fun _ => 0,
    write_ret := fun _ => 0,
    poll_ret := fun _ => { ret := 1, errno := 0, revents := 1 },
    read_ret := fun _ => read_result.data (List.replicate 255 0),
    trace := [],
    out := [] }

/-- A `tcflush` call. -/
def Event.is_tcflush : Event → Bool
  | Event.tcflush _ _ => true
  | _ => false

/-- Two environments agree from the recorded calls `p`, respectively `q`, on:
they hold the same answers for everything but `tcflush`, have printed the same
lines, and have recorded the same calls after `p`, respectively `q`. -/
def World.agree (p q : List Event) (w v : World) : Prop :=
  w.g_running = v.g_running ∧ w.write_ret = v.write_ret ∧ w.poll_ret = v.poll_ret ∧
  w.read_ret = v.read_ret ∧ w.out = v.out ∧ ∃ t, w.trace = p ++ t ∧ v.trace = q ++ t

/-- The recorded calls other than `tcflush`. -/
def calls_but_flush (t : List Event) : List Event :=
  t.filter (fun e => !e.is_tcflush)

/-- A sample environment like `echo_world` but with a failing flush. -/
def flush_fail_world : World :=
  { g_running := fun k => decide (k < 2),
    tcflush_ret := fun _ => -1,
    write_ret := fun _ => 2,
    poll_ret := fun _ => { ret := 1, errno := 0, revents := 1 },
    read_ret := fun _ => read_result.data [72, 105],
    trace := [],
    out := [] }

/-! ### The script of the file mode (json_config.h, json_config.c) -/

/-- The structure `send_item_t` (json_config.h lines 12-17); `hex_data` is a
`char *`, `none` standing for `NULL`. -/
structure send_item_t where
  number : Int
  hex_data : Option (List Nat)
  delay : Int
  enable : Int
  deriving DecidableEq, Repr

/-- The structure `json_config_t` (json_config.h lines 19-24); `send_list` is
the array `send_list` points to, `none` standing for `NULL`. -/
structure json_config_t where
  group_name : Option (List Nat)
  cycle_count : Int
  send_list : Option (List send_item_t)
  send_list_count : Int
  deriving DecidableEq, Repr

/-- The items of a script: the array behind `send_list`, empty for `NULL`. -/
def json_config_t.items (c : json_config_t) : List send_item_t :=
  c.send_list.getD []

/-- A well-formed script: `send_list_count` is the number of items in the array
(as `parse_json_file` builds it, lines 126-144). -/
def json_config_t.well_formed (c : json_config_t) : Prop :=
  c.send_list_count = (c.items.length : Int)

instance (c : json_config_t) : Decidable c.well_formed := by
  unfold json_config_t.well_formed; infer_instance

/-- The `for` loop of `validate_json_config` (json_config.c lines 234-260) over
the items from index `i` on; 0 stands for falling out of the loop. -/
def validate_items : List send_item_t → Int
  | [] => 0
  | item :: rest =>
    if item.delay < 1 ∨ item.delay > 1000 then -1
    else
      match item.hex_data with
      | none => -1
      | some h =>
        let len : Int := h.length
        if len = 0 then -1
        else if len % 2 ≠ 0 then -1
        else validate_items rest

/-- The function `validate_json_config` (json_config.c lines 211-263): the
returned value and the configuration as the call leaves it. -/
def validate_json_config (config : Option json_config_t) : Int × Option json_config_t :=
  match config with
  | none => (-1, config)
  | some c =>
    if c.cycle_count < 1 then (-1, config)
    else
      match c.send_list with
      | none => (-1, config)
      | some l =>
        if c.send_list_count = 0 then (-1, config)
        else (validate_items (l.take c.send_list_count.toNat), config)

/-- What the specification asks of a script item: a delay of 1 to 1000 ms and a
hex string, present, of non-zero even length. -/
def send_item_t.valid (item : send_item_t) : Prop :=
  1 ≤ item.delay ∧ item.delay ≤ 1000 ∧
    ∃ h, item.hex_data = some h ∧ h.length ≠ 0 ∧ h.length % 2 = 0

/-- A sample script: one cycle of a single enabled item whose text "zz" is of
even length but not hexadecimal. -/
def odd_script : json_config_t :=
  { group_name := some [71],
    cycle_count := 1,
    send_list := some [{ number := 1, hex_data := some [122, 122], delay := 10, enable := 1 }],
    send_list_count := 1 }

/-- A sample script: two cycles of three items, "4869", "0A" (disabled) and
"21", with delays of 10, 20 and 30 ms. -/
def sample_script : json_config_t :=
  { group_name := some [71],
    cycle_count := 2,
    send_list := some
      [{ number := 1, hex_data := some [52, 56, 54, 57], delay := 10, enable := 1 },
       { number := 2, hex_data := some [48, 65], delay := 20, enable := 0 },
       { number := 3, hex_data := some [50, 49], delay := 30, enable := 1 }],
    send_list_count := 3 }

/-! ### The scripted-file protocol

`uart_file_test` is declared in uart_assist.h and called from main.c, but its
body is not among the sources; it is modelled from the specification. -/

/-- Modelled from the spec: whether a script item is enabled (the `Enable` flag
of the script, 0 or 1, read as a C truth value). The body of `uart_file_test`
is missing from the sources. -/
def send_item_t.enabled (item : send_item_t) : Bool :=
  decide (item.enable ≠ 0)

/-- The hex text of a script item (empty for `NULL`). -/
def send_item_t.text (item : send_item_t) : List Nat :=
  item.hex_data.getD []

/-- The payload a script item denotes: the bytes of the pairs of its text. -/
def send_item_t.payload (item : send_item_t) : List Nat :=
  hex_pairs item.text

/-- Modelled from the spec: the step of `uart_file_test` (missing from the
sources) for one script item. An item with `enabled = false` is skipped
entirely (no send, no delay); otherwise its text is decoded (`hexDecode`, into
a buffer of just the size needed), the payload is written in full (a decoding
failure or a write that reports another count fails the step), and the item's
own delay is waited. -/
def file_send_item (w : World) (dev : Option uartdev_t) (item : send_item_t) : Int × World :=
  if item.enabled = false then (0, w)
  else
    match item.hex_data with
    | none => (-1, w)
    | some h =>
      let r := parse_hex_string h (List.replicate (h.length / 2) 0) ((h.length / 2 : Nat) : Int)
      if r.1 < 0 then (-1, w)
      else
        let s := uartdev_send w dev r.2 r.1
        if s.1 ≠ r.1 then (-1, s.2)
        else (0, s.2.usleep (item.delay * 1000))

/-- Modelled from the spec: one pass of `uart_file_test` (missing from the
sources) over the items in order; the first failing step aborts the pass. -/
def file_send_items (dev : Option uartdev_t) : List send_item_t → World → Int × World
  | [], w => (0, w)
  | item :: rest, w =>
    if (file_send_item w dev item).1 < 0 then (-1, (file_send_item w dev item).2)
    else file_send_items dev rest (file_send_item w dev item).2

/-- Modelled from the spec: the `repeat_count` cycles of `uart_file_test`
(missing from the sources); a failing cycle aborts the run. -/
def file_cycles (dev : Option uartdev_t) (items : List send_item_t) : Nat → World → Int × World
  | 0, w => (0, w)
  | k + 1, w =>
    if (file_send_items dev items w).1 < 0 then (-1, (file_send_items dev items w).2)
    else file_cycles dev items k (file_send_items dev items w).2

/-- Modelled from the spec: the scripted-file protocol `uart_file_test`, whose
body is missing from the sources, on a script already parsed (`none` for a
script that could not be parsed). A script that `validate_json_config` rejects
fails before anything is sent; otherwise the items are sent for `cycle_count`
cycles, the first failing send aborting the whole run. -/
def uart_file_test (w : World) (dev : Option uartdev_t) (config : Option json_config_t) :
    Int × World :=
  match dev, config with
  | none, _ => (-1, w)
  | some _, none => (-1, w)
  | some d, some c =>
    if (validate_json_config (some c)).1 ≠ 0 then (-1, w)
    else file_cycles (some d) c.items c.cycle_count.toNat w

/-- The sends a script asks for, in order: in each of its `cycle_count` cycles
the enabled items, in their original order. -/
def json_config_t.schedule (c : json_config_t) : List send_item_t :=
  (List.replicate c.cycle_count.toNat (c.items.filter send_item_t.enabled)).flatten

/-- The calls of a successful send of a script item on descriptor `fd`: the
write of its payload, reporting its length, then its own delay. -/
def item_events (fd : Int) (item : send_item_t) : List Event :=
  [Event.write fd item.payload ((item.text.length / 2 : Nat) : Int),
    Event.usleep (item.delay * 1000)]

/-- A script item that can be sent: its flag is 0 or 1 and, if enabled, its
text is a non-empty even-length string of hex digits. -/
def send_item_t.sendable (item : send_item_t) : Prop :=
  (item.enable = 0 ∨ item.enable = 1) ∧
  (item.enabled = true → ∃ h, item.hex_data = some h ∧ h ≠ [] ∧ h.length % 2 = 0 ∧
    ∀ ch ∈ h, is_hex_digit ch)

/-- A sample environment for the sample script: the writes report 2 bytes and
1 byte in turn, as its two enabled payloads are long. -/
def script_world : World :=
  { g_running := fun _ => true,
    tcflush_ret := fun _ => 0,
    write_ret := fun k => if k % 2 = 0 then 2 else 1,
    poll_ret := fun _ => { ret := 0, errno := 0, revents := 0 },
    read_ret := fun _ => read_result.data [],
    trace := [],
    out := [] }

/-! ### Port set-up (uartdev.h lines 246-451) -/

/-- The error number `EALREADY` of `<errno.h>`. -/
def EALREADY : Int := 114

/-- The fields of `struct termios` that `uartdev_setup` fills: the four flag
words, the two control characters `c_cc[VMIN]` and `c_cc[VTIME]`, and the two
speeds. -/
structure termios where
  c_iflag : Nat
  c_oflag : Nat
  c_cflag : Nat
  c_lflag : Nat
  c_cc_VMIN : Nat
  c_cc_VTIME : Nat
  c_ispeed : Nat
  c_ospeed : Nat
  deriving DecidableEq, Repr

/-- The control-flag bit `CLOCAL` of the Linux `<termios.h>` (octal 4000). -/
def CLOCAL : Nat := 2048

/-- The control-flag bit `CREAD` (octal 200). -/
def CREAD : Nat := 128

/-- The control-flag bit `CRTSCTS` (octal 20000000000). -/
def CRTSCTS : Nat := 2147483648

/-- The control-flag mask `CSIZE` (octal 60). -/
def CSIZE : Nat := 48

/-- The control-flag value `CS5`. -/
def CS5 : Nat := 0

/-- The control-flag value `CS6` (octal 20). -/
def CS6 : Nat := 16

/-- The control-flag value `CS7` (octal 40). -/
def CS7 : Nat := 32

/-- The control-flag value `CS8` (octal 60). -/
def CS8 : Nat := 48

/-- The control-flag bit `CSTOPB` (octal 100). -/
def CSTOPB : Nat := 64

/-- The control-flag bit `PARENB` (octal 400). -/
def PARENB : Nat := 256

/-- The control-flag bit `PARODD` (octal 1000). -/
def PARODD : Nat := 512

/-- The local-flag bit `ISIG`. -/
def ISIG : Nat := 1

/-- The local-flag bit `ICANON`. -/
def ICANON : Nat := 2

/-- The local-flag bit `ECHO` (octal 10). -/
def ECHO : Nat := 8

/-- The local-flag bit `ECHOE` (octal 20). -/
def ECHOE : Nat := 16

/-- The input-flag bit `INPCK` (octal 20). -/
def INPCK : Nat := 16

/-- The input-flag bit `IXON` (octal 2000). -/
def IXON : Nat := 1024

/-- The input-flag bit `IXANY` (octal 4000). -/
def IXANY : Nat := 2048

/-- The input-flag bit `IXOFF` (octal 10000). -/
def IXOFF : Nat := 4096

/-- The output-flag bit `OPOST`. -/
def OPOST : Nat := 1

/-- The assignment `x |= m` on a 32-bit flag word. -/
def set_bits (x m : Nat) : Nat :=
  x ||| m

/-- The assignment `x &= ~m` on a 32-bit flag word (`tcflag_t`). -/
def clear_bits (x m : Nat) : Nat :=
  x &&& (4294967295 ^^^ m)

/-- What the system answers to the calls of `uartdev_setup`: the values
returned by `open`, `flock`, `tcsetattr` and the two `fcntl` calls, the `errno`
a failing call leaves, and the effect of the library function `cfsetspeed` on
the settings. -/
structure setup_env where
  open_ret : Int
  flock_ret : Int
  tcsetattr_ret : Int
  fcntl_getfl_ret : Int
  fcntl_setfl_ret : Int
  errno : Int
  cfsetspeed : termios → Int → termios

/-- What a call of `uartdev_setup` leaves: the returned value, the handle (with
its `fd` as the call set it) and the settings `newtio` handed to `tcsetattr`,
if the call got that far. -/
structure setup_result where
  ret : Int
  dev : Option uartdev_t
  newtio : Option termios

/-- The `switch (dev->data_bit)` of `uartdev_setup` (lines 313-330) on
`c_cflag`; `none` is the `default` branch. -/
def setup_data_bit (c_cflag : Nat) (data_bit : Nat) : Option Nat :=
  if data_bit = 5 then some (set_bits c_cflag CS5)
  else if data_bit = 6 then some (set_bits c_cflag CS6)
  else if data_bit = 7 then some (set_bits c_cflag CS7)
  else if data_bit = 8 then some (set_bits c_cflag CS8)
  else none

/-- The `switch (dev->stop_bit)` of `uartdev_setup` (lines 332-343) on
`c_cflag`; `none` is the `default` branch. -/
def setup_stop_bit (c_cflag : Nat) (stop_bit : Nat) : Option Nat :=
  if stop_bit = 1 then some (clear_bits c_cflag CSTOPB)
  else if stop_bit = 2 then some (set_bits c_cflag CSTOPB)
  else none

/-- The `switch (dev->parity)` of `uartdev_setup` (lines 345-365) on `c_cflag`,
with the cases `'N'`/`'n'`, `'E'`/`'e'` and `'O'`/`'o'`; `none` is the `default`
branch. -/
def setup_parity (c_cflag : Nat) (parity : Nat) : Option Nat :=
  if parity = 78 ∨ parity = 110 then some (clear_bits (clear_bits c_cflag PARENB) PARODD)
  else if parity = 69 ∨ parity = 101 then some (clear_bits (set_bits c_cflag PARENB) PARODD)
  else if parity = 79 ∨ parity = 111 then some (set_bits (set_bits c_cflag PARENB) PARODD)
  else none

/-- The input-parity test of `uartdev_setup` (lines 417-422):
`if (dev->parity == 'N') c_iflag &= ~INPCK; else c_iflag |= INPCK;`. -/
def setup_inpck (c_iflag : Nat) (parity : Nat) : Nat :=
  if parity = 78 then clear_bits c_iflag INPCK
  else set_bits c_iflag INPCK

/-- The settings `uartdev_setup` builds between `bzero(&newtio, ...)` and
`tcflush` (lines 285-430), or `none` where a `default` branch returns
`-EINVAL`. -/
def setup_newtio (env : setup_env) (d : uartdev_t) : Option termios :=
  let t0 : termios :=
    { c_iflag := 0, c_oflag := 0, c_cflag := 0, c_lflag := 0, c_cc_VMIN := 0,
      c_cc_VTIME := 0, c_ispeed := 0, c_ospeed := 0 }
  let t1 := env.cfsetspeed t0 (_get_baud d.baud)
  let c1 := clear_bits (clear_bits (set_bits t1.c_cflag (CLOCAL ||| CREAD)) CRTSCTS) CSIZE
  match setup_data_bit c1 d.data_bit with
  | none => none
  | some c2 =>
    match setup_stop_bit c2 d.stop_bit with
    | none => none
    | some c3 =>
      match setup_parity c3 d.parity with
      | none => none
      | some c4 =>
        some { t1 with
          c_cflag := c4,
          c_lflag := clear_bits t1.c_lflag (ICANON ||| ECHO ||| ECHOE ||| ISIG),
          c_iflag := clear_bits (setup_inpck t1.c_iflag d.parity) (IXON ||| IXOFF ||| IXANY),
          c_oflag := clear_bits t1.c_oflag OPOST,
          c_cc_VMIN := 0,
          c_cc_VTIME := 0 }

/-- The function `uartdev_setup` (uartdev.h lines 246-451). -/
def uartdev_setup (env : setup_env) (dev : Option uartdev_t) : setup_result :=
  match dev with
  | none => { ret := -EINVAL, dev := none, newtio := none }
  | some d =>
    if d.fd ≥ 0 then { ret := -EALREADY, dev := some d, newtio := none }
    else
      let d1 : uartdev_t := { d with fd := env.open_ret }
      if d1.fd < 0 then { ret := -env.errno, dev := some d1, newtio := none }
      else if env.flock_ret < 0 then { ret := -env.errno, dev := some d1, newtio := none }
      else
        match setup_newtio env d1 with
        | none => { ret := -EINVAL, dev := some d1, newtio := none }
        | some newtio =>
          if env.tcsetattr_ret ≠ 0 then
            { ret := -env.errno, dev := some d1, newtio := some newtio }
          else if env.fcntl_getfl_ret < 0 then
            { ret := -env.errno, dev := some d1, newtio := some newtio }
          else if env.fcntl_setfl_ret < 0 then
            { ret := -env.errno, dev := some d1, newtio := some newtio }
          else { ret := 0, dev := some d1, newtio := some newtio }

/-- The speed setting of the GNU C library on Linux, for a speed constant
`B...`: the constant goes into the `CBAUD | CBAUDEX` bits (octal 10017) of
`c_cflag` and into both speed fields; an unknown speed leaves the settings as
they are. -/
def linux_cfsetspeed (t : termios) (speed : Int) : termios :=
  if speed < 0 then t
  else { t with c_cflag := set_bits (clear_bits t.c_cflag 4111) speed.toNat,
                c_ispeed := speed.toNat, c_ospeed := speed.toNat }

/-- A sample system in which every call of `uartdev_setup` succeeds and `open`
returns descriptor 3. -/
def sample_env : setup_env :=
  { open_ret := 3, flock_ret := 0, tcsetattr_ret := 0, fcntl_getfl_ret := 2050,
    fcntl_setfl_ret := 0, errno := 0, cfsetspeed := linux_cfsetspeed }

/-- A sample closed handle as `uartdev_new` builds it for 115200 baud, 8 data
bits, the given parity letter and 1 stop bit. -/
def closed_dev (parity : Nat) : uartdev_t :=
  { fd := -1, port := [47, 100, 101, 118], baud := 115200, data_bit := 8, parity := parity,
    stop_bit := 1 }

/-! ## Theorems -/

theorem is_hex_lower_tolower (c : Nat) :
    is_hex_lower (tolower c) = true ↔ is_hex_digit c := by
  unfold is_hex_lower tolower is_hex_digit
  split <;> simp <;> omega

theorem nibble_tolower (c : Nat) (h : is_hex_digit c) :
    nibble (tolower c) = hex_value c := by
  unfold is_hex_digit at h
  unfold nibble tolower hex_value
  split_ifs <;> omega

theorem hex_value_lt (c : Nat) : hex_value c < 16 := by
  unfold hex_value
  split_ifs <;> omega

theorem shift_or_nibbles (a b : Nat) (ha : a < 16) (hb : b < 16) :
    (((a <<< 4) % 256) ||| b) % 256 = 16 * a + b := by
  interval_cases a <;> interval_cases b <;> rfl

theorem hex_byte_eq (c1 c2 : Nat) (h1 : is_hex_digit c1) (h2 : is_hex_digit c2) :
    hex_byte (tolower c1) (tolower c2) = 16 * hex_value c1 + hex_value c2 := by
  unfold hex_byte
  rw [nibble_tolower c1 h1, nibble_tolower c2 h2]
  exact shift_or_nibbles _ _ (hex_value_lt c1) (hex_value_lt c2)

theorem take_succ_set_self (buf : List Nat) (j : Nat) (v : Nat) (hj : j < buf.length) :
    List.take (j + 1) (buf.set j v) = List.take j buf ++ [v] := by
  induction buf generalizing j with
  | nil => simp at hj
  | cons a t ih =>
    cases j with
    | zero => simp
    | succ j => simp at hj; simp [ih j hj]

/-- On a string of hex-digit pairs the loop never fails: it returns the output
index advanced by the number of pairs and has stored the bytes of the pairs
from index `j` on, leaving every other byte of the buffer alone. -/
theorem parse_hex_loop_ok : ∀ (n : Nat) (s : List Nat) (j : Nat) (buf : List Nat),
    s.length = 2 * n → (∀ c ∈ s, is_hex_digit c) → j + n ≤ buf.length →
    parse_hex_loop s j buf =
      (((j + n : Nat) : Int), buf.take j ++ hex_pairs s ++ buf.drop (j + n)) := by
  intro n
  induction n with
  | zero =>
    intro s j buf hlen _ _
    have hs : s = [] := List.length_eq_zero.mp (by simpa using hlen)
    subst hs
    simp [parse_hex_loop, hex_pairs]
  | succ n ih =>
    intro s j buf hlen hhex hcap
    match s, hlen, hhex with
    | c1 :: c2 :: rest, hlen, hhex =>
      have h1 : is_hex_digit c1 := hhex c1 (by simp)
      have h2 : is_hex_digit c2 := hhex c2 (by simp)
      have hrest : rest.length = 2 * n := by simp at hlen; omega
      have hl1 := (is_hex_lower_tolower c1).mpr h1
      have hl2 := (is_hex_lower_tolower c2).mpr h2
      have hcap2 : (j + 1) + n ≤ (buf.set j (hex_byte (tolower c1) (tolower c2))).length := by
        simp; omega
      simp only [parse_hex_loop, hl1, hl2, Bool.not_true, Bool.false_eq_true, if_false]
      rw [ih rest (j + 1) _ hrest (fun c hc => hhex c (by simp [hc])) hcap2]
      rw [hex_byte_eq c1 c2 h1 h2]
      have hj : j < buf.length := by omega
      simp only [hex_pairs]
      refine Prod.ext (by simp; omega) ?_
      simp only
      rw [take_succ_set_self buf j _ hj, List.drop_set_of_lt _ _ (by omega),
        show j + 1 + n = j + (n + 1) by omega]
      simp
    | [_], hlen, _ => simp at hlen; omega
    | [], hlen, _ => simp at hlen

theorem hex_pairs_length : ∀ (n : Nat) (s : List Nat), s.length = 2 * n →
    (hex_pairs s).length = n := by
  intro n
  induction n with
  | zero =>
    intro s hlen
    have hs : s = [] := List.length_eq_zero.mp (by simpa using hlen)
    subst hs
    simp [hex_pairs]
  | succ n ih =>
    intro s hlen
    match s, hlen with
    | c1 :: c2 :: rest, hlen =>
      have hrest : rest.length = 2 * n := by simp at hlen; omega
      simp [hex_pairs, ih rest hrest]
    | [_], hlen => simp at hlen; omega
    | [], hlen => simp at hlen

theorem hex_pairs_getElem? : ∀ (j : Nat) (s : List Nat), 2 * j + 1 < s.length →
    (hex_pairs s)[j]? =
      some (16 * hex_value (s.getD (2 * j) 0) + hex_value (s.getD (2 * j + 1) 0)) := by
  intro j
  induction j with
  | zero =>
    intro s h
    match s, h with
    | c1 :: c2 :: rest, _ => simp [hex_pairs]
    | [_], h => simp at h
    | [], h => simp at h
  | succ j ih =>
    intro s h
    match s, h with
    | c1 :: c2 :: rest, h =>
      have hr : 2 * j + 1 < rest.length := by simp at h; omega
      have e1 : 2 * (j + 1) = (2 * j) + 1 + 1 := by omega
      have e2 : 2 * (j + 1) + 1 = (2 * j + 1) + 1 + 1 := by omega
      simp only [hex_pairs, List.getElem?_cons_succ, ih rest hr, e1, e2, List.getD_cons_succ]
    | [_], h => simp at h
    | [], h => simp at h

theorem upper_hex_digit_value (c : Nat) (h : is_hex_digit c) :
    upper_hex_digit (hex_value c) = toupper c := by
  unfold is_hex_digit at h
  unfold upper_hex_digit hex_value toupper
  split_ifs <;> omega

theorem fmt_02X_pair (c1 c2 : Nat) (h1 : is_hex_digit c1) (h2 : is_hex_digit c2) :
    fmt_02X (16 * hex_value c1 + hex_value c2) = [toupper c1, toupper c2] := by
  have hv := hex_value_lt c2
  have e1 : (16 * hex_value c1 + hex_value c2) / 16 = hex_value c1 := by omega
  have e2 : (16 * hex_value c1 + hex_value c2) % 16 = hex_value c2 := by omega
  simp only [fmt_02X, e1, e2, upper_hex_digit_value c1 h1, upper_hex_digit_value c2 h2]

theorem hex_pairs_reencode : ∀ (n : Nat) (s : List Nat), s.length = 2 * n →
    (∀ c ∈ s, is_hex_digit c) → (hex_pairs s).flatMap fmt_02X = s.map toupper := by
  intro n
  induction n with
  | zero =>
    intro s hlen _
    have hs : s = [] := List.length_eq_zero.mp (by simpa using hlen)
    subst hs
    simp [hex_pairs]
  | succ n ih =>
    intro s hlen hhex
    match s, hlen, hhex with
    | c1 :: c2 :: rest, hlen, hhex =>
      have hrest : rest.length = 2 * n := by simp at hlen; omega
      have h1 : is_hex_digit c1 := hhex c1 (by simp)
      have h2 : is_hex_digit c2 := hhex c2 (by simp)
      simp [hex_pairs, fmt_02X_pair c1 c2 h1 h2,
        ih rest hrest (fun c hc => hhex c (by simp [hc]))]
    | [_], hlen, _ => simp at hlen; omega
    | [], hlen, _ => simp at hlen

/-- What a successful call does, in one equation: on a non-empty string of
`2 * n` hex digits and a capacity of at least `n` (within the buffer), the call
returns `n`, stores the decoded bytes at the front and keeps the rest. -/
theorem parse_hex_string_ok (n : Nat) (s buf : List Nat) (buf_len : Int)
    (hne : s ≠ []) (hlen : s.length = 2 * n) (hhex : ∀ c ∈ s, is_hex_digit c)
    (hcap : (n : Int) ≤ buf_len) (hbuf : buf_len ≤ (buf.length : Int)) :
    parse_hex_string s buf buf_len = ((n : Int), hex_pairs s ++ buf.drop n) := by
  have hpos : 0 < s.length := List.length_pos.mpr hne
  have hn : 0 < n := by omega
  have h1 : ¬ buf_len ≤ 0 := by omega
  have h2 : ¬ (((s.length : Nat) : Int) = 0 ∨ ((s.length : Nat) : Int) % 2 ≠ 0) := by
    omega
  have h3 : ¬ (((s.length : Nat) : Int) / 2 > buf_len) := by omega
  have hb : 0 + n ≤ buf.length := by omega
  simp only [parse_hex_string, h1, h2, h3, if_false]
  rw [parse_hex_loop_ok n s 0 buf hlen hhex hb]
  simp

theorem parse_hex_loop_frame (s : List Nat) (j : Nat) (buf : List Nat) :
    (parse_hex_loop s j buf).2.length = buf.length ∧
    ∀ idx, (idx < j ∨ j + valid_pairs s ≤ idx) →
      (parse_hex_loop s j buf).2[idx]? = buf[idx]? := by
  induction s, j, buf using parse_hex_loop.induct with
  | case1 c1 c2 rest j buf c1l h =>
    simp only [parse_hex_loop]
    rw [if_pos h]
    simp
  | case2 c1 c2 rest j buf c1l c2l h1 h2 =>
    simp only [parse_hex_loop]
    rw [if_neg h1, if_pos h2]
    simp
  | case3 c1 c2 rest j buf c1l c2l h1 h2 ih =>
    simp only [parse_hex_loop]
    rw [if_neg h1, if_neg h2]
    have d1 : is_hex_digit c1 := (is_hex_lower_tolower c1).mp (by simpa using h1)
    have d2 : is_hex_digit c2 := (is_hex_lower_tolower c2).mp (by simpa using h2)
    refine ⟨by rw [ih.1]; simp, ?_⟩
    intro idx hidx
    have hv : valid_pairs (c1 :: c2 :: rest) = valid_pairs rest + 1 := by
      simp [valid_pairs, d1, d2]
    rw [hv] at hidx
    rw [ih.2 idx (by omega)]
    exact List.getElem?_set_ne (by omega)
  | case4 s j buf h =>
    match s, h with
    | [], _ => simp [parse_hex_loop]
    | [_], _ => simp [parse_hex_loop]
    | c1 :: c2 :: rest, h => exact absurd rfl (fun e => h c1 c2 rest e)

theorem parse_hex_loop_invalid : ∀ (n : Nat) (s : List Nat) (j : Nat) (buf : List Nat),
    s.length = 2 * n → (∃ c ∈ s, ¬ is_hex_digit c) →
    (parse_hex_loop s j buf).1 = -1 := by
  intro n
  induction n with
  | zero =>
    intro s j buf hlen hbad
    have hs : s = [] := List.length_eq_zero.mp (by simpa using hlen)
    subst hs
    simp at hbad
  | succ n ih =>
    intro s j buf hlen hbad
    match s, hlen, hbad with
    | c1 :: c2 :: rest, hlen, hbad =>
      have hrest : rest.length = 2 * n := by simp at hlen; omega
      simp only [parse_hex_loop]
      by_cases h1 : is_hex_digit c1
      · by_cases h2 : is_hex_digit c2
        · have hl1 := (is_hex_lower_tolower c1).mpr h1
          have hl2 := (is_hex_lower_tolower c2).mpr h2
          simp only [hl1, hl2, Bool.not_true, Bool.false_eq_true, if_false]
          apply ih rest _ _ hrest
          obtain ⟨c, hc, hbadc⟩ := hbad
          simp only [List.mem_cons] at hc
          rcases hc with rfl | rfl | hc
          · exact absurd h1 hbadc
          · exact absurd h2 hbadc
          · exact ⟨c, hc, hbadc⟩
        · have hl1 := (is_hex_lower_tolower c1).mpr h1
          have hl2 : is_hex_lower (tolower c2) = false := by
            rw [← Bool.not_eq_true, is_hex_lower_tolower]; exact h2
          simp [hl1, hl2]
      · have hl1 : is_hex_lower (tolower c1) = false := by
          rw [← Bool.not_eq_true, is_hex_lower_tolower]; exact h1
        simp [hl1]
    | [_], hlen, _ => simp at hlen; omega
    | [], hlen, _ => simp at hlen

/-- The bytes the loop has stored: output index `idx` among the leading valid
pairs holds the byte of its pair. -/
theorem parse_hex_loop_stored (s : List Nat) (j : Nat) (buf : List Nat) :
    ∀ idx, j ≤ idx → idx < j + valid_pairs s → idx < buf.length →
      (parse_hex_loop s j buf).2[idx]? = (hex_pairs s)[idx - j]? := by
  induction s, j, buf using parse_hex_loop.induct with
  | case1 c1 c2 rest j buf c1l h =>
    intro idx h1 h2 _
    have d1 : ¬ is_hex_digit c1 := fun d => by
      have := (is_hex_lower_tolower c1).mpr d
      simp [c1l, this] at h
    simp [valid_pairs, d1] at h2
    omega
  | case2 c1 c2 rest j buf c1l c2l h1 h2 =>
    intro idx h3 h4 _
    have d2 : ¬ is_hex_digit c2 := fun d => by
      have := (is_hex_lower_tolower c2).mpr d
      simp [c2l, this] at h2
    simp [valid_pairs, d2] at h4
    omega
  | case3 c1 c2 rest j buf c1l c2l h1 h2 ih =>
    intro idx hj hk hb
    have d1 : is_hex_digit c1 := (is_hex_lower_tolower c1).mp (by simpa using h1)
    have d2 : is_hex_digit c2 := (is_hex_lower_tolower c2).mp (by simpa using h2)
    have hv : valid_pairs (c1 :: c2 :: rest) = valid_pairs rest + 1 := by
      simp [valid_pairs, d1, d2]
    rw [hv] at hk
    simp only [parse_hex_loop]
    rw [if_neg h1, if_neg h2]
    rcases Nat.eq_or_lt_of_le hj with e | hlt
    · subst e
      rw [(parse_hex_loop_frame rest (j + 1) (buf.set j (hex_byte c1l c2l))).2 j
        (Or.inl (by omega))]
      rw [List.getElem?_set_self hb, hex_byte_eq c1 c2 d1 d2]
      simp [hex_pairs]
    · rw [ih idx (by omega) (by omega) (by simpa using hb)]
      have e : idx - j = (idx - (j + 1)) + 1 := by omega
      rw [e]
      simp [hex_pairs]
  | case4 s j buf h =>
    intro idx h1 h2 _
    match s, h with
    | [], _ => simp [valid_pairs] at h2; omega
    | [_], _ => simp [valid_pairs] at h2; omega
    | c1 :: c2 :: rest, h => exact absurd rfl (fun e => h c1 c2 rest e)

/-- A failing loop has met a pair that is not made of two hex digits: the
string goes on for at least one pair after its leading valid pairs. -/
theorem parse_hex_loop_fails (s : List Nat) (j : Nat) (buf : List Nat) :
    (parse_hex_loop s j buf).1 = -1 → 2 * valid_pairs s + 2 ≤ s.length := by
  induction s, j, buf using parse_hex_loop.induct with
  | case1 c1 c2 rest j buf c1l h =>
    intro _
    have d1 : ¬ is_hex_digit c1 := fun d => by
      have := (is_hex_lower_tolower c1).mpr d
      simp [c1l, this] at h
    simp [valid_pairs, d1]
  | case2 c1 c2 rest j buf c1l c2l h1 h2 =>
    intro _
    have d2 : ¬ is_hex_digit c2 := fun d => by
      have := (is_hex_lower_tolower c2).mpr d
      simp [c2l, this] at h2
    simp [valid_pairs, d2]
  | case3 c1 c2 rest j buf c1l c2l h1 h2 ih =>
    intro hf
    have d1 : is_hex_digit c1 := (is_hex_lower_tolower c1).mp (by simpa using h1)
    have d2 : is_hex_digit c2 := (is_hex_lower_tolower c2).mp (by simpa using h2)
    have hv : valid_pairs (c1 :: c2 :: rest) = valid_pairs rest + 1 := by
      simp [valid_pairs, d1, d2]
    simp only [parse_hex_loop] at hf
    rw [if_neg h1, if_neg h2] at hf
    have := ih hf
    rw [hv]
    simp only [List.length_cons]
    omega
  | case4 s j buf h =>
    intro hf
    match s, h, hf with
    | [], _, hf => simp [parse_hex_loop] at hf
    | [_], _, hf => simp [parse_hex_loop] at hf
    | c1 :: c2 :: rest, h, _ => exact absurd rfl (fun e => h c1 c2 rest e)

/-! ### Claims on `parse_hex_string` -/

/-- C1, as stated, fails on the empty string: it has even length, consists of
hex digits only and fits any capacity, yet `parse_hex_string` returns -1
(the `len == 0` guard of line 35). -/
theorem parse_hex_string_empty_rejected :
    ([] : List Nat).length % 2 = 0 ∧ (∀ c ∈ ([] : List Nat), is_hex_digit c) ∧
    ((([] : List Nat).length / 2 : Nat) : Int) ≤ 4 ∧
    (parse_hex_string [] [0, 0, 0, 0] 4).1 = -1 := by
  refine ⟨rfl, ?_, by decide, by decide⟩
  intro c hc
  simp at hc

/-- C1 (amended): for every non-empty even-length string `s` of hexadecimal
digits (any mix of cases) and every capacity `buf_len >= len(s)/2` of the
buffer, `parse_hex_string` succeeds, returning `len(s)/2`, and re-encoding the
decoded bytes as two upper-case hex digits per byte reproduces `s` converted
to upper case. -/
theorem parse_hex_string_roundtrip (s buf : List Nat) (buf_len : Int)
    (hne : s ≠ []) (heven : s.length % 2 = 0) (hhex : ∀ c ∈ s, is_hex_digit c)
    (hcap : ((s.length / 2 : Nat) : Int) ≤ buf_len)
    (hbuf : buf_len ≤ (buf.length : Int)) :
    (parse_hex_string s buf buf_len).1 = ((s.length / 2 : Nat) : Int) ∧
    ((parse_hex_string s buf buf_len).2.take (s.length / 2)).flatMap fmt_02X =
      s.map toupper := by
  have hlen : s.length = 2 * (s.length / 2) := by omega
  rw [parse_hex_string_ok (s.length / 2) s buf buf_len hne hlen hhex hcap hbuf]
  refine ⟨rfl, ?_⟩
  have hl := hex_pairs_length (s.length / 2) s hlen
  simp only
  rw [List.take_left' hl]
  exact hex_pairs_reencode (s.length / 2) s hlen hhex

/-- Witness of C1 (amended) on the string "aF3c" and a 4-byte buffer: the
call returns 2 and the two bytes re-encode to "AF3C". -/
theorem parse_hex_string_roundtrip_witness :
    (parse_hex_string [97, 70, 51, 99] [0, 0, 0, 0] 4).1 = 2 ∧
    ((parse_hex_string [97, 70, 51, 99] [0, 0, 0, 0] 4).2.take 2).flatMap fmt_02X =
      [65, 70, 51, 67] :=
  parse_hex_string_roundtrip [97, 70, 51, 99] [0, 0, 0, 0] 4 (by decide) (by decide)
    (by decide) (by decide) (by decide)

/-- C2: for every string of odd length or holding a character that is not a
hexadecimal digit, and for every buffer and capacity, `parse_hex_string`
returns -1. -/
theorem parse_hex_string_rejects (s buf : List Nat) (buf_len : Int)
    (h : s.length % 2 = 1 ∨ ∃ c ∈ s, ¬ is_hex_digit c) :
    (parse_hex_string s buf buf_len).1 = -1 := by
  unfold parse_hex_string
  by_cases h1 : buf_len ≤ 0
  · simp [h1]
  · by_cases h2 : ((s.length : Nat) : Int) = 0 ∨ ((s.length : Nat) : Int) % 2 ≠ 0
    · simp only [h1, h2, if_true, if_false]
    · by_cases h3 : ((s.length : Nat) : Int) / 2 > buf_len
      · simp only [h1, h2, h3, if_true, if_false]
      · simp only [h1, h2, h3, if_false]
        have hlen : s.length = 2 * (s.length / 2) := by omega
        rcases h with hodd | hbad
        · omega
        · exact parse_hex_loop_invalid (s.length / 2) s 0 buf hlen hbad

/-- Witness of C2 on "1g" (the second character is no hex digit) with a
2-byte buffer. -/
theorem parse_hex_string_rejects_witness :
    (parse_hex_string [49, 103] [0, 0] 2).1 = -1 :=
  parse_hex_string_rejects [49, 103] [0, 0] 2 (Or.inr ⟨103, by decide, by decide⟩)

/-- C3, as stated, fails on "12zz" with a zeroed 2-byte buffer: the call
returns -1 after the first pair has already been stored, so the buffer reads
0x12, 0x00 instead of 0x00, 0x00. -/
theorem parse_hex_string_writes_before_failing :
    (parse_hex_string [49, 50, 122, 122] [0, 0] 2).1 = -1 ∧
    (parse_hex_string [49, 50, 122, 122] [0, 0] 2).2 = [18, 0] ∧
    (parse_hex_string [49, 50, 122, 122] [0, 0] 2).2 ≠ [0, 0] := by
  decide

/-- C3 (amended): whenever `parse_hex_string` fails (returns -1), the buffer
keeps its length. If the call fails at one of the checks made before the loop
(capacity not positive, empty string, odd length, more pairs than the
capacity), the buffer is byte for byte the buffer from before the call.
Otherwise the loop met a bad pair after `k` leading pairs of hex digits, `k`
less than the number of pairs: bytes `0 .. k-1` of the buffer hold the values
of those pairs, and every byte at an index `>= k` is the byte from before the
call; with `k = 0` the buffer is unchanged as a whole. -/
theorem parse_hex_string_failure_frame (s buf : List Nat) (buf_len : Int)
    (hfail : (parse_hex_string s buf buf_len).1 = -1) :
    (parse_hex_string s buf buf_len).2.length = buf.length ∧
    ((buf_len ≤ 0 ∨ s = [] ∨ s.length % 2 = 1 ∨ buf_len < ((s.length / 2 : Nat) : Int)) →
      (parse_hex_string s buf buf_len).2 = buf) ∧
    (¬ (buf_len ≤ 0 ∨ s = [] ∨ s.length % 2 = 1 ∨ buf_len < ((s.length / 2 : Nat) : Int)) →
      valid_pairs s < s.length / 2 ∧
      ∀ j, j < valid_pairs s → j < buf.length →
        (parse_hex_string s buf buf_len).2[j]? =
          some (16 * hex_value (s.getD (2 * j) 0) + hex_value (s.getD (2 * j + 1) 0))) ∧
    (∀ idx, valid_pairs s ≤ idx →
      (parse_hex_string s buf buf_len).2[idx]? = buf[idx]?) ∧
    (valid_pairs s = 0 → (parse_hex_string s buf buf_len).2 = buf) := by
  have hnil : s = [] ↔ ((s.length : Nat) : Int) = 0 := by
    rw [← List.length_eq_zero]
    omega
  by_cases hg : buf_len ≤ 0 ∨ s = [] ∨ s.length % 2 = 1 ∨
      buf_len < ((s.length / 2 : Nat) : Int)
  · have hsame : (parse_hex_string s buf buf_len).2 = buf := by
      unfold parse_hex_string
      by_cases h1 : buf_len ≤ 0
      · simp [h1]
      · by_cases h2 : ((s.length : Nat) : Int) = 0 ∨ ((s.length : Nat) : Int) % 2 ≠ 0
        · simp only [h1, h2, if_true, if_false]
        · by_cases h3 : ((s.length : Nat) : Int) / 2 > buf_len
          · simp only [h1, h2, h3, if_true, if_false]
          · exfalso
            rcases hg with h | h | h | h
            · exact h1 h
            · exact h2 (Or.inl (hnil.mp h))
            · omega
            · omega
    refine ⟨by rw [hsame], fun _ => hsame, fun h => absurd hg h, ?_, fun _ => hsame⟩
    intro idx _
    rw [hsame]
  · have h1 : ¬ buf_len ≤ 0 := fun h => hg (Or.inl h)
    have h2 : ¬ (((s.length : Nat) : Int) = 0 ∨ ((s.length : Nat) : Int) % 2 ≠ 0) := by
      rintro (h | h)
      · exact hg (Or.inr (Or.inl (hnil.mpr h)))
      · exact hg (Or.inr (Or.inr (Or.inl (by omega))))
    have h3 : ¬ (((s.length : Nat) : Int) / 2 > buf_len) := by
      intro h
      exact hg (Or.inr (Or.inr (Or.inr (by omega))))
    have hloop : parse_hex_string s buf buf_len = parse_hex_loop s 0 buf := by
      simp only [parse_hex_string, h1, h2, h3, if_false]
    rw [hloop] at hfail ⊢
    have hf := parse_hex_loop_frame s 0 buf
    have hbad := parse_hex_loop_fails s 0 buf hfail
    have hframe : ∀ idx, valid_pairs s ≤ idx →
        (parse_hex_loop s 0 buf).2[idx]? = buf[idx]? :=
      fun idx hidx => hf.2 idx (Or.inr (by omega))
    refine ⟨hf.1, fun h => absurd h hg, fun _ => ⟨by omega, ?_⟩, hframe, fun hk => ?_⟩
    · intro j hj hb
      rw [parse_hex_loop_stored s 0 buf j (Nat.zero_le _) (by omega) hb]
      exact hex_pairs_getElem? j s (by omega)
    · apply List.ext_getElem?
      intro idx
      exact hframe idx (by omega)

/-- Witness of C3 (amended) on "12zz": the call fails in the loop, one pair
was valid, byte 0 holds its value 0x12 and the byte at index 1 is untouched. -/
theorem parse_hex_string_failure_frame_witness :
    (parse_hex_string [49, 50, 122, 122] [7, 9] 2).2.length = [7, 9].length ∧
    (((2 : Int) ≤ 0 ∨ [49, 50, 122, 122] = [] ∨ [49, 50, 122, 122].length % 2 = 1 ∨
        (2 : Int) < (([49, 50, 122, 122].length / 2 : Nat) : Int)) →
      (parse_hex_string [49, 50, 122, 122] [7, 9] 2).2 = [7, 9]) ∧
    (¬ ((2 : Int) ≤ 0 ∨ [49, 50, 122, 122] = [] ∨ [49, 50, 122, 122].length % 2 = 1 ∨
        (2 : Int) < (([49, 50, 122, 122].length / 2 : Nat) : Int)) →
      valid_pairs [49, 50, 122, 122] < [49, 50, 122, 122].length / 2 ∧
      ∀ j, j < valid_pairs [49, 50, 122, 122] → j < [7, 9].length →
        (parse_hex_string [49, 50, 122, 122] [7, 9] 2).2[j]? =
          some (16 * hex_value ([49, 50, 122, 122].getD (2 * j) 0) +
            hex_value ([49, 50, 122, 122].getD (2 * j + 1) 0))) ∧
    (∀ idx, valid_pairs [49, 50, 122, 122] ≤ idx →
      (parse_hex_string [49, 50, 122, 122] [7, 9] 2).2[idx]? = [7, 9][idx]?) ∧
    (valid_pairs [49, 50, 122, 122] = 0 →
      (parse_hex_string [49, 50, 122, 122] [7, 9] 2).2 = [7, 9]) :=
  parse_hex_string_failure_frame [49, 50, 122, 122] [7, 9] 2 (by decide)

/-- C4: for every non-empty even-length string `s` of hexadecimal digits with
`len(s)/2 <= buf_len` (the capacity of the buffer), `parse_hex_string` returns
`len(s)/2`; output byte `j < len(s)/2` is `16 * value(s[2j]) + value(s[2j+1])`,
the high nibble coming from the first character; bytes at index `>= len(s)/2`
are unchanged. -/
theorem parse_hex_string_decodes (s buf : List Nat) (buf_len : Int)
    (hne : s ≠ []) (heven : s.length % 2 = 0) (hhex : ∀ c ∈ s, is_hex_digit c)
    (hcap : ((s.length / 2 : Nat) : Int) ≤ buf_len)
    (hbuf : buf_len ≤ (buf.length : Int)) :
    (parse_hex_string s buf buf_len).1 = ((s.length / 2 : Nat) : Int) ∧
    (∀ j, j < s.length / 2 → (parse_hex_string s buf buf_len).2[j]? =
      some (16 * hex_value (s.getD (2 * j) 0) + hex_value (s.getD (2 * j + 1) 0))) ∧
    (∀ j, s.length / 2 ≤ j → (parse_hex_string s buf buf_len).2[j]? = buf[j]?) ∧
    (parse_hex_string s buf buf_len).2.length = buf.length := by
  have hlen : s.length = 2 * (s.length / 2) := by omega
  have hl := hex_pairs_length (s.length / 2) s hlen
  have hb : s.length / 2 ≤ buf.length := by omega
  rw [parse_hex_string_ok (s.length / 2) s buf buf_len hne hlen hhex hcap hbuf]
  refine ⟨rfl, ?_, ?_, ?_⟩
  · intro j hj
    simp only
    rw [List.getElem?_append_left (by omega)]
    exact hex_pairs_getElem? j s (by omega)
  · intro j hj
    simp only
    rw [List.getElem?_append_right (by omega), hl, List.getElem?_drop]
    congr 1
    omega
  · simp only [List.length_append, List.length_drop, hl]
    omega

/-- Witness of C4 on "aF3c" with a 3-byte buffer of capacity 3: two bytes are
decoded, the third is kept. -/
theorem parse_hex_string_decodes_witness :
    (parse_hex_string [97, 70, 51, 99] [1, 2, 3] 3).1 = 2 ∧
    (∀ j, j < 2 → (parse_hex_string [97, 70, 51, 99] [1, 2, 3] 3).2[j]? =
      some (16 * hex_value ([97, 70, 51, 99].getD (2 * j) 0) +
        hex_value ([97, 70, 51, 99].getD (2 * j + 1) 0))) ∧
    (∀ j, 2 ≤ j → (parse_hex_string [97, 70, 51, 99] [1, 2, 3] 3).2[j]? = [1, 2, 3][j]?) ∧
    (parse_hex_string [97, 70, 51, 99] [1, 2, 3] 3).2.length = 3 :=
  parse_hex_string_decodes [97, 70, 51, 99] [1, 2, 3] 3 (by decide) (by decide)
    (by decide) (by decide) (by decide)

/-! ### Claims on `uart_recv_with_timeout` -/

/-- The environment after the `poll` call of a receive attempt. -/
theorem poll_world (w : World) (fd t : Int) :
    (w.poll fd t).1 = w.poll_ret 0 ∧
    (w.poll fd t).2.trace = w.trace ++ [Event.poll fd t (w.poll_ret 0)] ∧
    (w.poll fd t).2.out = w.out ∧
    (w.poll fd t).2.read_ret = w.read_ret ∧
    (w.poll fd t).2.g_running = w.g_running ∧
    (w.poll fd t).2.write_ret = w.write_ret ∧
    (w.poll fd t).2.tcflush_ret = w.tcflush_ret ∧
    (w.poll fd t).2.poll_ret = fun k => w.poll_ret (k + 1) :=
  ⟨rfl, rfl, rfl, rfl, rfl, rfl, rfl, rfl⟩

/-- The `read` primitive returns -1 or a count between 0 and `len`, and logs
exactly one `read` event carrying that value. -/
theorem read_world (w : World) (fd : Int) (buf : List Nat) (len : Int) (hlen : 0 ≤ len) :
    ((w.read fd buf len).1 = -1 ∨
      (0 ≤ (w.read fd buf len).1 ∧ (w.read fd buf len).1 ≤ len)) ∧
    ((w.read fd buf len).1 = -1 ↔ ∃ e, w.read_ret 0 = read_result.error e) ∧
    (w.read fd buf len).2.2.trace =
      w.trace ++ [Event.read fd len (w.read fd buf len).1] ∧
    (w.read fd buf len).2.2.out = w.out ∧
    (w.read fd buf len).2.2.g_running = w.g_running ∧
    (w.read fd buf len).2.2.write_ret = w.write_ret ∧
    (w.read fd buf len).2.2.tcflush_ret = w.tcflush_ret ∧
    (w.read fd buf len).2.2.poll_ret = w.poll_ret ∧
    (w.read fd buf len).2.2.read_ret = fun k => w.read_ret (k + 1) := by
  unfold World.read
  cases hr : w.read_ret 0 with
  | error e => simp
  | data bytes =>
    have h1 : ((List.take len.toNat bytes).length : Int) ≤ len := by
      have := List.length_take_le len.toNat bytes
      omega
    have h2 : ((List.take len.toNat bytes).length : Int) ≠ -1 := by omega
    dsimp only
    refine ⟨Or.inr ⟨by omega, h1⟩, ?_, rfl, rfl, rfl, rfl, rfl, rfl, rfl⟩
    simp only [h2, false_iff]
    rintro ⟨e, he⟩
    cases he

/-- The body of `uart_recv_with_timeout` on an open port and a positive
length, in terms of the `poll` and `read` primitives. -/
theorem uart_recv_with_timeout_open (w : World) (d : uartdev_t) (buf : List Nat)
    (len timeout_sec : Int) (hfd : 0 ≤ d.fd) (hlen : 0 < len) :
    uart_recv_with_timeout w (some d) buf len timeout_sec =
      if (w.poll_ret 0).ret < 0 then
        if (w.poll_ret 0).errno = EINTR then
          (0, buf, (w.poll d.fd (timeout_sec * 1000)).2)
        else (-1, buf, (w.poll d.fd (timeout_sec * 1000)).2)
      else if (w.poll_ret 0).ret = 0 then (0, buf, (w.poll d.fd (timeout_sec * 1000)).2)
      else if (w.poll_ret 0).revents &&& POLLIN ≠ 0 then
        (w.poll d.fd (timeout_sec * 1000)).2.read d.fd buf len
      else (0, buf, (w.poll d.fd (timeout_sec * 1000)).2) := by
  have hg : ¬ (len ≤ 0 ∨ d.fd < 0) := by omega
  have hg2 : ¬ (len < 0 ∨ d.fd < 0) := by omega
  have hp : (w.poll d.fd (timeout_sec * 1000)).1 = w.poll_ret 0 := rfl
  simp only [uart_recv_with_timeout, hg, if_false, hp, uartdev_recv, hg2]
  split_ifs with h1 h2 h3 h4 h5
  · rfl
  · rfl
  · rfl
  · have hr := (read_world (w.poll d.fd (timeout_sec * 1000)).2 d.fd buf len (by omega)).1
    apply Prod.ext
    · simp only
      omega
    · rfl
  · rfl
  · rfl

/-- C9: on an open port with `len > 0`, `uart_recv_with_timeout` returns 0 (not
-1) both when the wait times out (`poll` returns 0) and when it is interrupted
by a signal (`poll` fails with `EINTR`); in either case the only call made is
that `poll` (no `read`), and the buffer is untouched. -/
theorem uart_recv_with_timeout_no_data (w : World) (d : uartdev_t) (buf : List Nat)
    (len timeout_sec : Int) (hfd : 0 ≤ d.fd) (hlen : 0 < len)
    (hwait : (w.poll_ret 0).ret = 0 ∨
      ((w.poll_ret 0).ret < 0 ∧ (w.poll_ret 0).errno = EINTR)) :
    (uart_recv_with_timeout w (some d) buf len timeout_sec).1 = 0 ∧
    (uart_recv_with_timeout w (some d) buf len timeout_sec).2.1 = buf ∧
    (uart_recv_with_timeout w (some d) buf len timeout_sec).2.2.trace =
      w.trace ++ [Event.poll d.fd (timeout_sec * 1000) (w.poll_ret 0)] ∧
    (uart_recv_with_timeout w (some d) buf len timeout_sec).2.2.read_ret = w.read_ret := by
  rw [uart_recv_with_timeout_open w d buf len timeout_sec hfd hlen]
  rcases hwait with h0 | ⟨hneg, hintr⟩
  · have hn : ¬ (w.poll_ret 0).ret < 0 := by omega
    rw [if_neg hn, if_pos h0]
    exact ⟨rfl, rfl, rfl, rfl⟩
  · rw [if_pos hneg, if_pos hintr]
    exact ⟨rfl, rfl, rfl, rfl⟩

/-- Witness of C9 on the silent port: the wait times out, the call returns 0
and has made one `poll` and no `read`. -/
theorem uart_recv_with_timeout_no_data_witness :
    (uart_recv_with_timeout idle_world (some sample_dev) [0, 0, 0, 0] 4 2).1 = 0 ∧
    (uart_recv_with_timeout idle_world (some sample_dev) [0, 0, 0, 0] 4 2).2.1 =
      [0, 0, 0, 0] ∧
    (uart_recv_with_timeout idle_world (some sample_dev) [0, 0, 0, 0] 4 2).2.2.trace =
      idle_world.trace ++ [Event.poll sample_dev.fd (2 * 1000) (idle_world.poll_ret 0)] ∧
    (uart_recv_with_timeout idle_world (some sample_dev) [0, 0, 0, 0] 4 2).2.2.read_ret =
      idle_world.read_ret :=
  uart_recv_with_timeout_no_data idle_world sample_dev [0, 0, 0, 0] 4 2 (by decide)
    (by decide) (Or.inl rfl)

/-- C10: on an open port with `len > 0`, `uart_recv_with_timeout` returns -1
exactly when `poll` fails for a reason other than `EINTR` or the `read` it
goes on to make fails; whenever `poll` reports the port readable the calls made
are that `poll` and exactly one `read` of `len` bytes, whose return value (at
most `len`) is returned unchanged; every result other than -1 lies in
`0..len`. -/
theorem uart_recv_with_timeout_result (w : World) (d : uartdev_t) (buf : List Nat)
    (len timeout_sec : Int) (hfd : 0 ≤ d.fd) (hlen : 0 < len) :
    ((uart_recv_with_timeout w (some d) buf len timeout_sec).1 = -1 ↔
      ((w.poll_ret 0).ret < 0 ∧ (w.poll_ret 0).errno ≠ EINTR) ∨
      ((0 < (w.poll_ret 0).ret ∧ (w.poll_ret 0).revents &&& POLLIN ≠ 0) ∧
        ∃ e, w.read_ret 0 = read_result.error e)) ∧
    ((0 < (w.poll_ret 0).ret ∧ (w.poll_ret 0).revents &&& POLLIN ≠ 0) →
      ∃ n : Int,
        (uart_recv_with_timeout w (some d) buf len timeout_sec).2.2.trace =
          w.trace ++ [Event.poll d.fd (timeout_sec * 1000) (w.poll_ret 0),
            Event.read d.fd len n] ∧
        (uart_recv_with_timeout w (some d) buf len timeout_sec).1 = n ∧ n ≤ len) ∧
    ((uart_recv_with_timeout w (some d) buf len timeout_sec).1 ≠ -1 →
      0 ≤ (uart_recv_with_timeout w (some d) buf len timeout_sec).1 ∧
      (uart_recv_with_timeout w (some d) buf len timeout_sec).1 ≤ len) := by
  rw [uart_recv_with_timeout_open w d buf len timeout_sec hfd hlen]
  have hrd := read_world (w.poll d.fd (timeout_sec * 1000)).2 d.fd buf len (by omega)
  by_cases hneg : (w.poll_ret 0).ret < 0
  · have hnp : ¬ 0 < (w.poll_ret 0).ret := by omega
    by_cases hintr : (w.poll_ret 0).errno = EINTR
    · rw [if_pos hneg, if_pos hintr]
      simp [hneg, hintr, hnp]
      omega
    · rw [if_pos hneg, if_neg hintr]
      simp [hneg, hintr, hnp]
  · rw [if_neg hneg]
    by_cases h0 : (w.poll_ret 0).ret = 0
    · rw [if_pos h0]
      simp [h0]
      omega
    · rw [if_neg h0]
      have hpos : 0 < (w.poll_ret 0).ret := by omega
      by_cases hin : (w.poll_ret 0).revents &&& POLLIN ≠ 0
      · rw [if_pos hin]
        refine ⟨?_, ?_, ?_⟩
        · rw [hrd.2.1]
          constructor
          · intro h
            exact Or.inr ⟨⟨hpos, hin⟩, h⟩
          · rintro (⟨h, _⟩ | ⟨_, h⟩)
            · exact absurd h hneg
            · exact h
        · intro _
          refine ⟨((w.poll d.fd (timeout_sec * 1000)).2.read d.fd buf len).1, ?_, rfl, ?_⟩
          · rw [hrd.2.2.1]
            simp [World.poll]
          · rcases hrd.1 with h | h <;> omega
        · intro hne
          rcases hrd.1 with h | h
          · exact absurd h hne
          · exact h
      · rw [if_neg hin]
        simp [hneg, hin]
        omega

/-- Witness of C10 on the echoing port with a 4-byte buffer: the result is not
-1 and lies in `0..4`. -/
theorem uart_recv_with_timeout_result_witness :
    0 ≤ sample_dev.fd ∧ (0 : Int) < 4 ∧
    0 ≤ (uart_recv_with_timeout echo_world (some sample_dev) [0, 0, 0, 0] 4 2).1 ∧
    (uart_recv_with_timeout echo_world (some sample_dev) [0, 0, 0, 0] 4 2).1 ≤ 4 :=
  ⟨by decide, by decide,
    (uart_recv_with_timeout_result echo_world sample_dev [0, 0, 0, 0] 4 2 (by decide)
      (by decide)).2.2 (by decide)⟩

/-! ### Claims on `uart_loopback_test` -/

theorem parse_hex_loop_ret (s : List Nat) (j : Nat) (buf : List Nat) :
    (parse_hex_loop s j buf).1 = -1 ∨
    (parse_hex_loop s j buf).1 = ((j + s.length / 2 : Nat) : Int) := by
  induction s, j, buf using parse_hex_loop.induct with
  | case1 c1 c2 rest j buf c1l h =>
    simp only [parse_hex_loop]
    rw [if_pos h]
    exact Or.inl rfl
  | case2 c1 c2 rest j buf c1l c2l h1 h2 =>
    simp only [parse_hex_loop]
    rw [if_neg h1, if_pos h2]
    exact Or.inl rfl
  | case3 c1 c2 rest j buf c1l c2l h1 h2 ih =>
    simp only [parse_hex_loop]
    rw [if_neg h1, if_neg h2]
    rcases ih with ih | ih
    · exact Or.inl ih
    · refine Or.inr ?_
      rw [ih]
      simp only [List.length_cons]
      congr 1
      omega
  | case4 s j buf h =>
    match s, h with
    | [], _ => simp [parse_hex_loop]
    | [_], _ => simp [parse_hex_loop]
    | c1 :: c2 :: rest, h => exact absurd rfl (fun e => h c1 c2 rest e)

/-- The value `parse_hex_string` returns is -1 or a positive count within the
capacity, and the buffer keeps its length. -/
theorem parse_hex_string_ret (s buf : List Nat) (buf_len : Int) :
    ((parse_hex_string s buf buf_len).1 = -1 ∨
      (0 < (parse_hex_string s buf buf_len).1 ∧
        (parse_hex_string s buf buf_len).1 ≤ buf_len)) ∧
    (parse_hex_string s buf buf_len).2.length = buf.length := by
  unfold parse_hex_string
  by_cases h1 : buf_len ≤ 0
  · simp [h1]
  · by_cases h2 : ((s.length : Nat) : Int) = 0 ∨ ((s.length : Nat) : Int) % 2 ≠ 0
    · simp only [h1, h2, if_true, if_false, true_or, true_and]
    · by_cases h3 : ((s.length : Nat) : Int) / 2 > buf_len
      · simp only [h1, h2, h3, if_true, if_false, true_or, true_and]
      · simp only [h1, h2, h3, if_false]
        refine ⟨?_, (parse_hex_loop_frame s 0 buf).1⟩
        rcases parse_hex_loop_ret s 0 buf with h | h
        · exact Or.inl h
        · refine Or.inr ?_
          rw [h]
          omega

/-- A payload that `send_payload` accepts is non-empty and lies within
`send_data`. -/
theorem send_payload_some (send_str : List Nat) (format : output_format_t)
    (send_data : List Nat) (n : Int)
    (h : send_payload send_str format = some (send_data, n)) :
    0 < n ∧ n ≤ (send_data.length : Int) := by
  unfold send_payload at h
  by_cases hf : format = output_format_t.OUTPUT_HEX
  · rw [if_pos hf] at h
    simp only at h
    by_cases hneg : (parse_hex_string send_str (List.replicate 512 0) 512).1 < 0
    · rw [if_pos hneg] at h
      cases h
    · rw [if_neg hneg] at h
      simp only [Option.some.injEq, Prod.mk.injEq] at h
      obtain ⟨hd, hn⟩ := h
      subst hd hn
      have hr := parse_hex_string_ret send_str (List.replicate 512 0) 512
      rw [hr.2]
      simp only [List.length_replicate]
      rcases hr.1 with h | h
      · omega
      · exact ⟨h.1, by exact_mod_cast h.2⟩
  · rw [if_neg hf] at h
    simp only at h
    by_cases h0 : ((send_str.length : Nat) : Int) = 0
    · rw [if_pos h0] at h
      cases h
    · rw [if_neg h0] at h
      simp only [Option.some.injEq, Prod.mk.injEq] at h
      obtain ⟨hd, hn⟩ := h
      subst hd hn
      omega

theorem memcmp_eq_zero_iff : ∀ (n : Nat) (a b : List Nat), n ≤ a.length → n ≤ b.length →
    (memcmp a b n = 0 ↔ a.take n = b.take n) := by
  intro n
  induction n with
  | zero =>
    intro a b _ _
    cases a <;> cases b <;> simp [memcmp]
  | succ n ih =>
    intro a b ha hb
    match a, b, ha, hb with
    | x :: as, y :: bs, ha, hb =>
      simp only [List.length_cons, Nat.add_le_add_iff_right] at ha hb
      simp only [memcmp, List.take_succ_cons, List.cons.injEq]
      by_cases hxy : x = y
      · simp [hxy, ih as bs ha hb]
      · simp only [hxy, if_false, false_and, iff_false]
        split_ifs <;> decide
    | [], _, ha, _ => simp at ha
    | _ :: _, [], _, hb => simp at hb

theorem take_set_self (l : List Nat) (n : Nat) (v : Nat) :
    (l.set n v).take n = l.take n := by
  induction l generalizing n with
  | nil => simp
  | cons a t ih =>
    cases n with
    | zero => simp
    | succ n => simp [ih n]

theorem read_buf_length (w : World) (fd : Int) (buf : List Nat) (len : Int)
    (hcap : len ≤ (buf.length : Int)) :
    (w.read fd buf len).2.1.length = buf.length := by
  unfold World.read
  cases hr : w.read_ret 0 with
  | error e => rfl
  | data bytes =>
    dsimp only
    have h1 := List.length_take_le len.toNat bytes
    simp only [List.length_append, List.length_drop]
    omega

theorem uart_recv_with_timeout_buf_length (w : World) (d : uartdev_t) (buf : List Nat)
    (len timeout_sec : Int) (hfd : 0 ≤ d.fd) (hlen : 0 < len)
    (hcap : len ≤ (buf.length : Int)) :
    (uart_recv_with_timeout w (some d) buf len timeout_sec).2.1.length = buf.length := by
  rw [uart_recv_with_timeout_open w d buf len timeout_sec hfd hlen]
  split_ifs
  · rfl
  · rfl
  · rfl
  · exact read_buf_length _ _ _ _ hcap
  · rfl

/-- The calls one receive attempt adds to the trace: one `poll`, at most one
`read`, nothing else. -/
theorem uart_recv_with_timeout_calls (w : World) (d : uartdev_t) (buf : List Nat)
    (len timeout_sec : Int) (hfd : 0 ≤ d.fd) (hlen : 0 < len) :
    ∃ t, (uart_recv_with_timeout w (some d) buf len timeout_sec).2.2.trace = w.trace ++ t ∧
      t.countP Event.is_write = 0 ∧ t.countP Event.is_poll = 1 ∧
      t.countP Event.is_read ≤ 1 := by
  rw [uart_recv_with_timeout_open w d buf len timeout_sec hfd hlen]
  have hrd := read_world (w.poll d.fd (timeout_sec * 1000)).2 d.fd buf len (by omega)
  split_ifs
  · exact ⟨[Event.poll d.fd (timeout_sec * 1000) (w.poll_ret 0)], rfl, rfl, rfl, by simp [List.countP_cons, Event.is_read]⟩
  · exact ⟨[Event.poll d.fd (timeout_sec * 1000) (w.poll_ret 0)], rfl, rfl, rfl, by simp [List.countP_cons, Event.is_read]⟩
  · exact ⟨[Event.poll d.fd (timeout_sec * 1000) (w.poll_ret 0)], rfl, rfl, rfl, by simp [List.countP_cons, Event.is_read]⟩
  · refine ⟨[Event.poll d.fd (timeout_sec * 1000) (w.poll_ret 0),
      Event.read d.fd len ((w.poll d.fd (timeout_sec * 1000)).2.read d.fd buf len).1], ?_,
      rfl, rfl, by simp [List.countP_cons, Event.is_read]⟩
    rw [hrd.2.2.1]
    simp [World.poll]
  · exact ⟨[Event.poll d.fd (timeout_sec * 1000) (w.poll_ret 0)], rfl, rfl, rfl, by simp [List.countP_cons, Event.is_read]⟩

theorem uartdev_flush_open (w : World) (d : uartdev_t) (hfd : 0 ≤ d.fd) :
    uartdev_flush w (some d) = w.tcflush d.fd := by
  have h1 : ¬ d.fd < 0 := by omega
  simp only [uartdev_flush, h1, if_false]

theorem uartdev_send_open (w : World) (d : uartdev_t) (buf : List Nat) (len : Int)
    (hfd : 0 ≤ d.fd) (hlen : 0 ≤ len) :
    uartdev_send w (some d) buf len = w.write d.fd (buf.take len.toNat) := by
  have h2 : ¬ (len < 0 ∨ d.fd < 0) := by omega
  simp only [uartdev_send, h2, if_false]

theorem uart_recv_with_timeout_range (w : World) (d : uartdev_t) (buf : List Nat)
    (len timeout_sec : Int) (hfd : 0 ≤ d.fd) (hlen : 0 < len) :
    (uart_recv_with_timeout w (some d) buf len timeout_sec).1 = -1 ∨
    (0 ≤ (uart_recv_with_timeout w (some d) buf len timeout_sec).1 ∧
      (uart_recv_with_timeout w (some d) buf len timeout_sec).1 ≤ len) := by
  rw [uart_recv_with_timeout_open w d buf len timeout_sec hfd hlen]
  split_ifs
  · exact Or.inr ⟨le_refl _, by omega⟩
  · exact Or.inl rfl
  · exact Or.inr ⟨le_refl _, by omega⟩
  · exact (read_world _ d.fd buf len (by omega)).1
  · exact Or.inr ⟨le_refl _, by omega⟩

/-- The body of `uart_loopback_test` on an accepted payload, in terms of its
one write and its one receive. -/
theorem uart_loopback_test_open (w : World) (d : uartdev_t) (send_str : List Nat)
    (format : output_format_t) (send_data : List Nat) (n : Int)
    (hpay : send_payload send_str format = some (send_data, n)) :
    uart_loopback_test w (some d) send_str format =
      if (loopback_write w d send_data n).1 ≠ n then (-1, (loopback_write w d send_data n).2)
      else if (loopback_recv w d send_data n).1 < 0 then
        (-1, (loopback_recv w d send_data n).2.2)
      else if (loopback_recv w d send_data n).1 = 0 then
        (-1, (loopback_recv w d send_data n).2.2)
      else if (loopback_recv w d send_data n).1 ≠ n then
        (-1, (loopback_recv w d send_data n).2.2)
      else if memcmp send_data
          ((loopback_recv w d send_data n).2.1.set (loopback_recv w d send_data n).1.toNat 0)
          n.toNat ≠ 0 then
        (-1, (loopback_recv w d send_data n).2.2)
      else (0, (loopback_recv w d send_data n).2.2.print (Msg.loopback_passed n)) := by
  simp only [uart_loopback_test, hpay]
  rfl

/-- C5: on an open port and a send string that encodes to a payload of `n`
bytes, `uart_loopback_test` returns 0 if and only if its write reports exactly
`n` bytes, its receive returns exactly `n` bytes and those bytes equal the
payload; in every other case it returns -1. The calls it makes hold exactly
one `write` and at most one `poll` and one `read` (one receive attempt, no
retry). -/
theorem uart_loopback_test_verdict (w : World) (d : uartdev_t) (send_str : List Nat)
    (format : output_format_t) (send_data : List Nat) (n : Int) (hfd : 0 ≤ d.fd)
    (hpay : send_payload send_str format = some (send_data, n)) :
    ((uart_loopback_test w (some d) send_str format).1 = 0 ↔
      (loopback_write w d send_data n).1 = n ∧
      (loopback_recv w d send_data n).1 = n ∧
      (loopback_recv w d send_data n).2.1.take n.toNat = send_data.take n.toNat) ∧
    ((uart_loopback_test w (some d) send_str format).1 = 0 ∨
      (uart_loopback_test w (some d) send_str format).1 = -1) ∧
    ∃ t, (uart_loopback_test w (some d) send_str format).2.trace = w.trace ++ t ∧
      t.countP Event.is_write = 1 ∧ t.countP Event.is_poll ≤ 1 ∧
      t.countP Event.is_read ≤ 1 := by
  obtain ⟨hn0, hnlen⟩ := send_payload_some send_str format send_data n hpay
  have hlen1023 : (0 : Int) < 1024 - 1 := by decide
  have hcap : ((1024 : Int) - 1) ≤ ((List.replicate 1024 (0 : Nat)).length : Int) := by
    rw [List.length_replicate]
    decide
  have hsend_trace : (loopback_write w d send_data n).2.trace =
      w.trace ++ [Event.tcflush d.fd (w.tcflush_ret 0),
        Event.write d.fd (send_data.take n.toNat) (w.write_ret 0)] := by
    simp only [loopback_write, uartdev_flush_open w d hfd,
      uartdev_send_open _ d send_data n hfd (le_of_lt hn0), World.tcflush, World.write,
      List.append_assoc, List.singleton_append]
  have hrlen : (loopback_recv w d send_data n).2.1.length = 1024 := by
    have := uart_recv_with_timeout_buf_length (loopback_write w d send_data n).2 d
      (List.replicate 1024 0) (1024 - 1) RECV_TIMEOUT_SEC hfd hlen1023 hcap
    rw [List.length_replicate] at this
    exact this
  have hrange : (loopback_recv w d send_data n).1 = -1 ∨
      (0 ≤ (loopback_recv w d send_data n).1 ∧ (loopback_recv w d send_data n).1 ≤ 1024 - 1) :=
    uart_recv_with_timeout_range (loopback_write w d send_data n).2 d
      (List.replicate 1024 0) (1024 - 1) RECV_TIMEOUT_SEC hfd hlen1023
  obtain ⟨tr, htr, htw, htp, htr1⟩ := uart_recv_with_timeout_calls
    (loopback_write w d send_data n).2 d
    (List.replicate 1024 0) (1024 - 1) RECV_TIMEOUT_SEC hfd hlen1023
  have hrecv_trace : (loopback_recv w d send_data n).2.2.trace =
      w.trace ++ ([Event.tcflush d.fd (w.tcflush_ret 0),
        Event.write d.fd (send_data.take n.toNat) (w.write_ret 0)] ++ tr) := by
    rw [← List.append_assoc, ← hsend_trace]
    exact htr
  have hcount1 : ([Event.tcflush d.fd (w.tcflush_ret 0),
        Event.write d.fd (send_data.take n.toNat) (w.write_ret 0)]).countP Event.is_write = 1 ∧
      ([Event.tcflush d.fd (w.tcflush_ret 0),
        Event.write d.fd (send_data.take n.toNat) (w.write_ret 0)]).countP Event.is_poll = 0 ∧
      ([Event.tcflush d.fd (w.tcflush_ret 0),
        Event.write d.fd (send_data.take n.toNat) (w.write_ret 0)]).countP Event.is_read = 0 := by
    simp [List.countP_cons, Event.is_write, Event.is_poll, Event.is_read]
  have hshort : ∃ t, (loopback_write w d send_data n).2.trace = w.trace ++ t ∧
      t.countP Event.is_write = 1 ∧ t.countP Event.is_poll ≤ 1 ∧
      t.countP Event.is_read ≤ 1 :=
    ⟨_, hsend_trace, hcount1.1, by rw [hcount1.2.1]; omega, by rw [hcount1.2.2]; omega⟩
  have hlong : ∃ t, (loopback_recv w d send_data n).2.2.trace = w.trace ++ t ∧
      t.countP Event.is_write = 1 ∧ t.countP Event.is_poll ≤ 1 ∧
      t.countP Event.is_read ≤ 1 := by
    refine ⟨_, hrecv_trace, ?_, ?_, ?_⟩
    · rw [List.countP_append, hcount1.1, htw]
    · rw [List.countP_append, hcount1.2.1, htp]
    · rw [List.countP_append, hcount1.2.2]; omega
  rw [uart_loopback_test_open w d send_str format send_data n hpay]
  by_cases hw : (loopback_write w d send_data n).1 ≠ n
  · rw [if_pos hw]
    refine ⟨?_, Or.inr rfl, hshort⟩
    simp only [show ((-1 : Int) = 0) = False by decide, false_iff]
    intro h
    exact hw h.1
  · rw [if_neg hw]
    by_cases h1 : (loopback_recv w d send_data n).1 < 0
    · rw [if_pos h1]
      refine ⟨?_, Or.inr rfl, hlong⟩
      simp only [show ((-1 : Int) = 0) = False by decide, false_iff]
      intro h
      omega
    · rw [if_neg h1]
      by_cases h2 : (loopback_recv w d send_data n).1 = 0
      · rw [if_pos h2]
        refine ⟨?_, Or.inr rfl, hlong⟩
        simp only [show ((-1 : Int) = 0) = False by decide, false_iff]
        intro h
        omega
      · rw [if_neg h2]
        by_cases h3 : (loopback_recv w d send_data n).1 ≠ n
        · rw [if_pos h3]
          refine ⟨?_, Or.inr rfl, hlong⟩
          simp only [show ((-1 : Int) = 0) = False by decide, false_iff]
          intro h
          exact h3 h.2.1
        · rw [if_neg h3]
          have h3e : (loopback_recv w d send_data n).1 = n := not_not.mp h3
          have hna : n.toNat ≤ send_data.length := by omega
          have hnb : n.toNat ≤
              ((loopback_recv w d send_data n).2.1.set
                (loopback_recv w d send_data n).1.toNat 0).length := by
            rw [List.length_set, hrlen]
            omega
          have hmem := memcmp_eq_zero_iff n.toNat send_data _ hna hnb
          rw [h3e, take_set_self] at hmem
          by_cases h4 : memcmp send_data
              ((loopback_recv w d send_data n).2.1.set
                (loopback_recv w d send_data n).1.toNat 0) n.toNat ≠ 0
          · rw [if_pos h4]
            refine ⟨?_, Or.inr rfl, hlong⟩
            simp only [show ((-1 : Int) = 0) = False by decide, false_iff]
            intro h
            rw [h3e] at h4
            exact h4 (hmem.mpr h.2.2.symm)
          · rw [if_neg h4]
            refine ⟨?_, Or.inl rfl, hlong⟩
            simp only [true_iff]
            rw [h3e] at h4
            exact ⟨not_not.mp hw, h3e, (hmem.mp (not_not.mp h4)).symm⟩

/-- Witness of C5 on the echoing port and the ASCII string "Hi". -/
theorem uart_loopback_test_verdict_witness :
    0 ≤ sample_dev.fd ∧
    send_payload [72, 105] output_format_t.OUTPUT_ASCII = some ([72, 105], 2) ∧
    ((uart_loopback_test echo_world (some sample_dev) [72, 105]
        output_format_t.OUTPUT_ASCII).1 = 0 ↔
      (loopback_write echo_world sample_dev [72, 105] 2).1 = 2 ∧
      (loopback_recv echo_world sample_dev [72, 105] 2).1 = 2 ∧
      (loopback_recv echo_world sample_dev [72, 105] 2).2.1.take (2 : Int).toNat =
        [72, 105].take (2 : Int).toNat) :=
  ⟨by decide, rfl,
    (uart_loopback_test_verdict echo_world sample_dev [72, 105]
      output_format_t.OUTPUT_ASCII [72, 105] 2 (by decide) rfl).1⟩

/-! ### Claims on `uart_send_test` -/

/-- An `int` result within the range is kept by `wrap_int`. -/
theorem wrap_int_of_range (x : Int) (h1 : -2147483648 ≤ x) (h2 : x ≤ INT_MAX) :
    wrap_int x = x := by
  unfold INT_MAX at h2
  unfold wrap_int
  omega

/-- The range of an `int`. -/
theorem wrap_int_range (x : Int) : -2147483648 ≤ wrap_int x ∧ wrap_int x ≤ INT_MAX := by
  unfold INT_MAX wrap_int
  omega

/-- Adding to a wrapped sum is wrapping the whole sum. -/
theorem wrap_int_add (a b : Int) : wrap_int (wrap_int a + b) = wrap_int (a + b) := by
  unfold wrap_int
  omega

/-- Wrapping twice is wrapping once. -/
theorem wrap_int_idem (x : Int) : wrap_int (wrap_int x) = wrap_int x := by
  unfold wrap_int
  omega

/-- One iteration of the send loop in which the flag is still set and the
write reports the whole payload. -/
theorem uart_send_loop_step (d : uartdev_t) (send_data : List Nat)
    (len interval_ms count : Int) (fuel : Nat) (w : World) (i sent_bytes : Int)
    (hfd : 0 ≤ d.fd) (hlen : 0 ≤ len)
    (hrun : w.g_running 0 = true) (hwr : w.write_ret 0 = len) :
    uart_send_loop (some d) send_data len interval_ms count (fuel + 1) w i sent_bytes =
      if count > 0 ∧ wrap_int (i + 1) ≥ count then
        send_done
          ((w.read_g_running.2.write d.fd (send_data.take len.toNat)).2.print
            (Msg.send_progress (wrap_int (i + 1)) len (wrap_int (sent_bytes + len))))
          (wrap_int (i + 1)) (wrap_int (sent_bytes + len))
      else
        uart_send_loop (some d) send_data len interval_ms count fuel
          (((w.read_g_running.2.write d.fd (send_data.take len.toNat)).2.print
            (Msg.send_progress (wrap_int (i + 1)) len
              (wrap_int (sent_bytes + len)))).usleep (interval_ms * 1000))
          (wrap_int (i + 1)) (wrap_int (sent_bytes + len)) := by
  have hg : w.read_g_running.1 = true := hrun
  have hs : (w.read_g_running.2.write d.fd (send_data.take len.toNat)).1 = len := hwr
  rw [uart_send_loop]
  simp only [hg, Bool.not_true, Bool.false_eq_true, if_false,
    uartdev_send_open _ d send_data len hfd hlen, hs, ne_eq, not_true_eq_false]

/-- The send loop with the flag cleared at its top. -/
theorem uart_send_loop_stop (dev : Option uartdev_t) (send_data : List Nat)
    (len interval_ms count : Int) (fuel : Nat) (w : World) (i sent_bytes : Int)
    (hrun : w.g_running 0 = false) :
    uart_send_loop dev send_data len interval_ms count (fuel + 1) w i sent_bytes =
      send_done w.read_g_running.2 i sent_bytes := by
  have hg : w.read_g_running.1 = false := hrun
  rw [uart_send_loop]
  simp only [hg, Bool.not_false, if_true]

/-- The counted run of the send loop: `m + 1` iterations remain until the
counter `i` reaches `count`, an `int`; the flag stays set and every write
reports the whole payload. -/
theorem uart_send_loop_counted (d : uartdev_t) (send_data : List Nat)
    (len interval_ms count : Int) (hfd : 0 ≤ d.fd) (hlen : 0 ≤ len)
    (hcount : count ≤ INT_MAX) :
    ∀ (m fuel : Nat) (w : World) (i sent_bytes : Int),
      m + 1 ≤ fuel → i + ((m + 1 : Nat) : Int) = count → 0 ≤ i →
      (∀ k, w.g_running k = true) → (∀ k, w.write_ret k = len) →
      ∃ w1, uart_send_loop (some d) send_data len interval_ms count fuel w i sent_bytes =
          (some 0, w1) ∧
        w1.trace = w.trace ++ List.intersperse (Event.usleep (interval_ms * 1000))
          (List.replicate (m + 1) (Event.write d.fd (send_data.take len.toNat) len)) ∧
        w1.out = w.out ++ send_progress_lines len (m + 1) i sent_bytes ++
          [Msg.send_completed count (wrap_int (sent_bytes + ((m + 1 : Nat) : Int) * len))] := by
  intro m
  induction m with
  | zero =>
    intro fuel w i sent_bytes hfuel hcount1 hi hrun hwr
    obtain ⟨f, rfl⟩ : ∃ f, fuel = f + 1 := ⟨fuel - 1, by omega⟩
    have hw : wrap_int (i + 1) = i + 1 :=
      wrap_int_of_range (i + 1) (by omega) (by push_cast at hcount1; omega)
    rw [uart_send_loop_step d send_data len interval_ms count f w i sent_bytes hfd hlen
      (hrun 0) (hwr 0)]
    have hc : count > 0 ∧ wrap_int (i + 1) ≥ count := by
      rw [hw]
      constructor <;> omega
    rw [if_pos hc]
    refine ⟨_, rfl, ?_, ?_⟩
    · simp [send_done, World.print, World.write, World.read_g_running, hwr 0]
    · have e : i + 1 = count := by omega
      have hwc : wrap_int count = count := by
        rw [← e]
        exact hw
      simp [send_done, World.print, World.write, World.read_g_running, send_progress_lines,
        hw, e, hwc]
  | succ m ih =>
    intro fuel w i sent_bytes hfuel hcount1 hi hrun hwr
    obtain ⟨f, rfl⟩ : ∃ f, fuel = f + 1 := ⟨fuel - 1, by omega⟩
    have hw : wrap_int (i + 1) = i + 1 :=
      wrap_int_of_range (i + 1) (by omega) (by push_cast at hcount1; omega)
    rw [uart_send_loop_step d send_data len interval_ms count f w i sent_bytes hfd hlen
      (hrun 0) (hwr 0)]
    have hc : ¬ (count > 0 ∧ wrap_int (i + 1) ≥ count) := by
      rw [hw]
      push_cast at hcount1
      omega
    rw [if_neg hc]
    obtain ⟨w1, hw1, htr, hout⟩ := ih f
      (((w.read_g_running.2.write d.fd (send_data.take len.toNat)).2.print
        (Msg.send_progress (wrap_int (i + 1)) len
          (wrap_int (sent_bytes + len)))).usleep (interval_ms * 1000))
      (wrap_int (i + 1)) (wrap_int (sent_bytes + len)) (by omega)
      (by rw [hw]; push_cast at hcount1 ⊢; omega) (by rw [hw]; omega)
      (fun k => hrun (k + 1)) (fun k => hwr (k + 1))
    refine ⟨w1, hw1, ?_, ?_⟩
    · rw [htr]
      simp [World.usleep, World.print, World.write, World.read_g_running, hwr 0,
        List.replicate_succ]
    · have e : sent_bytes + len + ((m + 1 : Nat) : Int) * len =
          sent_bytes + ((m + 1 + 1 : Nat) : Int) * len := by
        push_cast
        ring
      rw [hout, wrap_int_add, e]
      simp [World.usleep, World.print, World.write, World.read_g_running,
        send_progress_lines]

/-- The cancelled run of the unbounded send loop: the flag is seen set `k`
times and then cleared, and the `k` writes report the whole payload. -/
theorem uart_send_loop_cancelled (d : uartdev_t) (send_data : List Nat)
    (len interval_ms : Int) (hfd : 0 ≤ d.fd) (hlen : 0 ≤ len) :
    ∀ (k fuel : Nat) (w : World) (i sent_bytes : Int),
      k + 1 ≤ fuel → (∀ j, j < k → w.g_running j = true) → w.g_running k = false →
      (∀ j, j < k → w.write_ret j = len) →
      wrap_int i = i → wrap_int sent_bytes = sent_bytes →
      ∃ w1, uart_send_loop (some d) send_data len interval_ms 0 fuel w i sent_bytes =
          (some 0, w1) ∧
        w1.trace = w.trace ++ (List.replicate k
          [Event.write d.fd (send_data.take len.toNat) len,
            Event.usleep (interval_ms * 1000)]).flatten ∧
        w1.out = w.out ++ send_progress_lines len k i sent_bytes ++
          [Msg.send_completed (wrap_int (i + (k : Int)))
            (wrap_int (sent_bytes + (k : Int) * len))] := by
  intro k
  induction k with
  | zero =>
    intro fuel w i sent_bytes hfuel _ hstop _ hi hsb
    obtain ⟨f, rfl⟩ : ∃ f, fuel = f + 1 := ⟨fuel - 1, by omega⟩
    rw [uart_send_loop_stop (some d) send_data len interval_ms 0 f w i sent_bytes hstop]
    refine ⟨_, rfl, ?_, ?_⟩
    · simp [World.print, World.read_g_running]
    · simp [send_done, World.print, World.read_g_running, send_progress_lines, hi, hsb]
  | succ k ih =>
    intro fuel w i sent_bytes hfuel hrun hstop hwr hi hsb
    obtain ⟨f, rfl⟩ : ∃ f, fuel = f + 1 := ⟨fuel - 1, by omega⟩
    rw [uart_send_loop_step d send_data len interval_ms 0 f w i sent_bytes hfd hlen
      (hrun 0 (by omega)) (hwr 0 (by omega))]
    have hc : ¬ ((0 : Int) > 0 ∧ wrap_int (i + 1) ≥ 0) := by omega
    rw [if_neg hc]
    obtain ⟨w1, hw1, htr, hout⟩ := ih f
      (((w.read_g_running.2.write d.fd (send_data.take len.toNat)).2.print
        (Msg.send_progress (wrap_int (i + 1)) len
          (wrap_int (sent_bytes + len)))).usleep (interval_ms * 1000))
      (wrap_int (i + 1)) (wrap_int (sent_bytes + len)) (by omega)
      (fun j hj => hrun (j + 1) (by omega)) hstop (fun j hj => hwr (j + 1) (by omega))
      (wrap_int_idem _) (wrap_int_idem _)
    refine ⟨w1, hw1, ?_, ?_⟩
    · rw [htr]
      simp [World.usleep, World.print, World.write, World.read_g_running,
        hwr 0 (by omega), List.replicate_succ]
    · have e1 : i + 1 + (k : Int) = i + ((k + 1 : Nat) : Int) := by
        push_cast
        ring
      have e2 : sent_bytes + len + (k : Int) * len =
          sent_bytes + ((k + 1 : Nat) : Int) * len := by
        push_cast
        ring
      rw [hout, wrap_int_add, wrap_int_add, e1, e2]
      simp [World.usleep, World.print, World.write, World.read_g_running,
        send_progress_lines]

/-- The body of `uart_send_test` on an open port and an accepted payload. -/
theorem uart_send_test_open (fuel : Nat) (w : World) (d : uartdev_t) (send_str : List Nat)
    (interval_ms count : Int) (format : output_format_t) (send_data : List Nat) (len : Int)
    (hfd : 0 ≤ d.fd) (hpay : send_payload send_str format = some (send_data, len)) :
    uart_send_test fuel w (some d) send_str interval_ms count format =
      uart_send_loop (some d) send_data len interval_ms count fuel (w.tcflush d.fd).2 0 0 := by
  simp only [uart_send_test, hpay, uartdev_flush_open w d hfd]

/-- The length of the long ASCII string. -/
theorem bulk_text_length : bulk_text.length = 131071 :=
  List.length_replicate 131071 65

/-- The payload of the long ASCII string: the string itself, 131071 bytes. -/
theorem send_payload_bulk_text :
    send_payload bulk_text output_format_t.OUTPUT_ASCII = some (bulk_text, 131071) := by
  have h : ¬ (output_format_t.OUTPUT_ASCII = output_format_t.OUTPUT_HEX) := by decide
  simp only [send_payload, if_neg h, bulk_text_length]
  norm_num

/-- C6, as stated, fails once `n * L` passes `INT_MAX`: 16385 sends of the
131071-byte string, never cancelled, every write complete, return 0 after
16385 writes, but the byte counter `sent_bytes` is an `int` and the last line
reports -2147368961 bytes in total, not `16385 * 131071 = 2147598335`. -/
theorem uart_send_test_total_wraps :
    ∃ w1, uart_send_test 16385 bulk_world (some sample_dev) bulk_text 1 16385
        output_format_t.OUTPUT_ASCII = (some 0, w1) ∧
      w1.out.getLast? = some (Msg.send_completed 16385 (-2147368961)) ∧
      (16385 : Int) * (bulk_text.length : Int) = 2147598335 ∧
      (-2147368961 : Int) ≠ 16385 * (bulk_text.length : Int) := by
  have hfd : 0 ≤ sample_dev.fd := by decide
  rw [uart_send_test_open 16385 bulk_world sample_dev bulk_text 1 16385
    output_format_t.OUTPUT_ASCII bulk_text 131071 hfd send_payload_bulk_text]
  obtain ⟨w1, hw1, _, hout⟩ := uart_send_loop_counted sample_dev bulk_text 131071 1 16385
    hfd (by decide) (by decide) 16384 16385 (bulk_world.tcflush sample_dev.fd).2 0 0
    (by decide) (by norm_num) (le_refl _) (fun _ => rfl) (fun _ => rfl)
  have hv : wrap_int (0 + ((16384 + 1 : Nat) : Int) * 131071) = -2147368961 := by
    norm_num [wrap_int]
  rw [hv] at hout
  refine ⟨w1, hw1, ?_, ?_, ?_⟩
  · rw [hout]
    simp
  · rw [bulk_text_length]
    norm_num
  · rw [bulk_text_length]
    norm_num

/-- C6 (amended): for every count `n` with `1 <= n <= INT_MAX` and every
accepted payload of `len` bytes, if the flag is never cleared and every write
reports `len` bytes, then `uart_send_test` returns (any fuel of at least `n`
iterations is enough) with result 0; after the flush its calls are exactly `n`
writes of the whole payload with one `usleep(interval_ms * 1000)` between
consecutive writes and none after the last; its last line reports `n` sends
and, as total, `n * len` reduced to the range of an `int`, which is `n * len`
itself whenever `n * len <= INT_MAX`. -/
theorem uart_send_test_counted (w : World) (d : uartdev_t) (send_str : List Nat)
    (interval_ms : Int) (format : output_format_t) (send_data : List Nat) (len : Int)
    (n fuel : Nat) (hfd : 0 ≤ d.fd)
    (hpay : send_payload send_str format = some (send_data, len))
    (hn : 1 ≤ n) (hmax : (n : Int) ≤ INT_MAX) (hfuel : n ≤ fuel)
    (hrun : ∀ k, w.g_running k = true) (hwr : ∀ k, w.write_ret k = len) :
    ∃ w1, uart_send_test fuel w (some d) send_str interval_ms (n : Int) format =
        (some 0, w1) ∧
      w1.trace = w.trace ++ Event.tcflush d.fd (w.tcflush_ret 0) ::
        List.intersperse (Event.usleep (interval_ms * 1000))
          (List.replicate n (Event.write d.fd (send_data.take len.toNat) len)) ∧
      w1.out = w.out ++ send_progress_lines len n 0 0 ++
        [Msg.send_completed (n : Int) (wrap_int ((n : Int) * len))] ∧
      ((n : Int) * len ≤ INT_MAX →
        w1.out = w.out ++ send_progress_lines len n 0 0 ++
          [Msg.send_completed (n : Int) ((n : Int) * len)]) := by
  obtain ⟨hl0, _⟩ := send_payload_some send_str format send_data len hpay
  obtain ⟨m, rfl⟩ : ∃ m, n = m + 1 := ⟨n - 1, by omega⟩
  rw [uart_send_test_open fuel w d send_str interval_ms _ format send_data len hfd hpay]
  obtain ⟨w1, hw1, htr, hout⟩ := uart_send_loop_counted d send_data len interval_ms
    ((m + 1 : Nat) : Int) hfd (le_of_lt hl0) hmax m fuel (w.tcflush d.fd).2 0 0 hfuel
    (by simp) (le_refl _) hrun hwr
  have hout1 : w1.out = w.out ++ send_progress_lines len (m + 1) 0 0 ++
      [Msg.send_completed ((m + 1 : Nat) : Int) (wrap_int (((m + 1 : Nat) : Int) * len))] := by
    rw [hout]
    simp [World.tcflush]
  refine ⟨w1, hw1, ?_, hout1, ?_⟩
  · rw [htr]
    simp [World.tcflush]
  · intro hfit
    have hnn : (0 : Int) ≤ ((m + 1 : Nat) : Int) * len :=
      mul_nonneg (Int.natCast_nonneg _) (le_of_lt hl0)
    rw [hout1, wrap_int_of_range _ (by omega) hfit]

/-- Witness of C6 (amended): three sends of "Hi" at 100 ms in the steady
environment, reported as 3 sends and 6 bytes. -/
theorem uart_send_test_counted_witness :
    ∃ w1, uart_send_test 3 steady_world (some sample_dev) [72, 105] 100 ((3 : Nat) : Int)
        output_format_t.OUTPUT_ASCII = (some 0, w1) ∧
      w1.trace = steady_world.trace ++
        Event.tcflush sample_dev.fd (steady_world.tcflush_ret 0) ::
          List.intersperse (Event.usleep (100 * 1000))
            (List.replicate 3 (Event.write sample_dev.fd ([72, 105].take (2 : Int).toNat) 2)) ∧
      w1.out = steady_world.out ++ send_progress_lines 2 3 0 0 ++
        [Msg.send_completed ((3 : Nat) : Int) (wrap_int (((3 : Nat) : Int) * 2))] ∧
      (((3 : Nat) : Int) * 2 ≤ INT_MAX →
        w1.out = steady_world.out ++ send_progress_lines 2 3 0 0 ++
          [Msg.send_completed ((3 : Nat) : Int) (((3 : Nat) : Int) * 2)]) :=
  uart_send_test_counted steady_world sample_dev [72, 105] 100
    output_format_t.OUTPUT_ASCII [72, 105] 2 3 3 (by decide) rfl (by decide) (by decide)
    (by decide) (fun _ => rfl) (fun _ => rfl)

/-- C7, as stated, fails once `k * L` passes `INT_MAX`: unbounded sending of
the 131071-byte string, cancelled after the 16385th iteration, returns 0 after
16385 writes, but the last line reports -2147368961 bytes in total, not
`16385 * 131071 = 2147598335`. -/
theorem uart_send_test_cancelled_total_wraps :
    ∃ w1, uart_send_test 16386 bulk_cancel_world (some sample_dev) bulk_text 1 0
        output_format_t.OUTPUT_ASCII = (some 0, w1) ∧
      w1.out.getLast? = some (Msg.send_completed 16385 (-2147368961)) ∧
      (16385 : Int) * (bulk_text.length : Int) = 2147598335 ∧
      (-2147368961 : Int) ≠ 16385 * (bulk_text.length : Int) := by
  have hfd : 0 ≤ sample_dev.fd := by decide
  rw [uart_send_test_open 16386 bulk_cancel_world sample_dev bulk_text 1 0
    output_format_t.OUTPUT_ASCII bulk_text 131071 hfd send_payload_bulk_text]
  obtain ⟨w1, hw1, _, hout⟩ := uart_send_loop_cancelled sample_dev bulk_text 131071 1
    hfd (by decide) 16385 16386 (bulk_cancel_world.tcflush sample_dev.fd).2 0 0
    (by decide) (fun j hj => decide_eq_true hj) (by decide) (fun _ _ => rfl)
    (by decide) (by decide)
  have hv1 : wrap_int (0 + ((16385 : Nat) : Int)) = 16385 := by
    norm_num [wrap_int]
  have hv2 : wrap_int (0 + ((16385 : Nat) : Int) * 131071) = -2147368961 := by
    norm_num [wrap_int]
  rw [hv1, hv2] at hout
  refine ⟨w1, hw1, ?_, ?_, ?_⟩
  · rw [hout]
    simp
  · rw [bulk_text_length]
    norm_num
  · rw [bulk_text_length]
    norm_num

/-- C7 (amended): with `count = 0` and an accepted payload of `len` bytes, if
the flag is seen set by the first `k` reads and cleared by the next one
(`k >= 0`), and the `k` writes made until then report `len` bytes, then
`uart_send_test` returns 0 after exactly `k` writes (each followed by its
sleep); with `k = 0` no write is made. Its last line reports `k` sends and
`k * len` bytes, each reduced to the range of an `int`: they are `k` and
`k * len` themselves whenever `k * len <= INT_MAX`. Only the values of the
flag at the loop tops enter: what it would show later is left free. -/
theorem uart_send_test_cancelled (w : World) (d : uartdev_t) (send_str : List Nat)
    (interval_ms : Int) (format : output_format_t) (send_data : List Nat) (len : Int)
    (k fuel : Nat) (hfd : 0 ≤ d.fd)
    (hpay : send_payload send_str format = some (send_data, len))
    (hfuel : k + 1 ≤ fuel)
    (hrun : ∀ j, j < k → w.g_running j = true) (hstop : w.g_running k = false)
    (hwr : ∀ j, j < k → w.write_ret j = len) :
    ∃ w1, uart_send_test fuel w (some d) send_str interval_ms 0 format = (some 0, w1) ∧
      w1.trace = w.trace ++ Event.tcflush d.fd (w.tcflush_ret 0) ::
        (List.replicate k [Event.write d.fd (send_data.take len.toNat) len,
          Event.usleep (interval_ms * 1000)]).flatten ∧
      w1.out = w.out ++ send_progress_lines len k 0 0 ++
        [Msg.send_completed (wrap_int (k : Int)) (wrap_int ((k : Int) * len))] ∧
      ((k : Int) * len ≤ INT_MAX →
        w1.out = w.out ++ send_progress_lines len k 0 0 ++
          [Msg.send_completed (k : Int) ((k : Int) * len)]) := by
  obtain ⟨hl0, _⟩ := send_payload_some send_str format send_data len hpay
  rw [uart_send_test_open fuel w d send_str interval_ms _ format send_data len hfd hpay]
  obtain ⟨w1, hw1, htr, hout⟩ := uart_send_loop_cancelled d send_data len interval_ms
    hfd (le_of_lt hl0) k fuel (w.tcflush d.fd).2 0 0 hfuel hrun hstop hwr
    (by decide) (by decide)
  have hout1 : w1.out = w.out ++ send_progress_lines len k 0 0 ++
      [Msg.send_completed (wrap_int (k : Int)) (wrap_int ((k : Int) * len))] := by
    rw [hout]
    simp [World.tcflush]
  refine ⟨w1, hw1, ?_, hout1, ?_⟩
  · rw [htr]
    simp [World.tcflush]
  · intro hfit
    have hk0 : (0 : Int) ≤ (k : Int) := Int.natCast_nonneg _
    have hkl : (k : Int) ≤ (k : Int) * len := by nlinarith
    rw [hout1, wrap_int_of_range _ (by omega) (by omega),
      wrap_int_of_range _ (by omega) hfit]

/-- Witness of C7 (amended): unbounded sending of "Hi", cancelled after the
second iteration, reported as 2 sends and 4 bytes. -/
theorem uart_send_test_cancelled_witness :
    ∃ w1, uart_send_test 3 echo_world (some sample_dev) [72, 105] 100 0
        output_format_t.OUTPUT_ASCII = (some 0, w1) ∧
      w1.trace = echo_world.trace ++
        Event.tcflush sample_dev.fd (echo_world.tcflush_ret 0) ::
          (List.replicate 2 [Event.write sample_dev.fd ([72, 105].take (2 : Int).toNat) 2,
            Event.usleep (100 * 1000)]).flatten ∧
      w1.out = echo_world.out ++ send_progress_lines 2 2 0 0 ++
        [Msg.send_completed (wrap_int ((2 : Nat) : Int)) (wrap_int (((2 : Nat) : Int) * 2))] ∧
      ((((2 : Nat) : Int)) * 2 ≤ INT_MAX →
        w1.out = echo_world.out ++ send_progress_lines 2 2 0 0 ++
          [Msg.send_completed ((2 : Nat) : Int) (((2 : Nat) : Int) * 2)]) :=
  uart_send_test_cancelled echo_world sample_dev [72, 105] 100
    output_format_t.OUTPUT_ASCII [72, 105] 2 2 3 (by decide) rfl (by decide)
    (fun j hj => decide_eq_true hj) rfl (fun _ _ => rfl)

/-! ### Claims on `uart_recv_test` -/

/-- What one receive attempt leaves of the environment besides its calls. -/
theorem uart_recv_with_timeout_world (w : World) (d : uartdev_t) (buf : List Nat)
    (len timeout_sec : Int) (hfd : 0 ≤ d.fd) (hlen : 0 < len) :
    (uart_recv_with_timeout w (some d) buf len timeout_sec).2.2.out = w.out ∧
    (uart_recv_with_timeout w (some d) buf len timeout_sec).2.2.g_running = w.g_running ∧
    (uart_recv_with_timeout w (some d) buf len timeout_sec).2.2.poll_ret =
      fun k => w.poll_ret (k + 1) := by
  rw [uart_recv_with_timeout_open w d buf len timeout_sec hfd hlen]
  have hrd := read_world (w.poll d.fd (timeout_sec * 1000)).2 d.fd buf len (by omega)
  split_ifs
  · exact ⟨rfl, rfl, rfl⟩
  · exact ⟨rfl, rfl, rfl⟩
  · exact ⟨rfl, rfl, rfl⟩
  · exact ⟨hrd.2.2.2.1, hrd.2.2.2.2.1, hrd.2.2.2.2.2.2.2.1⟩
  · exact ⟨rfl, rfl, rfl⟩

/-- The calls of one receive attempt, classified: an attempt that returns a
negative value ends with its only faulty call, any other attempt has none; the
attempt holds one packet of `r` bytes when it returns `r > 0`, none
otherwise. -/
theorem uart_recv_with_timeout_events (w : World) (d : uartdev_t) (buf : List Nat)
    (len timeout_sec : Int) (hfd : 0 ≤ d.fd) (hlen : 0 < len) :
    ∃ ev, (uart_recv_with_timeout w (some d) buf len timeout_sec).2.2.trace = w.trace ++ ev ∧
      ((uart_recv_with_timeout w (some d) buf len timeout_sec).1 < 0 →
        ∃ pre e, ev = pre ++ [e] ∧ e.is_recv_fault = true ∧
          ∀ x ∈ pre, x.is_recv_fault = false) ∧
      (0 ≤ (uart_recv_with_timeout w (some d) buf len timeout_sec).1 →
        ∀ x ∈ ev, x.is_recv_fault = false) ∧
      (ev.countP Event.is_packet : Int) =
        (if 0 < (uart_recv_with_timeout w (some d) buf len timeout_sec).1 then 1 else 0) ∧
      (ev.map Event.recv_bytes).sum =
        (if 0 < (uart_recv_with_timeout w (some d) buf len timeout_sec).1 then
          (uart_recv_with_timeout w (some d) buf len timeout_sec).1 else 0) := by
  rw [uart_recv_with_timeout_open w d buf len timeout_sec hfd hlen]
  have hrd := read_world (w.poll d.fd (timeout_sec * 1000)).2 d.fd buf len (by omega)
  by_cases hneg : (w.poll_ret 0).ret < 0
  · rw [if_pos hneg]
    by_cases hintr : (w.poll_ret 0).errno = EINTR
    · rw [if_pos hintr]
      refine ⟨[Event.poll d.fd (timeout_sec * 1000) (w.poll_ret 0)], rfl, ?_, ?_, ?_, ?_⟩
      · intro h
        simp only at h
        omega
      · intro _ x hx
        simp only [List.mem_singleton] at hx
        subst hx
        simp [Event.is_recv_fault, hintr]
      · simp [Event.is_packet]
      · simp [Event.recv_bytes]
    · rw [if_neg hintr]
      refine ⟨[Event.poll d.fd (timeout_sec * 1000) (w.poll_ret 0)], rfl, ?_, ?_, ?_, ?_⟩
      · intro _
        refine ⟨[], _, rfl, ?_, ?_⟩
        · simp [Event.is_recv_fault, hneg, hintr]
        · intro x hx; cases hx
      · intro h
        simp only at h
        omega
      · simp [Event.is_packet]
      · simp [Event.recv_bytes]
  · rw [if_neg hneg]
    have hquiet : ∃ ev, (w.poll d.fd (timeout_sec * 1000)).2.trace = w.trace ++ ev ∧
        (((0 : Int), buf, (w.poll d.fd (timeout_sec * 1000)).2).1 < 0 →
          ∃ pre e, ev = pre ++ [e] ∧ e.is_recv_fault = true ∧
            ∀ x ∈ pre, x.is_recv_fault = false) ∧
        (0 ≤ ((0 : Int), buf, (w.poll d.fd (timeout_sec * 1000)).2).1 →
          ∀ x ∈ ev, x.is_recv_fault = false) ∧
        (ev.countP Event.is_packet : Int) =
          (if 0 < ((0 : Int), buf, (w.poll d.fd (timeout_sec * 1000)).2).1 then 1 else 0) ∧
        (ev.map Event.recv_bytes).sum =
          (if 0 < ((0 : Int), buf, (w.poll d.fd (timeout_sec * 1000)).2).1 then
            ((0 : Int), buf, (w.poll d.fd (timeout_sec * 1000)).2).1 else 0) := by
      refine ⟨[Event.poll d.fd (timeout_sec * 1000) (w.poll_ret 0)], rfl, ?_, ?_, ?_, ?_⟩
      · intro h
        simp only at h
        omega
      · intro _ x hx
        simp only [List.mem_singleton] at hx
        subst hx
        simp [Event.is_recv_fault, hneg]
      · simp [Event.is_packet]
      · simp [Event.recv_bytes]
    by_cases h0 : (w.poll_ret 0).ret = 0
    · rw [if_pos h0]
      exact hquiet
    · rw [if_neg h0]
      by_cases hin : (w.poll_ret 0).revents &&& POLLIN ≠ 0
      · rw [if_pos hin]
        refine ⟨[Event.poll d.fd (timeout_sec * 1000) (w.poll_ret 0),
          Event.read d.fd len ((w.poll d.fd (timeout_sec * 1000)).2.read d.fd buf len).1],
          ?_, ?_, ?_, ?_, ?_⟩
        · rw [hrd.2.2.1]
          simp [World.poll]
        · intro h
          refine ⟨[Event.poll d.fd (timeout_sec * 1000) (w.poll_ret 0)], _, rfl, ?_, ?_⟩
          · simp [Event.is_recv_fault, h]
          · intro x hx
            simp only [List.mem_singleton] at hx
            subst hx
            simp [Event.is_recv_fault, hneg]
        · intro h x hx
          simp only [List.mem_cons, List.mem_singleton, List.not_mem_nil, or_false] at hx
          rcases hx with rfl | rfl
          · simp [Event.is_recv_fault, hneg]
          · simp [Event.is_recv_fault, h]
        · by_cases hp : 0 < ((w.poll d.fd (timeout_sec * 1000)).2.read d.fd buf len).1
          · simp [List.countP_cons, Event.is_packet, hp]
          · simp [List.countP_cons, Event.is_packet, hp]
        · by_cases hp : 0 < ((w.poll d.fd (timeout_sec * 1000)).2.read d.fd buf len).1
          · simp [Event.recv_bytes, hp]
          · simp [Event.recv_bytes, hp]
      · rw [if_neg hin]
        exact hquiet

/-- One iteration of the receive loop, branch by branch. -/
theorem uart_recv_loop_succ (dev : Option uartdev_t) (format : output_format_t)
    (fuel : Nat) (w : World) (buf : List Nat) (total pc : Int) :
    uart_recv_loop dev format (fuel + 1) w buf total pc =
      if w.g_running 0 = false then recv_done w.read_g_running.2 pc total
      else if (uart_recv_with_timeout w.read_g_running.2 dev buf (256 - 1)
          RECV_TIMEOUT_SEC).1 < 0 then
        (some (-1), (uart_recv_with_timeout w.read_g_running.2 dev buf (256 - 1)
          RECV_TIMEOUT_SEC).2.2)
      else if (uart_recv_with_timeout w.read_g_running.2 dev buf (256 - 1)
          RECV_TIMEOUT_SEC).1 = 0 then
        if (uart_recv_with_timeout w.read_g_running.2 dev buf (256 - 1)
            RECV_TIMEOUT_SEC).2.2.g_running 0 = false then
          recv_done (uart_recv_with_timeout w.read_g_running.2 dev buf (256 - 1)
            RECV_TIMEOUT_SEC).2.2.read_g_running.2 pc total
        else
          uart_recv_loop dev format fuel
            (uart_recv_with_timeout w.read_g_running.2 dev buf (256 - 1)
              RECV_TIMEOUT_SEC).2.2.read_g_running.2
            (uart_recv_with_timeout w.read_g_running.2 dev buf (256 - 1)
              RECV_TIMEOUT_SEC).2.1 total pc
      else
        uart_recv_loop dev format fuel
          ((uart_recv_with_timeout w.read_g_running.2 dev buf (256 - 1)
              RECV_TIMEOUT_SEC).2.2.print
            (Msg.recv_progress (wrap_int (pc + 1))
              (uart_recv_with_timeout w.read_g_running.2 dev buf (256 - 1) RECV_TIMEOUT_SEC).1
              (wrap_int (total + (uart_recv_with_timeout w.read_g_running.2 dev buf (256 - 1)
                RECV_TIMEOUT_SEC).1))
              format
              ((uart_recv_with_timeout w.read_g_running.2 dev buf (256 - 1)
                RECV_TIMEOUT_SEC).2.1.take
                (uart_recv_with_timeout w.read_g_running.2 dev buf (256 - 1)
                  RECV_TIMEOUT_SEC).1.toNat)))
          (uart_recv_with_timeout w.read_g_running.2 dev buf (256 - 1) RECV_TIMEOUT_SEC).2.1
          (wrap_int (total + (uart_recv_with_timeout w.read_g_running.2 dev buf (256 - 1)
            RECV_TIMEOUT_SEC).1))
          (wrap_int (pc + 1)) := by
  rw [uart_recv_loop]
  have hg : w.read_g_running.1 = w.g_running 0 := rfl
  have hg2 : ∀ v : World, v.read_g_running.1 = v.g_running 0 := fun _ => rfl
  simp only [hg, hg2]
  cases w.g_running 0
  · simp
  · simp only [Bool.not_true, Bool.false_eq_true, if_false]
    split_ifs with h1 h2 h3 h4 <;> first | rfl | (exfalso; simp_all)

/-- The run of the receive loop, classified by its calls: a result of -1 comes
with a faulty call, which is then the last call and the only faulty one; any
other run has no faulty call; a result of 0 comes with the flag seen cleared
and the totals of the packets counted, as the two `int` counters hold them. -/
theorem uart_recv_loop_outcome (d : uartdev_t) (format : output_format_t) (hfd : 0 ≤ d.fd) :
    ∀ (fuel : Nat) (w : World) (buf : List Nat) (total pc : Int),
      wrap_int total = total → wrap_int pc = pc →
      ∃ t, (uart_recv_loop (some d) format fuel w buf total pc).2.trace = w.trace ++ t ∧
        ((uart_recv_loop (some d) format fuel w buf total pc).1 = some (-1) →
          ∃ pre e, t = pre ++ [e] ∧ e.is_recv_fault = true ∧
            ∀ x ∈ pre, x.is_recv_fault = false) ∧
        ((uart_recv_loop (some d) format fuel w buf total pc).1 ≠ some (-1) →
          ∀ x ∈ t, x.is_recv_fault = false) ∧
        ((uart_recv_loop (some d) format fuel w buf total pc).1 = some 0 ∨
          (uart_recv_loop (some d) format fuel w buf total pc).1 = some (-1) ∨
          (uart_recv_loop (some d) format fuel w buf total pc).1 = none) ∧
        ((uart_recv_loop (some d) format fuel w buf total pc).1 = some 0 →
          (∃ k, w.g_running k = false) ∧
          (uart_recv_loop (some d) format fuel w buf total pc).2.out.getLast? =
            some (Msg.recv_completed (wrap_int (pc + (t.countP Event.is_packet : Int)))
              (wrap_int (total + (t.map Event.recv_bytes).sum)))) := by
  intro fuel
  induction fuel with
  | zero =>
    intro w buf total pc htot hpc
    refine ⟨[], by simp [uart_recv_loop], ?_, ?_, ?_, ?_⟩
    · intro h; simp [uart_recv_loop] at h
    · intro _ x hx; cases hx
    · exact Or.inr (Or.inr rfl)
    · intro h; simp [uart_recv_loop] at h
  | succ f ih =>
    intro w buf total pc htot hpc
    rw [uart_recv_loop_succ]
    have hlen : (0 : Int) < 256 - 1 := by decide
    obtain ⟨ev, hev, hfault, hclean, hcnt, hsum⟩ := uart_recv_with_timeout_events
      w.read_g_running.2 d buf (256 - 1) RECV_TIMEOUT_SEC hfd hlen
    obtain ⟨hout, hrun, _⟩ := uart_recv_with_timeout_world
      w.read_g_running.2 d buf (256 - 1) RECV_TIMEOUT_SEC hfd hlen
    generalize uart_recv_with_timeout w.read_g_running.2 (some d) buf (256 - 1)
      RECV_TIMEOUT_SEC = R at hev hfault hclean hcnt hsum hout hrun ⊢
    have htr0 : w.read_g_running.2.trace = w.trace := rfl
    have hrun0 : w.read_g_running.2.g_running = fun k => w.g_running (k + 1) := rfl
    rw [htr0] at hev
    rw [hrun0] at hrun
    by_cases hg : w.g_running 0 = false
    · rw [if_pos hg]
      refine ⟨[], by simp [recv_done, World.print, World.read_g_running], ?_, ?_, ?_, ?_⟩
      · intro h; simp [recv_done] at h
      · intro _ x hx; cases hx
      · exact Or.inl rfl
      · intro _
        refine ⟨⟨0, hg⟩, ?_⟩
        simp [recv_done, World.print, World.read_g_running, htot, hpc]
    · rw [if_neg hg]
      by_cases h1 : R.1 < 0
      · rw [if_pos h1]
        refine ⟨ev, hev, ?_, ?_, ?_, ?_⟩
        · intro _; exact hfault h1
        · intro h; exact absurd rfl h
        · exact Or.inr (Or.inl rfl)
        · intro h; simp at h
      · rw [if_neg h1]
        have hclean1 := hclean (by omega)
        by_cases h2 : R.1 = 0
        · rw [if_pos h2]
          have hp : ¬ (0 < R.1) := by omega
          rw [if_neg hp] at hcnt hsum
          by_cases hg2 : R.2.2.g_running 0 = false
          · rw [if_pos hg2]
            refine ⟨ev, ?_, ?_, ?_, ?_, ?_⟩
            · simp only [recv_done, World.print, World.read_g_running]
              exact hev
            · intro h; simp [recv_done] at h
            · intro _; exact hclean1
            · exact Or.inl rfl
            · intro _
              refine ⟨⟨1, by rw [hrun] at hg2; exact hg2⟩, ?_⟩
              simp only [recv_done, World.print, World.read_g_running, hout, hcnt, hsum]
              simp [htot, hpc]
          · rw [if_neg hg2]
            obtain ⟨t, ht, hA, hB, hC, hD⟩ := ih R.2.2.read_g_running.2 R.2.1 total pc
              htot hpc
            refine ⟨ev ++ t, ?_, ?_, ?_, hC, ?_⟩
            · rw [ht]
              simp only [World.read_g_running, hev, List.append_assoc]
            · intro h
              obtain ⟨pre, e, hpe, hfe, hpre⟩ := hA h
              refine ⟨ev ++ pre, e, by rw [hpe, List.append_assoc], hfe, ?_⟩
              intro x hx
              rcases List.mem_append.mp hx with hx | hx
              · exact hclean1 x hx
              · exact hpre x hx
            · intro h x hx
              rcases List.mem_append.mp hx with hx | hx
              · exact hclean1 x hx
              · exact hB h x hx
            · intro h
              obtain ⟨⟨k, hk⟩, hlast⟩ := hD h
              refine ⟨⟨k + 1 + 1, ?_⟩, ?_⟩
              · have : R.2.2.read_g_running.2.g_running k = w.g_running (k + 1 + 1) := by
                  simp only [World.read_g_running, hrun]
                rw [← this]
                exact hk
              · rw [hlast]
                simp only [List.countP_append, List.map_append, List.sum_append, hsum]
                push_cast
                rw [hcnt]
                simp
        · rw [if_neg h2]
          have hp : 0 < R.1 := by omega
          rw [if_pos hp] at hcnt hsum
          obtain ⟨t, ht, hA, hB, hC, hD⟩ := ih
            (R.2.2.print (Msg.recv_progress (wrap_int (pc + 1)) R.1 (wrap_int (total + R.1))
              format (R.2.1.take R.1.toNat))) R.2.1 (wrap_int (total + R.1))
            (wrap_int (pc + 1)) (wrap_int_idem _) (wrap_int_idem _)
          refine ⟨ev ++ t, ?_, ?_, ?_, hC, ?_⟩
          · rw [ht]
            simp only [World.print, hev, List.append_assoc]
          · intro h
            obtain ⟨pre, e, hpe, hfe, hpre⟩ := hA h
            refine ⟨ev ++ pre, e, by rw [hpe, List.append_assoc], hfe, ?_⟩
            intro x hx
            rcases List.mem_append.mp hx with hx | hx
            · exact hclean1 x hx
            · exact hpre x hx
          · intro h x hx
            rcases List.mem_append.mp hx with hx | hx
            · exact hclean1 x hx
            · exact hB h x hx
          · intro h
            obtain ⟨⟨k, hk⟩, hlast⟩ := hD h
            refine ⟨⟨k + 1, ?_⟩, ?_⟩
            · have : (R.2.2.print (Msg.recv_progress (wrap_int (pc + 1)) R.1
                  (wrap_int (total + R.1)) format
                  (R.2.1.take R.1.toNat))).g_running k = w.g_running (k + 1) := by
                simp only [World.print, hrun]
              rw [← this]
              exact hk
            · rw [hlast, wrap_int_add, wrap_int_add]
              simp only [List.countP_append, List.map_append, List.sum_append, hsum]
              push_cast
              rw [hcnt]
              congr 3 <;> ring

/-- Once the flag is cleared the receive loop returns: fuel for one iteration
more than the index of a cleared read is enough. -/
theorem uart_recv_loop_returns (d : uartdev_t) (format : output_format_t) (hfd : 0 ≤ d.fd) :
    ∀ (fuel : Nat) (w : World) (buf : List Nat) (total pc : Int) (K : Nat),
      w.g_running K = false → K + 1 ≤ fuel →
      (uart_recv_loop (some d) format fuel w buf total pc).1 ≠ none := by
  intro fuel
  induction fuel with
  | zero =>
    intro w buf total pc K _ hK
    omega
  | succ f ih =>
    intro w buf total pc K hstop hK
    rw [uart_recv_loop_succ]
    have hlen : (0 : Int) < 256 - 1 := by decide
    obtain ⟨_, hrun, _⟩ := uart_recv_with_timeout_world
      w.read_g_running.2 d buf (256 - 1) RECV_TIMEOUT_SEC hfd hlen
    generalize uart_recv_with_timeout w.read_g_running.2 (some d) buf (256 - 1)
      RECV_TIMEOUT_SEC = R at hrun ⊢
    have hrun0 : w.read_g_running.2.g_running = fun k => w.g_running (k + 1) := rfl
    rw [hrun0] at hrun
    by_cases hg : w.g_running 0 = false
    · rw [if_pos hg]
      simp [recv_done]
    · rw [if_neg hg]
      have hK1 : 1 ≤ K := by
        rcases Nat.eq_zero_or_pos K with h | h
        · subst h; exact absurd hstop hg
        · exact h
      by_cases h1 : R.1 < 0
      · rw [if_pos h1]
        simp
      · rw [if_neg h1]
        by_cases h2 : R.1 = 0
        · rw [if_pos h2]
          by_cases hg2 : R.2.2.g_running 0 = false
          · rw [if_pos hg2]
            simp [recv_done]
          · rw [if_neg hg2]
            have hK2 : 2 ≤ K := by
              rcases Nat.lt_or_ge K 2 with h | h
              · have hK' : K = 1 := by omega
                subst hK'
                rw [hrun] at hg2
                exact absurd hstop hg2
              · exact h
            apply ih _ _ _ _ (K - 2)
            · simp only [World.read_g_running, hrun]
              rw [show K - 2 + 1 + 1 = K by omega]
              exact hstop
            · omega
        · rw [if_neg h2]
          apply ih _ _ _ _ (K - 1)
          · simp only [World.print, hrun]
            rw [show K - 1 + 1 = K by omega]
            exact hstop
          · omega

/-- A run of the receive loop in which every wait times out until the flag is
cleared: it returns 0 and prints nothing but the totals it started with. -/
theorem uart_recv_loop_idle (d : uartdev_t) (format : output_format_t) (hfd : 0 ≤ d.fd) :
    ∀ (fuel : Nat) (w : World) (buf : List Nat) (total pc : Int) (K : Nat),
      w.g_running K = false → K + 1 ≤ fuel → (∀ k, (w.poll_ret k).ret = 0) →
      (uart_recv_loop (some d) format fuel w buf total pc).1 = some 0 ∧
      (uart_recv_loop (some d) format fuel w buf total pc).2.out =
        w.out ++ [Msg.recv_completed pc total] := by
  intro fuel
  induction fuel with
  | zero =>
    intro w buf total pc K _ hK
    omega
  | succ f ih =>
    intro w buf total pc K hstop hK hidle
    rw [uart_recv_loop_succ]
    have hlen : (0 : Int) < 256 - 1 := by decide
    have hR : uart_recv_with_timeout w.read_g_running.2 (some d) buf (256 - 1)
        RECV_TIMEOUT_SEC =
        (0, buf, (w.read_g_running.2.poll d.fd (RECV_TIMEOUT_SEC * 1000)).2) := by
      rw [uart_recv_with_timeout_open _ d buf (256 - 1) RECV_TIMEOUT_SEC hfd hlen]
      have h0 : (w.read_g_running.2.poll_ret 0).ret = 0 := hidle 0
      have hn : ¬ (w.read_g_running.2.poll_ret 0).ret < 0 := by omega
      rw [if_neg hn, if_pos h0]
    rw [hR]
    by_cases hg : w.g_running 0 = false
    · rw [if_pos hg]
      exact ⟨rfl, rfl⟩
    · rw [if_neg hg]
      have hK1 : 1 ≤ K := by
        rcases Nat.eq_zero_or_pos K with h | h
        · subst h; exact absurd hstop hg
        · exact h
      have h1 : ¬ ((0 : Int) < 0) := by decide
      simp only [h1, if_false, if_true]
      by_cases hg2 : w.g_running 1 = false
      · have hg2' : (w.read_g_running.2.poll d.fd (RECV_TIMEOUT_SEC * 1000)).2.g_running 0 =
            false := hg2
        rw [if_pos hg2']
        exact ⟨rfl, rfl⟩
      · have hg2' : ¬ (w.read_g_running.2.poll d.fd (RECV_TIMEOUT_SEC * 1000)).2.g_running 0 =
            false := hg2
        rw [if_neg hg2']
        have hK2 : 2 ≤ K := by
          rcases Nat.lt_or_ge K 2 with h | h
          · have hK' : K = 1 := by omega
            subst hK'
            exact absurd hstop hg2
          · exact h
        have := ih (w.read_g_running.2.poll d.fd (RECV_TIMEOUT_SEC * 1000)).2.read_g_running.2
          buf total pc (K - 2)
          (by
            show w.g_running (K - 2 + 1 + 1) = false
            rw [show K - 2 + 1 + 1 = K by omega]
            exact hstop)
          (by omega) (fun k => hidle (k + 1))
        exact this

/-- The body of `uart_recv_test` on an open port. -/
theorem uart_recv_test_open (fuel : Nat) (w : World) (d : uartdev_t)
    (format : output_format_t) (hfd : 0 ≤ d.fd) :
    uart_recv_test fuel w (some d) format =
      uart_recv_loop (some d) format fuel (w.tcflush d.fd).2 (List.replicate 256 0) 0 0 := by
  simp only [uart_recv_test, uartdev_flush_open w d hfd]

/-- Every read that returned a positive count adds at least one byte, so the
packets are at most as many as the bytes. -/
theorem recv_packets_le_bytes (t : List Event) :
    (t.countP Event.is_packet : Int) ≤ (t.map Event.recv_bytes).sum := by
  induction t with
  | nil => simp
  | cons e t ih =>
    rw [List.countP_cons, List.map_cons, List.sum_cons]
    push_cast
    cases e with
    | read fd len ret =>
      by_cases h : 0 < ret
      · simp only [Event.is_packet, Event.recv_bytes, h, decide_True, if_true]
        omega
      · simp only [Event.is_packet, Event.recv_bytes, h, decide_False, if_false]
        push_cast
        omega
    | tcflush fd ret => simpa [Event.is_packet, Event.recv_bytes] using ih
    | write fd data ret => simpa [Event.is_packet, Event.recv_bytes] using ih
    | poll fd tmo res => simpa [Event.is_packet, Event.recv_bytes] using ih
    | usleep usec => simpa [Event.is_packet, Event.recv_bytes] using ih

/-- One receive attempt of `uart_recv_test` on a port whose wait finds data
and whose read delivers 255 bytes: it returns 255 after one `poll` and one
`read`. -/
theorem uart_recv_with_timeout_flood (w : World) (d : uartdev_t) (buf : List Nat)
    (hfd : 0 ≤ d.fd) (hpoll : w.poll_ret 0 = ⟨1, 0, 1⟩)
    (hread : w.read_ret 0 = read_result.data (List.replicate 255 0)) :
    (uart_recv_with_timeout w (some d) buf (256 - 1) RECV_TIMEOUT_SEC).1 = 255 ∧
    (uart_recv_with_timeout w (some d) buf (256 - 1) RECV_TIMEOUT_SEC).2.2.trace =
      w.trace ++ [Event.poll d.fd (RECV_TIMEOUT_SEC * 1000) ⟨1, 0, 1⟩,
        Event.read d.fd (256 - 1) 255] ∧
    (uart_recv_with_timeout w (some d) buf (256 - 1) RECV_TIMEOUT_SEC).2.2.out = w.out ∧
    (uart_recv_with_timeout w (some d) buf (256 - 1) RECV_TIMEOUT_SEC).2.2.g_running =
      w.g_running ∧
    (uart_recv_with_timeout w (some d) buf (256 - 1) RECV_TIMEOUT_SEC).2.2.poll_ret =
      (fun k => w.poll_ret (k + 1)) ∧
    (uart_recv_with_timeout w (some d) buf (256 - 1) RECV_TIMEOUT_SEC).2.2.read_ret =
      (fun k => w.read_ret (k + 1)) := by
  have hlen : (0 : Int) < 256 - 1 := by decide
  rw [uart_recv_with_timeout_open w d buf (256 - 1) RECV_TIMEOUT_SEC hfd hlen]
  have h1 : ¬ (w.poll_ret 0).ret < 0 := by rw [hpoll]; decide
  have h2 : ¬ (w.poll_ret 0).ret = 0 := by rw [hpoll]; decide
  have h3 : (w.poll_ret 0).revents &&& POLLIN ≠ 0 := by rw [hpoll]; decide
  rw [if_neg h1, if_neg h2, if_pos h3]
  have hr : (w.poll d.fd (RECV_TIMEOUT_SEC * 1000)).2.read_ret 0 =
      read_result.data (List.replicate 255 0) := hread
  have ht : ((256 : Int) - 1).toNat = 255 := by decide
  have hl : (List.take 255 (List.replicate 255 0)).length = 255 := by
    rw [List.length_take, List.length_replicate]
    rfl
  unfold World.read
  rw [hr]
  simp only [ht, hl]
  refine ⟨rfl, ?_, rfl, rfl, rfl, rfl⟩
  simp only [World.poll, hpoll, List.append_assoc, List.singleton_append]
  rfl

/-- The receive loop on a port that delivers 255 bytes to every attempt,
cancelled after `m` iterations: it returns 0 after `m` packets of 255 bytes
and reports their number and total as the two `int` counters hold them. -/
theorem uart_recv_loop_flood (d : uartdev_t) (format : output_format_t) (hfd : 0 ≤ d.fd) :
    ∀ (m fuel : Nat) (w : World) (buf : List Nat) (total pc : Int),
      m + 1 ≤ fuel → (∀ k, w.g_running k = decide (k < m)) →
      (∀ k, w.poll_ret k = ⟨1, 0, 1⟩) →
      (∀ k, w.read_ret k = read_result.data (List.replicate 255 0)) →
      wrap_int total = total → wrap_int pc = pc →
      (uart_recv_loop (some d) format fuel w buf total pc).1 = some 0 ∧
      ∃ t, (uart_recv_loop (some d) format fuel w buf total pc).2.trace = w.trace ++ t ∧
        (t.countP Event.is_packet : Int) = (m : Int) ∧
        (t.map Event.recv_bytes).sum = (m : Int) * 255 ∧
        (uart_recv_loop (some d) format fuel w buf total pc).2.out.getLast? =
          some (Msg.recv_completed (wrap_int (pc + (m : Int)))
            (wrap_int (total + (m : Int) * 255))) := by
  intro m
  induction m with
  | zero =>
    intro fuel w buf total pc hfuel hrun _ _ htot hpc
    obtain ⟨f, rfl⟩ : ∃ f, fuel = f + 1 := ⟨fuel - 1, by omega⟩
    have hg : w.g_running 0 = false := by
      rw [hrun 0]
      decide
    rw [uart_recv_loop_succ, if_pos hg]
    refine ⟨rfl, [], ?_, ?_, ?_, ?_⟩
    · simp [recv_done, World.print, World.read_g_running]
    · simp
    · simp
    · simp [recv_done, World.print, World.read_g_running, htot, hpc]
  | succ m ih =>
    intro fuel w buf total pc hfuel hrun hpoll hread htot hpc
    obtain ⟨f, rfl⟩ : ∃ f, fuel = f + 1 := ⟨fuel - 1, by omega⟩
    have hg : ¬ w.g_running 0 = false := by
      rw [hrun 0]
      simp
    obtain ⟨hR1, hRt, hRo, hRg, hRp, hRr⟩ := uart_recv_with_timeout_flood w.read_g_running.2 d
      buf hfd (hpoll 0) (hread 0)
    rw [uart_recv_loop_succ, if_neg hg]
    generalize uart_recv_with_timeout w.read_g_running.2 (some d) buf (256 - 1)
      RECV_TIMEOUT_SEC = R at hR1 hRt hRo hRg hRp hRr ⊢
    have h1 : ¬ R.1 < 0 := by omega
    have h2 : ¬ R.1 = 0 := by omega
    rw [if_neg h1, if_neg h2]
    obtain ⟨hres, t, ht, hcnt, hsum, hlast⟩ := ih f
      (R.2.2.print (Msg.recv_progress (wrap_int (pc + 1)) R.1 (wrap_int (total + R.1))
        format (R.2.1.take R.1.toNat))) R.2.1 (wrap_int (total + R.1))
      (wrap_int (pc + 1)) (by omega)
      (by
        intro k
        show R.2.2.g_running k = decide (k < m)
        rw [hRg]
        show w.g_running (k + 1) = decide (k < m)
        rw [hrun (k + 1)]
        simp)
      (by
        intro k
        show R.2.2.poll_ret k = _
        rw [hRp]
        exact hpoll (k + 1 + 0))
      (by
        intro k
        show R.2.2.read_ret k = _
        rw [hRr]
        exact hread (k + 1 + 0))
      (wrap_int_idem _) (wrap_int_idem _)
    refine ⟨hres, [Event.poll d.fd (RECV_TIMEOUT_SEC * 1000) ⟨1, 0, 1⟩,
      Event.read d.fd (256 - 1) 255] ++ t, ?_, ?_, ?_, ?_⟩
    · rw [ht]
      show R.2.2.trace ++ t = _
      rw [hRt]
      simp [World.read_g_running]
    · rw [List.countP_append]
      push_cast
      rw [hcnt]
      simp [List.countP_cons, Event.is_packet]
      ring
    · rw [List.map_append, List.sum_append, hsum]
      simp [Event.recv_bytes]
      ring
    · rw [hlast, wrap_int_add, wrap_int_add, hR1]
      congr 3 <;> (push_cast; ring)

/-- C8, as stated, fails once the bytes received pass `INT_MAX`: on a port
that delivers 255 bytes to every attempt, cancelled after 8421505 iterations,
`uart_recv_test` returns 0 and its calls hold 8421505 reads with a positive
count, whose counts sum to 2147483775, but the byte counter `total_bytes` is
an `int` and the last line reports -2147483521 bytes in total. -/
theorem uart_recv_test_total_wraps :
    (uart_recv_test 8421506 flood_world (some sample_dev) output_format_t.OUTPUT_HEX).1 =
      some 0 ∧
    ∃ t, (uart_recv_test 8421506 flood_world (some sample_dev)
          output_format_t.OUTPUT_HEX).2.trace =
        flood_world.trace ++ Event.tcflush sample_dev.fd (flood_world.tcflush_ret 0) :: t ∧
      (t.countP Event.is_packet : Int) = 8421505 ∧
      (t.map Event.recv_bytes).sum = 2147483775 ∧
      (uart_recv_test 8421506 flood_world (some sample_dev)
          output_format_t.OUTPUT_HEX).2.out.getLast? =
        some (Msg.recv_completed 8421505 (-2147483521)) := by
  have hfd : 0 ≤ sample_dev.fd := by decide
  rw [uart_recv_test_open 8421506 flood_world sample_dev output_format_t.OUTPUT_HEX hfd]
  obtain ⟨hres, t, ht, hcnt, hsum, hlast⟩ := uart_recv_loop_flood sample_dev
    output_format_t.OUTPUT_HEX hfd 8421505 8421506 (flood_world.tcflush sample_dev.fd).2
    (List.replicate 256 0) 0 0 (by decide) (fun _ => rfl) (fun _ => rfl) (fun _ => rfl)
    (by decide) (by decide)
  have hv1 : wrap_int (0 + ((8421505 : Nat) : Int)) = 8421505 := by
    norm_num [wrap_int]
  have hv2 : wrap_int (0 + ((8421505 : Nat) : Int) * 255) = -2147483521 := by
    norm_num [wrap_int]
  rw [hv1, hv2] at hlast
  refine ⟨hres, t, ?_, ?_, ?_, hlast⟩
  · rw [ht]
    simp [World.tcflush]
  · rw [hcnt]
    norm_num
  · rw [hsum]
    norm_num

/-- C8 (amended): on an open port, with `t` the calls `uart_recv_test` makes
after its flush: it returns -1 exactly when `t` holds a call by which a receive
attempt reports an error (a failed `poll` other than `EINTR`, a failed `read`),
and that call is then the last one made and the only such; it returns nothing
but 0 or -1; when it returns 0 the flag was seen cleared and the last line
reports the number of reads that returned a positive count and the sum of
those counts, each reduced to the range of an `int`: they are that number and
that sum themselves whenever the sum is at most `INT_MAX`. Once the flag is
cleared the function does return, and if moreover every wait timed out it
returns 0 and its only line reports zero packets and zero bytes. -/
theorem uart_recv_test_outcome (w : World) (d : uartdev_t) (format : output_format_t)
    (fuel : Nat) (hfd : 0 ≤ d.fd) :
    (∃ t, (uart_recv_test fuel w (some d) format).2.trace =
        w.trace ++ Event.tcflush d.fd (w.tcflush_ret 0) :: t ∧
      ((uart_recv_test fuel w (some d) format).1 = some (-1) ↔
        ∃ e ∈ t, e.is_recv_fault = true) ∧
      ((uart_recv_test fuel w (some d) format).1 = some (-1) →
        ∃ pre e, t = pre ++ [e] ∧ e.is_recv_fault = true ∧
          ∀ x ∈ pre, x.is_recv_fault = false) ∧
      ((uart_recv_test fuel w (some d) format).1 = some 0 ∨
        (uart_recv_test fuel w (some d) format).1 = some (-1) ∨
        (uart_recv_test fuel w (some d) format).1 = none) ∧
      ((uart_recv_test fuel w (some d) format).1 = some 0 →
        (∃ k, w.g_running k = false) ∧
        (uart_recv_test fuel w (some d) format).2.out.getLast? =
          some (Msg.recv_completed (wrap_int (t.countP Event.is_packet : Int))
            (wrap_int ((t.map Event.recv_bytes).sum))) ∧
        ((t.map Event.recv_bytes).sum ≤ INT_MAX →
          (uart_recv_test fuel w (some d) format).2.out.getLast? =
            some (Msg.recv_completed (t.countP Event.is_packet : Int)
              ((t.map Event.recv_bytes).sum))))) ∧
    (∀ K, w.g_running K = false → K + 1 ≤ fuel →
      (uart_recv_test fuel w (some d) format).1 ≠ none) ∧
    (∀ K, w.g_running K = false → K + 1 ≤ fuel → (∀ k, (w.poll_ret k).ret = 0) →
      (uart_recv_test fuel w (some d) format).1 = some 0 ∧
      (uart_recv_test fuel w (some d) format).2.out = w.out ++ [Msg.recv_completed 0 0]) := by
  rw [uart_recv_test_open fuel w d format hfd]
  refine ⟨?_, ?_, ?_⟩
  · obtain ⟨t, ht, hA, hB, hC, hD⟩ := uart_recv_loop_outcome d format hfd fuel
      (w.tcflush d.fd).2 (List.replicate 256 0) 0 0 (by decide) (by decide)
    refine ⟨t, ?_, ⟨?_, ?_⟩, hA, hC, ?_⟩
    · rw [ht]
      simp [World.tcflush]
    · intro h
      obtain ⟨pre, e, hpe, hfe, _⟩ := hA h
      exact ⟨e, by rw [hpe]; simp, hfe⟩
    · rintro ⟨e, he, hfe⟩
      by_contra hne
      have := hB hne e he
      rw [hfe] at this
      cases this
    · intro h
      obtain ⟨hk, hlast⟩ := hD h
      have hlast1 : (uart_recv_loop (some d) format fuel (w.tcflush d.fd).2
          (List.replicate 256 0) 0 0).2.out.getLast? =
          some (Msg.recv_completed (wrap_int (t.countP Event.is_packet : Int))
            (wrap_int ((t.map Event.recv_bytes).sum))) := by
        rw [hlast]
        simp
      refine ⟨hk, hlast1, ?_⟩
      intro hfit
      have hle := recv_packets_le_bytes t
      have h0 : (0 : Int) ≤ (t.countP Event.is_packet : Int) := Int.natCast_nonneg _
      rw [hlast1, wrap_int_of_range _ (by omega) (by omega),
        wrap_int_of_range _ (by omega) hfit]
  · intro K hstop hK
    exact uart_recv_loop_returns d format hfd fuel (w.tcflush d.fd).2 _ 0 0 K hstop hK
  · intro K hstop hK hidle
    exact uart_recv_loop_idle d format hfd fuel (w.tcflush d.fd).2 _ 0 0 K hstop hK hidle

/-- Witness of C8 (amended) on the silent port, cancelled at the third read of
the flag: the run returns 0 and reports zero packets and zero bytes. -/
theorem uart_recv_test_outcome_witness :
    0 ≤ sample_dev.fd ∧
    (uart_recv_test 3 idle_world (some sample_dev) output_format_t.OUTPUT_ASCII).1 = some 0 ∧
    (uart_recv_test 3 idle_world (some sample_dev) output_format_t.OUTPUT_ASCII).2.out =
      idle_world.out ++ [Msg.recv_completed 0 0] :=
  ⟨by decide,
    (uart_recv_test_outcome idle_world sample_dev output_format_t.OUTPUT_ASCII 3
      (by decide)).2.2 2 rfl (by decide) (fun _ => rfl)⟩

/-! ### Claims on payload and flush failures -/

/-- The payload block rejects an empty ASCII string and a hex string that
`parse_hex_string` rejects. -/
theorem send_payload_none (send_str : List Nat) (format : output_format_t)
    (h : (format = output_format_t.OUTPUT_ASCII ∧ send_str = []) ∨
      (format = output_format_t.OUTPUT_HEX ∧
        (parse_hex_string send_str (List.replicate 512 0) 512).1 < 0)) :
    send_payload send_str format = none := by
  unfold send_payload
  rcases h with ⟨hf, hs⟩ | ⟨hf, hp⟩
  · have hne : ¬ (format = output_format_t.OUTPUT_HEX) := by rw [hf]; decide
    rw [if_neg hne]
    subst hs
    rfl
  · rw [if_pos hf]
    simp only
    rw [if_pos hp]

/-- C11: if the payload cannot be encoded (ASCII format with an empty string,
or hex format with a string that `parse_hex_string` rejects), then
`uart_loopback_test` and `uart_send_test` return -1 and leave the environment
as it was: no flush, write, wait or read is made on the port. -/
theorem payload_rejected_before_channel (w : World) (dev : Option uartdev_t)
    (send_str : List Nat) (format : output_format_t) (interval_ms count : Int) (fuel : Nat)
    (h : (format = output_format_t.OUTPUT_ASCII ∧ send_str = []) ∨
      (format = output_format_t.OUTPUT_HEX ∧
        (parse_hex_string send_str (List.replicate 512 0) 512).1 < 0)) :
    uart_loopback_test w dev send_str format = (-1, w) ∧
    uart_send_test fuel w dev send_str interval_ms count format = (some (-1), w) := by
  have hp := send_payload_none send_str format h
  cases dev with
  | none => exact ⟨rfl, rfl⟩
  | some d =>
    constructor
    · simp only [uart_loopback_test, hp]
    · simp only [uart_send_test, hp]

/-- Witness of C11 on the hex string "1g" and the echoing port. -/
theorem payload_rejected_before_channel_witness :
    uart_loopback_test echo_world (some sample_dev) [49, 103]
      output_format_t.OUTPUT_HEX = (-1, echo_world) ∧
    uart_send_test 3 echo_world (some sample_dev) [49, 103] 100 0
      output_format_t.OUTPUT_HEX = (some (-1), echo_world) :=
  payload_rejected_before_channel echo_world (some sample_dev) [49, 103]
    output_format_t.OUTPUT_HEX 100 0 3 (Or.inr ⟨rfl, by decide⟩)

/-- The send loop after `k` iterations in which the flag was set, the write
reported the whole payload and the count was not reached: it goes on from the
environment those iterations leave, with `k` more sends counted. -/
theorem uart_send_loop_prefix (d : uartdev_t) (send_data : List Nat)
    (len interval_ms count : Int) (hfd : 0 ≤ d.fd) (hlen : 0 ≤ len) :
    ∀ (k fuel : Nat) (w : World) (i sent_bytes : Int),
      (∀ j, j < k → w.g_running j = true) → (∀ j, j < k → w.write_ret j = len) →
      (count ≤ 0 ∨ i + (k : Int) < count) →
      wrap_int i = i → wrap_int sent_bytes = sent_bytes →
      ∃ w1, uart_send_loop (some d) send_data len interval_ms count (fuel + k) w i
          sent_bytes =
          uart_send_loop (some d) send_data len interval_ms count fuel w1
            (wrap_int (i + (k : Int))) (wrap_int (sent_bytes + (k : Int) * len)) ∧
        w1.trace = w.trace ++ (List.replicate k
          [Event.write d.fd (send_data.take len.toNat) len,
            Event.usleep (interval_ms * 1000)]).flatten ∧
        w1.out = w.out ++ send_progress_lines len k i sent_bytes ∧
        w1.g_running = (fun j => w.g_running (j + k)) ∧
        w1.write_ret = (fun j => w.write_ret (j + k)) := by
  intro k
  induction k with
  | zero =>
    intro fuel w i sent_bytes _ _ _ hi hsb
    refine ⟨w, ?_, ?_, ?_, rfl, rfl⟩
    · simp [hi, hsb]
    · simp
    · simp [send_progress_lines]
  | succ k ih =>
    intro fuel w i sent_bytes hrun hwr hcount hi hsb
    rw [show fuel + (k + 1) = (fuel + k) + 1 by omega]
    rw [uart_send_loop_step d send_data len interval_ms count (fuel + k) w i sent_bytes
      hfd hlen (hrun 0 (by omega)) (hwr 0 (by omega))]
    have hstep : count ≤ 0 ∨ wrap_int (i + 1) + (k : Int) < count := by
      unfold wrap_int at hi ⊢
      push_cast at hcount
      omega
    have hc : ¬ (count > 0 ∧ wrap_int (i + 1) ≥ count) := by
      have hk0 : (0 : Int) ≤ (k : Int) := Int.natCast_nonneg _
      omega
    rw [if_neg hc]
    obtain ⟨w1, hw1, htr, hout, hg, hwr1⟩ := ih fuel
      (((w.read_g_running.2.write d.fd (send_data.take len.toNat)).2.print
        (Msg.send_progress (wrap_int (i + 1)) len
          (wrap_int (sent_bytes + len)))).usleep (interval_ms * 1000))
      (wrap_int (i + 1)) (wrap_int (sent_bytes + len))
      (fun j hj => hrun (j + 1) (by omega)) (fun j hj => hwr (j + 1) (by omega))
      hstep (wrap_int_idem _) (wrap_int_idem _)
    refine ⟨w1, ?_, ?_, ?_, ?_, ?_⟩
    · rw [hw1, wrap_int_add, wrap_int_add]
      have e1 : i + 1 + (k : Int) = i + ((k + 1 : Nat) : Int) := by push_cast; ring
      have e2 : sent_bytes + len + (k : Int) * len =
          sent_bytes + ((k + 1 : Nat) : Int) * len := by push_cast; ring
      rw [e1, e2]
    · rw [htr]
      simp [World.usleep, World.print, World.write, World.read_g_running,
        hwr 0 (by omega), List.replicate_succ]
    · rw [hout]
      simp [World.usleep, World.print, World.write, World.read_g_running,
        send_progress_lines]
    · rw [hg]
      funext j
      simp only [World.usleep, World.print, World.write, World.read_g_running]
      congr 1
    · rw [hwr1]
      funext j
      simp only [World.usleep, World.print, World.write, World.read_g_running]
      congr 1

/-- C13: if the write of iteration `k + 1` of `uart_send_test` reports a byte
count other than the payload length (the `k` writes before it were complete,
the flag was set and the count not reached), the function returns -1 at once:
the calls end with that write, no sleep follows it, and the progress lines
count `k` sends only, with no line of totals. -/
theorem uart_send_test_write_failure (w : World) (d : uartdev_t) (send_str : List Nat)
    (interval_ms count : Int) (format : output_format_t) (send_data : List Nat) (len : Int)
    (k fuel : Nat) (hfd : 0 ≤ d.fd)
    (hpay : send_payload send_str format = some (send_data, len))
    (hfuel : k + 1 ≤ fuel) (hcount : count ≤ 0 ∨ (k : Int) < count)
    (hrun : ∀ j, j ≤ k → w.g_running j = true)
    (hwr : ∀ j, j < k → w.write_ret j = len) (hbad : w.write_ret k ≠ len) :
    ∃ w1, uart_send_test fuel w (some d) send_str interval_ms count format =
        (some (-1), w1) ∧
      w1.trace = w.trace ++ Event.tcflush d.fd (w.tcflush_ret 0) ::
        ((List.replicate k [Event.write d.fd (send_data.take len.toNat) len,
          Event.usleep (interval_ms * 1000)]).flatten ++
          [Event.write d.fd (send_data.take len.toNat) (w.write_ret k)]) ∧
      w1.out = w.out ++ send_progress_lines len k 0 0 := by
  obtain ⟨hl0, _⟩ := send_payload_some send_str format send_data len hpay
  rw [uart_send_test_open fuel w d send_str interval_ms count format send_data len hfd hpay]
  obtain ⟨f, rfl⟩ : ∃ f, fuel = (f + 1) + k := ⟨fuel - 1 - k, by omega⟩
  obtain ⟨w1, hw1, htr, hout, hg, hwr1⟩ := uart_send_loop_prefix d send_data len
    interval_ms count hfd (le_of_lt hl0) k (f + 1) (w.tcflush d.fd).2 0 0
    (fun j hj => hrun j (by omega)) hwr (by omega) (by decide) (by decide)
  rw [hw1, uart_send_loop]
  have hg0 : w1.read_g_running.1 = true := by
    show w1.g_running 0 = true
    rw [hg]
    simpa using hrun k (le_refl k)
  have hs : (w1.read_g_running.2.write d.fd (send_data.take len.toNat)).1 = w.write_ret k := by
    show w1.write_ret 0 = w.write_ret k
    rw [hwr1]
    simp [World.tcflush]
  have hs2 : (w1.read_g_running.2.write d.fd (send_data.take len.toNat)).1 ≠ len := by
    rw [hs]; exact hbad
  simp only [hg0, Bool.not_true, Bool.false_eq_true, if_false,
    uartdev_send_open _ d send_data len hfd (le_of_lt hl0), hs2, ne_eq, not_false_eq_true,
    if_true]
  refine ⟨_, rfl, ?_, ?_⟩
  · have hw0 : w1.write_ret 0 = w.write_ret k := by
      rw [hwr1]
      simp [World.tcflush]
    simp [World.write, World.read_g_running, htr, World.tcflush, hw0]
  · simp [World.write, World.read_g_running, hout, World.tcflush]

/-- Witness of C13: unbounded sending of "Hi" on a port whose third write
reports one byte only. -/
theorem uart_send_test_write_failure_witness :
    ∃ w1, uart_send_test 3 short_write_world (some sample_dev) [72, 105] 100 0
        output_format_t.OUTPUT_ASCII = (some (-1), w1) ∧
      w1.trace = short_write_world.trace ++
        Event.tcflush sample_dev.fd (short_write_world.tcflush_ret 0) ::
          ((List.replicate 2 [Event.write sample_dev.fd ([72, 105].take (2 : Int).toNat) 2,
            Event.usleep (100 * 1000)]).flatten ++
            [Event.write sample_dev.fd ([72, 105].take (2 : Int).toNat)
              (short_write_world.write_ret 2)]) ∧
      w1.out = short_write_world.out ++ send_progress_lines 2 2 0 0 :=
  uart_send_test_write_failure short_write_world sample_dev [72, 105] 100 0
    output_format_t.OUTPUT_ASCII [72, 105] 2 2 3 (by decide) rfl (by decide)
    (Or.inl (by decide)) (fun _ _ => rfl)
    (fun j hj => if_pos hj)
    (by decide)

/-! ### The value returned by the flush -/

theorem agree_read_g_running (p q : List Event) (w v : World) (h : World.agree p q w v) :
    w.read_g_running.1 = v.read_g_running.1 ∧
    World.agree p q w.read_g_running.2 v.read_g_running.2 := by
  obtain ⟨h1, h2, h3, h4, h5, t, ht1, ht2⟩ := h
  refine ⟨?_, ?_, h2, h3, h4, h5, t, ht1, ht2⟩
  · show w.g_running 0 = v.g_running 0
    rw [h1]
  · show (fun k => w.g_running (k + 1)) = fun k => v.g_running (k + 1)
    rw [h1]

theorem agree_print (p q : List Event) (w v : World) (m : Msg) (h : World.agree p q w v) :
    World.agree p q (w.print m) (v.print m) := by
  obtain ⟨h1, h2, h3, h4, h5, t, ht1, ht2⟩ := h
  refine ⟨h1, h2, h3, h4, ?_, t, ht1, ht2⟩
  show w.out ++ [m] = v.out ++ [m]
  rw [h5]

theorem agree_usleep (p q : List Event) (w v : World) (u : Int) (h : World.agree p q w v) :
    World.agree p q (w.usleep u) (v.usleep u) := by
  obtain ⟨h1, h2, h3, h4, h5, t, ht1, ht2⟩ := h
  refine ⟨h1, h2, h3, h4, h5, t ++ [Event.usleep u], ?_, ?_⟩
  · show w.trace ++ [Event.usleep u] = p ++ (t ++ [Event.usleep u])
    rw [ht1, List.append_assoc]
  · show v.trace ++ [Event.usleep u] = q ++ (t ++ [Event.usleep u])
    rw [ht2, List.append_assoc]

theorem agree_write (p q : List Event) (w v : World) (fd : Int) (data : List Nat)
    (h : World.agree p q w v) :
    (w.write fd data).1 = (v.write fd data).1 ∧
    World.agree p q (w.write fd data).2 (v.write fd data).2 := by
  obtain ⟨h1, h2, h3, h4, h5, t, ht1, ht2⟩ := h
  have e : w.write_ret 0 = v.write_ret 0 := by rw [h2]
  refine ⟨e, h1, ?_, h3, h4, h5, t ++ [Event.write fd data (w.write_ret 0)], ?_, ?_⟩
  · show (fun k => w.write_ret (k + 1)) = fun k => v.write_ret (k + 1)
    rw [h2]
  · show w.trace ++ [Event.write fd data (w.write_ret 0)] = _
    rw [ht1, List.append_assoc]
  · show v.trace ++ [Event.write fd data (v.write_ret 0)] = _
    rw [ht2, List.append_assoc, e]

theorem agree_poll (p q : List Event) (w v : World) (fd tmo : Int)
    (h : World.agree p q w v) :
    (w.poll fd tmo).1 = (v.poll fd tmo).1 ∧
    World.agree p q (w.poll fd tmo).2 (v.poll fd tmo).2 := by
  obtain ⟨h1, h2, h3, h4, h5, t, ht1, ht2⟩ := h
  have e : w.poll_ret 0 = v.poll_ret 0 := by rw [h3]
  refine ⟨e, h1, h2, ?_, h4, h5, t ++ [Event.poll fd tmo (w.poll_ret 0)], ?_, ?_⟩
  · show (fun k => w.poll_ret (k + 1)) = fun k => v.poll_ret (k + 1)
    rw [h3]
  · show w.trace ++ [Event.poll fd tmo (w.poll_ret 0)] = _
    rw [ht1, List.append_assoc]
  · show v.trace ++ [Event.poll fd tmo (v.poll_ret 0)] = _
    rw [ht2, List.append_assoc, e]

theorem agree_read (p q : List Event) (w v : World) (fd : Int) (buf : List Nat) (len : Int)
    (h : World.agree p q w v) :
    (w.read fd buf len).1 = (v.read fd buf len).1 ∧
    (w.read fd buf len).2.1 = (v.read fd buf len).2.1 ∧
    World.agree p q (w.read fd buf len).2.2 (v.read fd buf len).2.2 := by
  obtain ⟨h1, h2, h3, h4, h5, t, ht1, ht2⟩ := h
  have e : w.read_ret 0 = v.read_ret 0 := by rw [h4]
  have es : (fun k => w.read_ret (k + 1)) = fun k => v.read_ret (k + 1) := by rw [h4]
  unfold World.read
  rw [← e]
  cases w.read_ret 0 with
  | error errno =>
    refine ⟨rfl, rfl, h1, h2, h3, es, h5, t ++ [Event.read fd len (-1)], ?_, ?_⟩
    · show w.trace ++ [Event.read fd len (-1)] = _
      rw [ht1, List.append_assoc]
    · show v.trace ++ [Event.read fd len (-1)] = _
      rw [ht2, List.append_assoc]
  | data bytes =>
    refine ⟨rfl, rfl, h1, h2, h3, es, h5,
      t ++ [Event.read fd len ((bytes.take len.toNat).length : Int)], ?_, ?_⟩
    · show w.trace ++ [Event.read fd len ((bytes.take len.toNat).length : Int)] = _
      rw [ht1, List.append_assoc]
    · show v.trace ++ [Event.read fd len ((bytes.take len.toNat).length : Int)] = _
      rw [ht2, List.append_assoc]

theorem agree_send (p q : List Event) (w v : World) (dev : Option uartdev_t)
    (buf : List Nat) (len : Int) (h : World.agree p q w v) :
    (uartdev_send w dev buf len).1 = (uartdev_send v dev buf len).1 ∧
    World.agree p q (uartdev_send w dev buf len).2 (uartdev_send v dev buf len).2 := by
  cases dev with
  | none => exact ⟨rfl, h⟩
  | some d =>
    simp only [uartdev_send]
    split_ifs
    · exact ⟨rfl, h⟩
    · exact agree_write p q w v d.fd _ h

theorem agree_recv (p q : List Event) (w v : World) (dev : Option uartdev_t)
    (buf : List Nat) (len tmo : Int) (h : World.agree p q w v) :
    (uart_recv_with_timeout w dev buf len tmo).1 =
      (uart_recv_with_timeout v dev buf len tmo).1 ∧
    (uart_recv_with_timeout w dev buf len tmo).2.1 =
      (uart_recv_with_timeout v dev buf len tmo).2.1 ∧
    World.agree p q (uart_recv_with_timeout w dev buf len tmo).2.2
      (uart_recv_with_timeout v dev buf len tmo).2.2 := by
  cases dev with
  | none => exact ⟨rfl, rfl, h⟩
  | some d =>
    obtain ⟨hp1, hp2⟩ := agree_poll p q w v d.fd (tmo * 1000) h
    obtain ⟨hr1, hr2, hr3⟩ := agree_read p q _ _ d.fd buf len hp2
    simp only [uart_recv_with_timeout, uartdev_recv]
    rw [← hp1]
    split_ifs
    · exact ⟨rfl, rfl, h⟩
    · exact ⟨rfl, rfl, hp2⟩
    · exact ⟨rfl, rfl, hp2⟩
    · exact ⟨rfl, rfl, hp2⟩
    all_goals first
      | exact ⟨rfl, rfl, h⟩
      | exact ⟨rfl, rfl, hp2⟩
      | exact ⟨rfl, hr2, hr3⟩
      | exact ⟨hr1, hr2, hr3⟩
      | (exfalso; omega)

theorem agree_send_loop (p q : List Event) (dev : Option uartdev_t) (send_data : List Nat)
    (len interval_ms count : Int) :
    ∀ (fuel : Nat) (w v : World) (i sent_bytes : Int), World.agree p q w v →
      (uart_send_loop dev send_data len interval_ms count fuel w i sent_bytes).1 =
        (uart_send_loop dev send_data len interval_ms count fuel v i sent_bytes).1 ∧
      World.agree p q
        (uart_send_loop dev send_data len interval_ms count fuel w i sent_bytes).2
        (uart_send_loop dev send_data len interval_ms count fuel v i sent_bytes).2 := by
  intro fuel
  induction fuel with
  | zero =>
    intro w v i sent_bytes h
    exact ⟨rfl, h⟩
  | succ f ih =>
    intro w v i sent_bytes h
    obtain ⟨hg1, hg2⟩ := agree_read_g_running p q w v h
    obtain ⟨hs1, hs2⟩ := agree_send p q _ _ dev send_data len hg2
    rw [uart_send_loop, uart_send_loop]
    simp only
    rw [← hg1, ← hs1]
    split_ifs
    · exact ⟨rfl, agree_print p q _ _ _ hg2⟩
    · exact ⟨rfl, hs2⟩
    · exact ⟨rfl, agree_print p q _ _ _ (agree_print p q _ _ _ hs2)⟩
    · exact ih _ _ _ _ (agree_usleep p q _ _ _ (agree_print p q _ _ _ hs2))

theorem agree_recv_loop (p q : List Event) (dev : Option uartdev_t)
    (format : output_format_t) :
    ∀ (fuel : Nat) (w v : World) (buf : List Nat) (total pc : Int), World.agree p q w v →
      (uart_recv_loop dev format fuel w buf total pc).1 =
        (uart_recv_loop dev format fuel v buf total pc).1 ∧
      World.agree p q (uart_recv_loop dev format fuel w buf total pc).2
        (uart_recv_loop dev format fuel v buf total pc).2 := by
  intro fuel
  induction fuel with
  | zero =>
    intro w v buf total pc h
    exact ⟨rfl, h⟩
  | succ f ih =>
    intro w v buf total pc h
    obtain ⟨hg1, hg2⟩ := agree_read_g_running p q w v h
    obtain ⟨hr1, hr2, hr3⟩ := agree_recv p q _ _ dev buf (256 - 1) RECV_TIMEOUT_SEC hg2
    obtain ⟨hk1, hk2⟩ := agree_read_g_running p q _ _ hr3
    have hg1' : w.g_running 0 = v.g_running 0 := hg1
    have hk1' : (uart_recv_with_timeout w.read_g_running.2 dev buf (256 - 1)
        RECV_TIMEOUT_SEC).2.2.g_running 0 =
        (uart_recv_with_timeout v.read_g_running.2 dev buf (256 - 1)
          RECV_TIMEOUT_SEC).2.2.g_running 0 := hk1
    rw [uart_recv_loop_succ, uart_recv_loop_succ]
    rw [← hg1', ← hr1, ← hr2, ← hk1']
    split_ifs
    · exact ⟨rfl, agree_print p q _ _ _ hg2⟩
    · exact ⟨rfl, hr3⟩
    · exact ⟨rfl, agree_print p q _ _ _ hk2⟩
    · exact ih _ _ _ _ _ hk2
    · exact ih _ _ _ _ _ (agree_print p q _ _ _ hr3)

/-- The flush leaves two environments that differ in the answers kept for
`tcflush` in agreement, from traces that differ in the flush alone. -/
theorem agree_flush (w : World) (g : Nat → Int) (dev : Option uartdev_t) :
    ∃ p q, calls_but_flush p = calls_but_flush q ∧
      World.agree p q (uartdev_flush w dev).2
        (uartdev_flush { w with tcflush_ret := g } dev).2 := by
  cases dev with
  | none => exact ⟨[], [], rfl, rfl, rfl, rfl, rfl, rfl, w.trace, rfl, rfl⟩
  | some d =>
    simp only [uartdev_flush]
    split_ifs
    · exact ⟨[], [], rfl, rfl, rfl, rfl, rfl, rfl, w.trace, rfl, rfl⟩
    · refine ⟨w.trace ++ [Event.tcflush d.fd (w.tcflush_ret 0)],
        w.trace ++ [Event.tcflush d.fd (g 0)], ?_, rfl, rfl, rfl, rfl, rfl, [], ?_, ?_⟩
      · simp [calls_but_flush, List.filter_append, Event.is_tcflush]
      · simp [World.tcflush]
      · simp [World.tcflush]

/-- What agreement lets one observe: the same lines and, the flush apart, the
same calls. -/
theorem agree_observe (p q : List Event) (w v : World)
    (hpq : calls_but_flush p = calls_but_flush q) (h : World.agree p q w v) :
    w.out = v.out ∧ calls_but_flush w.trace = calls_but_flush v.trace := by
  obtain ⟨_, _, _, _, h5, t, ht1, ht2⟩ := h
  refine ⟨h5, ?_⟩
  rw [ht1, ht2]
  simp only [calls_but_flush, List.filter_append] at hpq ⊢
  rw [hpq]

theorem agree_loopback (w : World) (g : Nat → Int) (dev : Option uartdev_t)
    (send_str : List Nat) (format : output_format_t) :
    (uart_loopback_test { w with tcflush_ret := g } dev send_str format).1 =
      (uart_loopback_test w dev send_str format).1 ∧
    (uart_loopback_test { w with tcflush_ret := g } dev send_str format).2.out =
      (uart_loopback_test w dev send_str format).2.out ∧
    calls_but_flush (uart_loopback_test { w with tcflush_ret := g } dev send_str format).2.trace =
      calls_but_flush (uart_loopback_test w dev send_str format).2.trace := by
  cases dev with
  | none => exact ⟨rfl, rfl, rfl⟩
  | some d =>
    cases hpay : send_payload send_str format with
    | none =>
      simp only [uart_loopback_test, hpay]
      exact ⟨trivial, trivial, trivial⟩
    | some pl =>
      obtain ⟨send_data, n⟩ := pl
      obtain ⟨p, q, hpq, hf⟩ := agree_flush w g (some d)
      obtain ⟨hs1, hs2⟩ := agree_send p q _ _ (some d) send_data n hf
      obtain ⟨hr1, hr2, hr3⟩ := agree_recv p q _ _ (some d) (List.replicate 1024 0)
        (1024 - 1) RECV_TIMEOUT_SEC hs2
      simp only [uart_loopback_test, hpay]
      rw [← hs1, ← hr1, ← hr2]
      split_ifs
      · have := agree_observe p q _ _ hpq hs2
        exact ⟨rfl, this.1.symm, this.2.symm⟩
      · have := agree_observe p q _ _ hpq hr3
        exact ⟨rfl, this.1.symm, this.2.symm⟩
      · have := agree_observe p q _ _ hpq hr3
        exact ⟨rfl, this.1.symm, this.2.symm⟩
      · have := agree_observe p q _ _ hpq hr3
        exact ⟨rfl, this.1.symm, this.2.symm⟩
      · have := agree_observe p q _ _ hpq hr3
        exact ⟨rfl, this.1.symm, this.2.symm⟩
      · have := agree_observe p q _ _ hpq (agree_print p q _ _ (Msg.loopback_passed n) hr3)
        exact ⟨rfl, this.1.symm, this.2.symm⟩

theorem agree_send_test (w : World) (g : Nat → Int) (dev : Option uartdev_t)
    (send_str : List Nat) (interval_ms count : Int) (format : output_format_t) (fuel : Nat) :
    (uart_send_test fuel { w with tcflush_ret := g } dev send_str interval_ms count format).1 =
      (uart_send_test fuel w dev send_str interval_ms count format).1 ∧
    (uart_send_test fuel { w with tcflush_ret := g } dev send_str interval_ms count
        format).2.out =
      (uart_send_test fuel w dev send_str interval_ms count format).2.out ∧
    calls_but_flush (uart_send_test fuel { w with tcflush_ret := g } dev send_str interval_ms
        count format).2.trace =
      calls_but_flush (uart_send_test fuel w dev send_str interval_ms count format).2.trace := by
  cases dev with
  | none => exact ⟨rfl, rfl, rfl⟩
  | some d =>
    cases hpay : send_payload send_str format with
    | none =>
      simp only [uart_send_test, hpay]
      exact ⟨trivial, trivial, trivial⟩
    | some pl =>
      obtain ⟨send_data, n⟩ := pl
      obtain ⟨p, q, hpq, hf⟩ := agree_flush w g (some d)
      obtain ⟨h1, h2⟩ := agree_send_loop p q (some d) send_data n interval_ms count fuel
        _ _ 0 0 hf
      have := agree_observe p q _ _ hpq h2
      simp only [uart_send_test, hpay]
      exact ⟨h1.symm, this.1.symm, this.2.symm⟩

theorem agree_recv_test (w : World) (g : Nat → Int) (dev : Option uartdev_t)
    (format : output_format_t) (fuel : Nat) :
    (uart_recv_test fuel { w with tcflush_ret := g } dev format).1 =
      (uart_recv_test fuel w dev format).1 ∧
    (uart_recv_test fuel { w with tcflush_ret := g } dev format).2.out =
      (uart_recv_test fuel w dev format).2.out ∧
    calls_but_flush (uart_recv_test fuel { w with tcflush_ret := g } dev format).2.trace =
      calls_but_flush (uart_recv_test fuel w dev format).2.trace := by
  cases dev with
  | none => exact ⟨rfl, rfl, rfl⟩
  | some d =>
    obtain ⟨p, q, hpq, hf⟩ := agree_flush w g (some d)
    obtain ⟨h1, h2⟩ := agree_recv_loop p q (some d) format fuel _ _
      (List.replicate 256 0) 0 0 hf
    have := agree_observe p q _ _ hpq h2
    simp only [uart_recv_test]
    exact ⟨h1.symm, this.1.symm, this.2.symm⟩

/-- C12, as stated, fails: on the echoing port with a failing flush
(`tcflush` returns -1) `uart_loopback_test` still writes, receives and returns
0, and `uart_send_test` and `uart_recv_test` still write, respectively wait and
read, and return 0. -/
theorem flush_failure_not_fatal :
    (uartdev_flush flush_fail_world (some sample_dev)).1 = -1 ∧
    (uart_loopback_test flush_fail_world (some sample_dev) [72, 105]
      output_format_t.OUTPUT_ASCII).1 = 0 ∧
    (uart_loopback_test flush_fail_world (some sample_dev) [72, 105]
      output_format_t.OUTPUT_ASCII).2.trace =
      [Event.tcflush 3 (-1), Event.write 3 [72, 105] 2,
        Event.poll 3 2000 { ret := 1, errno := 0, revents := 1 }, Event.read 3 1023 2] ∧
    (uart_send_test 3 flush_fail_world (some sample_dev) [72, 105] 100 1
      output_format_t.OUTPUT_ASCII).1 = some 0 ∧
    (uart_send_test 3 flush_fail_world (some sample_dev) [72, 105] 100 1
      output_format_t.OUTPUT_ASCII).2.trace =
      [Event.tcflush 3 (-1), Event.write 3 [72, 105] 2] ∧
    (uart_recv_test 3 flush_fail_world (some sample_dev)
      output_format_t.OUTPUT_ASCII).1 = some 0 ∧
    (uart_recv_test 3 flush_fail_world (some sample_dev)
      output_format_t.OUTPUT_ASCII).2.trace =
      [Event.tcflush 3 (-1),
        Event.poll 3 2000 { ret := 1, errno := 0, revents := 1 }, Event.read 3 255 2,
        Event.poll 3 2000 { ret := 1, errno := 0, revents := 1 }, Event.read 3 255 2] := by
  refine ⟨by decide, by decide, by decide, by decide, by decide, by decide, by decide⟩

/-- C12 (amended): the value `uartdev_flush` returns is dropped: whatever the
`tcflush` calls answer, `uart_loopback_test`, `uart_send_test` and
`uart_recv_test` return the same value, print the same lines and, the flush
itself apart, make the same calls; a failing flush is therefore followed by
the writes and receives of a run whose flush succeeded. -/
theorem flush_result_ignored (w : World) (g : Nat → Int) (dev : Option uartdev_t)
    (send_str : List Nat) (interval_ms count : Int) (format : output_format_t) (fuel : Nat) :
    ((uart_loopback_test { w with tcflush_ret := g } dev send_str format).1 =
        (uart_loopback_test w dev send_str format).1 ∧
      (uart_loopback_test { w with tcflush_ret := g } dev send_str format).2.out =
        (uart_loopback_test w dev send_str format).2.out ∧
      calls_but_flush
          (uart_loopback_test { w with tcflush_ret := g } dev send_str format).2.trace =
        calls_but_flush (uart_loopback_test w dev send_str format).2.trace) ∧
    ((uart_send_test fuel { w with tcflush_ret := g } dev send_str interval_ms count
          format).1 =
        (uart_send_test fuel w dev send_str interval_ms count format).1 ∧
      (uart_send_test fuel { w with tcflush_ret := g } dev send_str interval_ms count
          format).2.out =
        (uart_send_test fuel w dev send_str interval_ms count format).2.out ∧
      calls_but_flush (uart_send_test fuel { w with tcflush_ret := g } dev send_str
          interval_ms count format).2.trace =
        calls_but_flush
          (uart_send_test fuel w dev send_str interval_ms count format).2.trace) ∧
    ((uart_recv_test fuel { w with tcflush_ret := g } dev format).1 =
        (uart_recv_test fuel w dev format).1 ∧
      (uart_recv_test fuel { w with tcflush_ret := g } dev format).2.out =
        (uart_recv_test fuel w dev format).2.out ∧
      calls_but_flush (uart_recv_test fuel { w with tcflush_ret := g } dev format).2.trace =
        calls_but_flush (uart_recv_test fuel w dev format).2.trace) :=
  ⟨agree_loopback w g dev send_str format,
    agree_send_test w g dev send_str interval_ms count format fuel,
    agree_recv_test w g dev format fuel⟩

/-! ### Claims on `validate_json_config` -/

theorem validate_items_range (l : List send_item_t) :
    validate_items l = 0 ∨ validate_items l = -1 := by
  induction l with
  | nil => exact Or.inl rfl
  | cons item rest ih =>
    unfold validate_items
    split_ifs
    · exact Or.inr rfl
    · cases item.hex_data with
      | none => exact Or.inr rfl
      | some h =>
        simp only
        split_ifs
        · exact Or.inr rfl
        · exact Or.inr rfl
        · exact ih

theorem validate_items_zero_iff (l : List send_item_t) :
    validate_items l = 0 ↔ ∀ item ∈ l, item.valid := by
  induction l with
  | nil => simp [validate_items]
  | cons item rest ih =>
    unfold validate_items
    by_cases hd : item.delay < 1 ∨ item.delay > 1000
    · rw [if_pos hd]
      constructor
      · intro h; cases h
      · intro h
        have := (h item (by simp)).1
        have := (h item (by simp)).2.1
        omega
    · rw [if_neg hd]
      cases hh : item.hex_data with
      | none =>
        simp only
        constructor
        · intro h; cases h
        · intro h
          obtain ⟨_, _, x, hx, _⟩ := h item (by simp)
          rw [hh] at hx
          cases hx
      | some h =>
        simp only
        by_cases h0 : ((h.length : Nat) : Int) = 0
        · rw [if_pos h0]
          constructor
          · intro h; cases h
          · intro hv
            obtain ⟨_, _, x, hx, hx0, _⟩ := hv item (by simp)
            rw [hh] at hx
            cases hx
            omega
        · rw [if_neg h0]
          by_cases h2 : ((h.length : Nat) : Int) % 2 ≠ 0
          · rw [if_pos h2]
            constructor
            · intro h; cases h
            · intro hv
              obtain ⟨_, _, x, hx, _, hx2⟩ := hv item (by simp)
              rw [hh] at hx
              cases hx
              omega
          · rw [if_neg h2, ih]
            constructor
            · intro hr x hx
              rcases List.mem_cons.mp hx with rfl | hx
              · exact ⟨by omega, by omega, h, hh, by omega, by omega⟩
              · exact hr x hx
            · intro hv x hx
              exact hv x (List.mem_cons_of_mem _ hx)

/-- The body of `validate_json_config` on a well-formed script. -/
theorem validate_json_config_wf (c : json_config_t) (hwf : c.well_formed) :
    validate_json_config (some c) =
      (if c.cycle_count < 1 then -1
        else if c.items = [] then -1
        else validate_items c.items, some c) := by
  unfold json_config_t.well_formed json_config_t.items at hwf
  unfold validate_json_config json_config_t.items
  cases hl : c.send_list with
  | none =>
    simp only [hl, Option.getD_none, if_true]
    split_ifs <;> rfl
  | some l =>
    rw [hl] at hwf
    simp only [Option.getD_some] at hwf
    simp only [hl, Option.getD_some]
    by_cases hc : c.cycle_count < 1
    · simp only [hc, if_true]
    · simp only [hc, if_false]
      by_cases hl0 : l = []
      · have : c.send_list_count = 0 := by rw [hwf, hl0]; rfl
        simp only [this, hl0, if_true]
      · have hpos : 0 < l.length := List.length_pos.mpr hl0
        have hne : ¬ c.send_list_count = 0 := by omega
        have htake : l.take c.send_list_count.toNat = l := by
          apply List.take_of_length_le
          omega
        simp only [hne, hl0, if_false, htake]

/-- C14: on a well-formed script `validate_json_config` returns 0 if and only
if `cycle_count >= 1`, the send list is non-empty and every item, enabled or
not, has `1 <= delay <= 1000` and a non-null `hex_data` of non-zero even
length; otherwise it returns -1; either way the script is left as it was. -/
theorem validate_json_config_accepts_iff (c : json_config_t) (hwf : c.well_formed) :
    ((validate_json_config (some c)).1 = 0 ↔
      1 ≤ c.cycle_count ∧ c.items ≠ [] ∧ ∀ item ∈ c.items, item.valid) ∧
    ((validate_json_config (some c)).1 = 0 ∨ (validate_json_config (some c)).1 = -1) ∧
    (validate_json_config (some c)).2 = some c := by
  rw [validate_json_config_wf c hwf]
  refine ⟨?_, ?_, rfl⟩
  · simp only
    by_cases hc : c.cycle_count < 1
    · rw [if_pos hc]
      constructor
      · intro h; cases h
      · intro h; omega
    · rw [if_neg hc]
      by_cases hl : c.items = []
      · rw [if_pos hl]
        constructor
        · intro h; cases h
        · intro h; exact absurd hl h.2.1
      · rw [if_neg hl, validate_items_zero_iff]
        constructor
        · intro h; exact ⟨by omega, hl, h⟩
        · intro h; exact h.2.2
  · simp only
    split_ifs
    · exact Or.inr rfl
    · exact Or.inr rfl
    · exact validate_items_range c.items

/-- Witness of C14 on the sample script of three items. -/
theorem validate_json_config_accepts_iff_witness :
    sample_script.well_formed ∧
    ((validate_json_config (some sample_script)).1 = 0 ↔
      1 ≤ sample_script.cycle_count ∧ sample_script.items ≠ [] ∧
        ∀ item ∈ sample_script.items, item.valid) :=
  ⟨by decide, (validate_json_config_accepts_iff sample_script (by decide)).1⟩

/-- C15, as stated, fails: the script whose only item has the text "zz" is
well formed and accepted by `validate_json_config`, yet `parse_hex_string`
rejects that text although the capacity is half its length. -/
theorem validated_script_not_decodable :
    odd_script.well_formed ∧
    (validate_json_config (some odd_script)).1 = 0 ∧
    odd_script.items = [⟨1, some [122, 122], 10, 1⟩] ∧
    ((([122, 122] : List Nat).length / 2 : Nat) : Int) ≤ 1 ∧
    (parse_hex_string [122, 122] [0] 1).1 = -1 := by
  refine ⟨by decide, by decide, rfl, by decide, by decide⟩

/-- C15 (amended): for every well-formed script accepted by
`validate_json_config`, each item's `hex_data` is a non-empty string of even
length; validation does not look at its characters, and `parse_hex_string`
succeeds on it, given a capacity of at least half its length, if and only if
all of them are hexadecimal digits (it returns -1 otherwise). -/
theorem validated_script_decodable_iff (c : json_config_t) (hwf : c.well_formed)
    (hok : (validate_json_config (some c)).1 = 0) :
    ∀ item ∈ c.items, ∃ h, item.hex_data = some h ∧ h ≠ [] ∧ h.length % 2 = 0 ∧
      ∀ (buf : List Nat) (buf_len : Int), ((h.length / 2 : Nat) : Int) ≤ buf_len →
        buf_len ≤ (buf.length : Int) →
        ((parse_hex_string h buf buf_len).1 = ((h.length / 2 : Nat) : Int) ↔
          ∀ ch ∈ h, is_hex_digit ch) ∧
        ((parse_hex_string h buf buf_len).1 = ((h.length / 2 : Nat) : Int) ∨
          (parse_hex_string h buf buf_len).1 = -1) := by
  rw [validate_json_config_wf c hwf] at hok
  simp only at hok
  have hitems : ∀ item ∈ c.items, item.valid := by
    by_cases hc : c.cycle_count < 1
    · rw [if_pos hc] at hok; cases hok
    · rw [if_neg hc] at hok
      by_cases hl : c.items = []
      · rw [if_pos hl] at hok; cases hok
      · rw [if_neg hl] at hok
        exact (validate_items_zero_iff c.items).mp hok
  intro item hitem
  obtain ⟨_, _, h, hh, h0, h2⟩ := hitems item hitem
  have hne : h ≠ [] := by
    intro e
    rw [e] at h0
    exact h0 rfl
  refine ⟨h, hh, hne, h2, ?_⟩
  intro buf buf_len hcap hbuf
  have hlen : h.length = 2 * (h.length / 2) := by omega
  by_cases hall : ∀ ch ∈ h, is_hex_digit ch
  · have hk := parse_hex_string_ok (h.length / 2) h buf buf_len hne hlen hall hcap hbuf
    rw [hk]
    exact ⟨⟨fun _ => hall, fun _ => rfl⟩, Or.inl rfl⟩
  · have hbad : ∃ ch ∈ h, ¬ is_hex_digit ch := by
      by_contra hcon
      apply hall
      intro ch hch
      by_contra hx
      exact hcon ⟨ch, hch, hx⟩
    have hpos : 0 < h.length := List.length_pos.mpr hne
    have hfail : (parse_hex_string h buf buf_len).1 = -1 := by
      have h1 : ¬ buf_len ≤ 0 := by omega
      have h2' : ¬ (((h.length : Nat) : Int) = 0 ∨ ((h.length : Nat) : Int) % 2 ≠ 0) := by
        omega
      have h3 : ¬ (((h.length : Nat) : Int) / 2 > buf_len) := by omega
      simp only [parse_hex_string, h1, h2', h3, if_false]
      exact parse_hex_loop_invalid (h.length / 2) h 0 buf hlen hbad
    rw [hfail]
    refine ⟨⟨fun hneg => ?_, fun hx => absurd hx hall⟩, Or.inr rfl⟩
    omega

/-- Witness of C15 (amended) on the sample script. -/
theorem validated_script_decodable_iff_witness :
    sample_script.well_formed ∧ (validate_json_config (some sample_script)).1 = 0 ∧
    ∀ item ∈ sample_script.items, ∃ h, item.hex_data = some h ∧ h ≠ [] ∧
      h.length % 2 = 0 ∧
      ∀ (buf : List Nat) (buf_len : Int), ((h.length / 2 : Nat) : Int) ≤ buf_len →
        buf_len ≤ (buf.length : Int) →
        ((parse_hex_string h buf buf_len).1 = ((h.length / 2 : Nat) : Int) ↔
          ∀ ch ∈ h, is_hex_digit ch) ∧
        ((parse_hex_string h buf buf_len).1 = ((h.length / 2 : Nat) : Int) ∨
          (parse_hex_string h buf buf_len).1 = -1) :=
  ⟨by decide, by decide,
    validated_script_decodable_iff sample_script (by decide) (by decide)⟩

/-! ### Claims on `print_ascii` and `print_hex` -/

theorem print_ascii_char_eq (signed_char : Bool) (b : Nat) (hb : b < 256) :
    print_ascii_char signed_char b = render_ascii_byte b := by
  unfold print_ascii_char render_ascii_byte char_value fmt_02X
  cases signed_char
  · simp only [Bool.false_eq_true, false_and, if_false]
    split_ifs <;> first | rfl | omega
  · simp only [true_and]
    by_cases h128 : 128 ≤ b
    · simp only [h128, if_true]
      split_ifs <;> first | rfl | omega
    · simp only [h128, if_false]
      split_ifs <;> first | rfl | omega

theorem render_ascii_byte_length (b : Nat) :
    (render_ascii_byte b).length = render_ascii_width b := by
  unfold render_ascii_byte render_ascii_width
  split_ifs <;> first | rfl | omega

/-- C16: for every byte sequence, whether `char` is signed or not,
`print_ascii` writes, byte by byte and in order, what the specification says:
the byte itself in 0x20-0x7E, the two-character escapes for 0x0A, 0x0D, 0x09
and 0x00, and backslash, `x` and two upper-case zero-padded hex digits for
every other byte (0x7F and `>= 0x80` included); a byte so gives 1, 2 or 4
characters. -/
theorem print_ascii_renders (signed_char : Bool) (bytes : List Nat)
    (hbytes : ∀ b ∈ bytes, b < 256) :
    print_ascii signed_char bytes (bytes.length : Int) = bytes.flatMap render_ascii_byte ∧
    (∀ b ∈ bytes, (print_ascii_char signed_char b).length = render_ascii_width b) ∧
    (print_ascii signed_char bytes (bytes.length : Int)).length =
      (bytes.map render_ascii_width).sum := by
  have hcell : ∀ b ∈ bytes, print_ascii_char signed_char b = render_ascii_byte b :=
    fun b hb => print_ascii_char_eq signed_char b (hbytes b hb)
  have hmain : print_ascii signed_char bytes (bytes.length : Int) =
      bytes.flatMap render_ascii_byte := by
    unfold print_ascii
    rw [Int.toNat_ofNat, List.take_length]
    simp only [List.flatMap_def]
    congr 1
    exact List.map_congr_left hcell
  refine ⟨hmain, ?_, ?_⟩
  · intro b hb
    rw [hcell b hb, render_ascii_byte_length]
  · rw [hmain]
    simp only [List.flatMap_def, List.length_flatten, List.map_map]
    congr 1
    apply List.map_congr_left
    intro b _
    exact render_ascii_byte_length b

/-- Witness of C16 on the bytes 'A', newline, 0x7F, 0xFF and NUL, with a signed
`char`: the output is `A\n\x7F\xFF\0`. -/
theorem print_ascii_renders_witness :
    print_ascii true [65, 10, 127, 255, 0] (([65, 10, 127, 255, 0] : List Nat).length : Int) =
      [65, 10, 127, 255, 0].flatMap render_ascii_byte ∧
    (∀ b ∈ [65, 10, 127, 255, 0],
      (print_ascii_char true b).length = render_ascii_width b) ∧
    (print_ascii true [65, 10, 127, 255, 0]
        (([65, 10, 127, 255, 0] : List Nat).length : Int)).length =
      (([65, 10, 127, 255, 0] : List Nat).map render_ascii_width).sum :=
  print_ascii_renders true [65, 10, 127, 255, 0] (by decide)

theorem print_hex_loop_short : ∀ (l : List Nat) (i : Nat), i % 16 + l.length < 16 →
    print_hex_loop l i = hex_groups l := by
  intro l
  induction l with
  | nil => intro i _; rfl
  | cons b rest ih =>
    intro i h
    simp only [List.length_cons] at h
    have h1 : ¬ (i + 1) % 16 = 0 := by omega
    have h2 : (i + 1) % 16 + rest.length < 16 := by omega
    simp only [print_hex_loop, h1, if_false, ih (i + 1) h2, hex_groups, List.flatMap_cons,
      List.append_nil]

theorem print_hex_loop_row : ∀ (l : List Nat) (i : Nat), l ≠ [] → i % 16 + l.length = 16 →
    print_hex_loop l i = hex_line l := by
  intro l
  induction l with
  | nil => intro i h _; exact absurd rfl h
  | cons b rest ih =>
    intro i _ h
    simp only [List.length_cons] at h
    by_cases hr : rest = []
    · subst hr
      simp only [List.length_nil] at h
      have h1 : (i + 1) % 16 = 0 := by omega
      simp only [print_hex_loop, h1, if_true, hex_line, hex_groups, List.flatMap_cons,
        List.flatMap_nil, List.append_nil]
    · have hpos : 0 < rest.length := List.length_pos.mpr hr
      have h1 : ¬ (i + 1) % 16 = 0 := by omega
      have h2 : (i + 1) % 16 + rest.length = 16 := by omega
      simp only [print_hex_loop, h1, if_false, ih (i + 1) hr h2, hex_line, hex_groups,
        List.flatMap_cons, List.append_nil, List.append_assoc]

theorem print_hex_loop_append : ∀ (a b : List Nat) (i : Nat),
    print_hex_loop (a ++ b) i = print_hex_loop a i ++ print_hex_loop b (i + a.length) := by
  intro a
  induction a with
  | nil => intro b i; simp [print_hex_loop]
  | cons x rest ih =>
    intro b i
    have e : i + 1 + rest.length = i + (rest.length + 1) := by omega
    show print_hex_loop (x :: (rest ++ b)) i = _
    rw [print_hex_loop, print_hex_loop, ih b (i + 1), List.length_cons, e]
    simp only [List.append_assoc]

/-- The output of the loop of `print_hex` and of the closing test, row by
row. -/
theorem print_hex_loop_rows : ∀ (k : Nat) (l : List Nat) (i : Nat), i % 16 = 0 →
    16 * k ≤ l.length → l.length < 16 * (k + 1) →
    print_hex_loop l i ++ (if (l.length : Int) % 16 ≠ 0 then [10] else []) =
      ((hex_rows ((l.length + 15) / 16) l).map hex_line).flatten := by
  intro k
  induction k with
  | zero =>
    intro l i hi _ hlt
    by_cases hl : l = []
    · subst hl
      simp [print_hex_loop, hex_rows]
    · have hpos : 0 < l.length := List.length_pos.mpr hl
      have hrows : (l.length + 15) / 16 = 1 := by omega
      have hmod : (l.length : Int) % 16 ≠ 0 := by omega
      have htake : l.take 16 = l := List.take_of_length_le (by omega)
      rw [hrows, if_pos hmod, print_hex_loop_short l i (by omega)]
      simp [hex_rows, htake, hex_line]
  | succ k ih =>
    intro l i hi hge hlt
    have hsplit : l = l.take 16 ++ l.drop 16 := (List.take_append_drop 16 l).symm
    have htl : (l.take 16).length = 16 := by
      rw [List.length_take]
      omega
    have hdl : (l.drop 16).length = l.length - 16 := List.length_drop 16 l
    have hne : l.take 16 ≠ [] := by
      intro e
      rw [e] at htl
      cases htl
    have hrows : (l.length + 15) / 16 = ((l.drop 16).length + 15) / 16 + 1 := by omega
    have hmod : ((l.length : Int) % 16 ≠ 0) = ((((l.drop 16).length : Nat) : Int) % 16 ≠ 0) := by
      apply propext
      constructor <;> intro h <;> omega
    have hloop : print_hex_loop l i =
        hex_line (l.take 16) ++ print_hex_loop (l.drop 16) (i + 16) := by
      conv_lhs => rw [hsplit]
      rw [print_hex_loop_append, print_hex_loop_row (l.take 16) i hne (by omega), htl]
    rw [hloop, hrows, List.append_assoc]
    simp only [hmod]
    rw [ih (l.drop 16) (i + 16) (by omega) (by omega) (by omega)]
    simp [hex_rows]

theorem hex_rows_length : ∀ (k : Nat) (l : List Nat), (hex_rows k l).length = k := by
  intro k
  induction k with
  | zero => intro l; rfl
  | succ k ih => intro l; simp [hex_rows, ih]

theorem hex_rows_getElem? : ∀ (k : Nat) (l : List Nat) (j : Nat), j < k →
    (hex_rows k l)[j]? = some ((l.drop (16 * j)).take 16) := by
  intro k
  induction k with
  | zero => intro l j h; omega
  | succ k ih =>
    intro l j h
    cases j with
    | zero => simp [hex_rows]
    | succ j =>
      simp only [hex_rows, List.getElem?_cons_succ]
      rw [ih (l.drop 16) j (by omega), List.drop_drop]
      congr 3
      omega

theorem hex_rows_flatten : ∀ (k : Nat) (l : List Nat), l.length ≤ 16 * k →
    (hex_rows k l).flatten = l := by
  intro k
  induction k with
  | zero =>
    intro l h
    have : l = [] := List.length_eq_zero.mp (by omega)
    subst this
    rfl
  | succ k ih =>
    intro l h
    simp only [hex_rows, List.flatten_cons]
    rw [ih (l.drop 16) (by rw [List.length_drop]; omega)]
    exact List.take_append_drop 16 l

theorem fmt_02X_upper (b : Nat) (hb : b < 256) :
    (fmt_02X b).length = 2 ∧ ∀ c ∈ fmt_02X b, is_upper_hex_digit c := by
  refine ⟨rfl, ?_⟩
  intro c hc
  simp only [fmt_02X, List.mem_cons, List.mem_singleton, List.not_mem_nil, or_false] at hc
  unfold is_upper_hex_digit
  rcases hc with rfl | rfl <;> unfold upper_hex_digit <;> split_ifs <;> omega

theorem hex_line_count_newline (row : List Nat) : (hex_line row).count 10 = 1 := by
  have hno : (10 : Nat) ∉ hex_groups row := by
    unfold hex_groups
    intro h
    obtain ⟨b, _, hb⟩ := List.mem_flatMap.mp h
    simp only [fmt_02X, List.cons_append, List.nil_append, List.mem_cons, List.mem_singleton,
      List.not_mem_nil, or_false] at hb
    rcases hb with hb | hb | hb
    · unfold upper_hex_digit at hb
      split_ifs at hb <;> omega
    · unfold upper_hex_digit at hb
      split_ifs at hb <;> omega
    · omega
  unfold hex_line
  rw [List.count_append, List.count_eq_zero_of_not_mem hno]
  rfl

theorem hex_lines_count_newline (rows : List (List Nat)) :
    ((rows.map hex_line).flatten).count 10 = rows.length := by
  induction rows with
  | nil => rfl
  | cons r rest ih =>
    simp only [List.map_cons, List.flatten_cons, List.count_append, ih,
      hex_line_count_newline, List.length_cons]
    omega

/-- C17: for every byte sequence of length `n` the output of `print_hex` is
that of `ceil(n/16)` lines (none when `n = 0`), each the groups of its row and
the newline that ends it, and holds no other newline; row `j` is the bytes
`16 j` to `16 j + 15` of the input, so every row but the last holds 16 groups
and the last holds the `n - 16 * (ceil(n/16) - 1)` that remain; the rows read
in order are the input; each group is two upper-case hex digits and a
space. -/
theorem print_hex_lines (bytes : List Nat) (hbytes : ∀ b ∈ bytes, b < 256) :
    print_hex bytes (bytes.length : Int) =
      ((hex_rows ((bytes.length + 15) / 16) bytes).map hex_line).flatten ∧
    (hex_rows ((bytes.length + 15) / 16) bytes).length = (bytes.length + 15) / 16 ∧
    (print_hex bytes (bytes.length : Int)).count 10 = (bytes.length + 15) / 16 ∧
    (∀ j, j < (bytes.length + 15) / 16 →
      (hex_rows ((bytes.length + 15) / 16) bytes)[j]? =
        some ((bytes.drop (16 * j)).take 16) ∧
      ((bytes.drop (16 * j)).take 16).length =
        if j + 1 < (bytes.length + 15) / 16 then 16
        else bytes.length - 16 * ((bytes.length + 15) / 16 - 1)) ∧
    (hex_rows ((bytes.length + 15) / 16) bytes).flatten = bytes ∧
    (∀ b ∈ bytes, (fmt_02X b).length = 2 ∧ ∀ c ∈ fmt_02X b, is_upper_hex_digit c) := by
  have hmain : print_hex bytes (bytes.length : Int) =
      ((hex_rows ((bytes.length + 15) / 16) bytes).map hex_line).flatten := by
    unfold print_hex
    rw [Int.toNat_ofNat, List.take_length]
    exact print_hex_loop_rows (bytes.length / 16) bytes 0 rfl (by omega) (by omega)
  refine ⟨hmain, hex_rows_length _ _, ?_, ?_, ?_, ?_⟩
  · rw [hmain, hex_lines_count_newline, hex_rows_length]
  · intro j hj
    refine ⟨hex_rows_getElem? _ bytes j hj, ?_⟩
    rw [List.length_take, List.length_drop]
    split_ifs <;> omega
  · exact hex_rows_flatten _ bytes (by omega)
  · intro b hb
    exact fmt_02X_upper b (hbytes b hb)

/-- Witness of C17 on 17 bytes: two lines, of 16 groups and of 1 group. -/
theorem print_hex_lines_witness :
    (hex_rows (((List.range 17).length + 15) / 16) (List.range 17)).length =
      ((List.range 17).length + 15) / 16 ∧
    (print_hex (List.range 17) ((List.range 17).length : Int)).count 10 =
      ((List.range 17).length + 15) / 16 ∧
    (hex_rows (((List.range 17).length + 15) / 16) (List.range 17)).flatten = List.range 17 :=
  ⟨(print_hex_lines (List.range 17) (by decide)).2.1,
    (print_hex_lines (List.range 17) (by decide)).2.2.1,
    (print_hex_lines (List.range 17) (by decide)).2.2.2.2.1⟩

/-! ### Claims on `uartdev_new` and `parse_uart_config` -/

/-- C18: when both allocations succeed, `uartdev_new` returns a handle if and
only if the port name is non-empty, `_get_baud` supports the baud rate,
`data_bit` is 5 to 8, `stop_bit` is 1 or 2 and the parity is one of `N`, `E`,
`O`, `n`, `e`, `o`; otherwise it returns `NULL` with `errno` `EINVAL`; no call
is made on the device either way; a handle returned has `fd = -1` and holds the
given port name, baud rate, data bits, parity and stop bits. -/
theorem uartdev_new_accepts_iff (w : World) (port : Option (List Nat)) (baud data_bit : Int)
    (parity : Nat) (stop_bit : Int) :
    ((∃ dev, (uartdev_new true true w port baud data_bit parity stop_bit).1 = Except.ok dev) ↔
      framing_valid port baud data_bit parity stop_bit) ∧
    (¬ framing_valid port baud data_bit parity stop_bit →
      (uartdev_new true true w port baud data_bit parity stop_bit).1 = Except.error EINVAL) ∧
    (uartdev_new true true w port baud data_bit parity stop_bit).2 = w ∧
    (∀ dev, (uartdev_new true true w port baud data_bit parity stop_bit).1 = Except.ok dev →
      dev.fd = -1 ∧ port = some dev.port ∧ dev.baud = baud ∧ (dev.data_bit : Int) = data_bit ∧
      dev.parity = parity ∧ (dev.stop_bit : Int) = stop_bit) := by
  unfold framing_valid
  cases port with
  | none =>
    simp [uartdev_new]
  | some p =>
    simp only [uartdev_new]
    by_cases hp : p = []
    · simp [hp]
    · by_cases hb : _get_baud baud < 0
      · have hb2 : ¬ 0 ≤ _get_baud baud := by omega
        simp [hp, hb, hb2]
      · have hb2 : 0 ≤ _get_baud baud := by omega
        by_cases hd : data_bit = 5 ∨ data_bit = 6 ∨ data_bit = 7 ∨ data_bit = 8
        · by_cases hs : stop_bit = 1 ∨ stop_bit = 2
          · by_cases hpar : parity = 78 ∨ parity = 69 ∨ parity = 79 ∨
                parity = 110 ∨ parity = 101 ∨ parity = 111
            · simp only [hp, hb, hd, hs, hpar, if_false, not_true_eq_false,
                Bool.true_eq_false]
              refine ⟨⟨fun _ => ⟨⟨p, rfl, hp⟩, hb2, trivial, trivial, trivial⟩,
                fun _ => ⟨_, rfl⟩⟩, ?_, trivial, ?_⟩
              · intro h
                exact absurd ⟨⟨p, rfl, hp⟩, hb2, trivial, trivial, trivial⟩ h
              · intro dev hdev
                cases hdev
                refine ⟨rfl, rfl, rfl, ?_, rfl, ?_⟩
                · show ((data_bit.toNat : Nat) : Int) = data_bit
                  omega
                · show ((stop_bit.toNat : Nat) : Int) = stop_bit
                  omega
            · simp [hp, hb, hd, hs, hpar]
          · simp [hp, hb, hd, hs]
        · simp [hp, hb, hd]

theorem toupper_parity (p : Nat)
    (hp : p = 78 ∨ p = 69 ∨ p = 79 ∨ p = 110 ∨ p = 101 ∨ p = 111) :
    toupper p = 78 ∨ toupper p = 69 ∨ toupper p = 79 := by
  rcases hp with rfl | rfl | rfl | rfl | rfl | rfl <;> decide

/-- The two ways `parse_uart_config` ends: with -1 and the outputs untouched,
or with 0 and outputs that passed its three range checks. -/
theorem parse_uart_config_cases (signed_char : Bool) (str : List Nat) (data_bit : Int)
    (parity : Nat) (stop_bit : Int) :
    parse_uart_config signed_char str data_bit parity stop_bit =
      (-1, data_bit, parity, stop_bit) ∨
    ∃ (d : Int) (p : Nat) (s : Int),
      parse_uart_config signed_char str data_bit parity stop_bit = (0, d, p, s) ∧
      (5 ≤ d ∧ d ≤ 8) ∧ (p = 78 ∨ p = 69 ∨ p = 79) ∧ (s = 1 ∨ s = 2) := by
  unfold parse_uart_config
  simp only
  by_cases h1 : ((str.length : Nat) : Int) < 3 ∨ ((str.length : Nat) : Int) > 4
  · rw [if_pos h1]
    exact Or.inl rfl
  · rw [if_neg h1]
    by_cases h2 : char_value signed_char (str.getD 0 0) - 48 < 5 ∨
        char_value signed_char (str.getD 0 0) - 48 > 8
    · rw [if_pos h2]
      exact Or.inl rfl
    · rw [if_neg h2]
      by_cases h3 : toupper (str.getD 1 0) ≠ 78 ∧ toupper (str.getD 1 0) ≠ 69 ∧
          toupper (str.getD 1 0) ≠ 79
      · rw [if_pos h3]
        exact Or.inl rfl
      · rw [if_neg h3]
        split_ifs with h4 h5 h6
        · exact Or.inl rfl
        · exact Or.inr ⟨_, _, _, rfl, by omega, by omega, by omega⟩
        · exact Or.inl rfl
        · exact Or.inr ⟨_, _, _, rfl, by omega, by omega, by omega⟩

/-- C19: whichever the signedness of `char`: whenever `parse_uart_config`
returns 0 its outputs are a data-bit count of 5 to 8, a parity among `N`, `E`,
`O` in upper case and a stop-bit count of 1 or 2; on every three-character
string made of a digit `5`-`8`, a letter among `N`, `E`, `O`, `n`, `e`, `o` and
a digit `1`-`2` it returns 0 with that digit, the letter in upper case and
that digit; it returns 0 or -1, and whenever it returns -1 the three outputs
are as before the call. -/
theorem parse_uart_config_outputs (signed_char : Bool) (data_bit : Int) (parity : Nat)
    (stop_bit : Int) :
    (∀ str, (parse_uart_config signed_char str data_bit parity stop_bit).1 = 0 →
      (5 ≤ (parse_uart_config signed_char str data_bit parity stop_bit).2.1 ∧
        (parse_uart_config signed_char str data_bit parity stop_bit).2.1 ≤ 8) ∧
      ((parse_uart_config signed_char str data_bit parity stop_bit).2.2.1 = 78 ∨
        (parse_uart_config signed_char str data_bit parity stop_bit).2.2.1 = 69 ∨
        (parse_uart_config signed_char str data_bit parity stop_bit).2.2.1 = 79) ∧
      ((parse_uart_config signed_char str data_bit parity stop_bit).2.2.2 = 1 ∨
        (parse_uart_config signed_char str data_bit parity stop_bit).2.2.2 = 2)) ∧
    (∀ d p s : Nat, 53 ≤ d ∧ d ≤ 56 →
      (p = 78 ∨ p = 69 ∨ p = 79 ∨ p = 110 ∨ p = 101 ∨ p = 111) → (s = 49 ∨ s = 50) →
      parse_uart_config signed_char [d, p, s] data_bit parity stop_bit =
        (0, (d : Int) - 48, toupper p, (s : Int) - 48)) ∧
    (∀ str, (parse_uart_config signed_char str data_bit parity stop_bit).1 = 0 ∨
      (parse_uart_config signed_char str data_bit parity stop_bit).1 = -1) ∧
    (∀ str, (parse_uart_config signed_char str data_bit parity stop_bit).1 = -1 →
      (parse_uart_config signed_char str data_bit parity stop_bit).2 =
        (data_bit, parity, stop_bit)) := by
  refine ⟨?_, ?_, ?_, ?_⟩
  · intro str h
    rcases parse_uart_config_cases signed_char str data_bit parity stop_bit with hc | hc
    · rw [hc] at h
      simp only at h
      omega
    · obtain ⟨d, p, s, he, hd, hp, hs⟩ := hc
      rw [he]
      exact ⟨hd, hp, hs⟩
  · intro d p s hd hp hs
    have hcd : char_value signed_char d = (d : Int) := by
      unfold char_value
      have : ¬ (signed_char = true ∧ 128 ≤ d) := by omega
      rw [if_neg this]
    have hcs : char_value signed_char s = (s : Int) := by
      unfold char_value
      have : ¬ (signed_char = true ∧ 128 ≤ s) := by omega
      rw [if_neg this]
    have hup := toupper_parity p hp
    have h1 : ¬ ((([d, p, s] : List Nat).length : Int) < 3 ∨
        (([d, p, s] : List Nat).length : Int) > 4) := by
      simp
    have h2 : ¬ ((d : Int) - 48 < 5 ∨ (d : Int) - 48 > 8) := by omega
    have h3 : ¬ (toupper p ≠ 78 ∧ toupper p ≠ 69 ∧ toupper p ≠ 79) := by omega
    have h4 : ¬ ((s : Int) - 48 ≠ 1 ∧ (s : Int) - 48 ≠ 2) := by omega
    have h5 : (([d, p, s] : List Nat).length : Int) = 3 := by simp
    unfold parse_uart_config
    simp only
    rw [if_neg h1, List.getD_cons_zero, hcd, if_neg h2, List.getD_cons_succ,
      List.getD_cons_zero, if_neg h3, if_pos h5, List.getD_cons_succ, List.getD_cons_succ,
      List.getD_cons_zero, hcs, if_neg h4]
  · intro str
    rcases parse_uart_config_cases signed_char str data_bit parity stop_bit with hc | hc
    · rw [hc]
      exact Or.inr rfl
    · obtain ⟨d, p, s, he, _⟩ := hc
      rw [he]
      exact Or.inl rfl
  · intro str h
    rcases parse_uart_config_cases signed_char str data_bit parity stop_bit with hc | hc
    · rw [hc]
    · obtain ⟨d, p, s, he, _⟩ := hc
      rw [he] at h
      simp only at h
      omega

/-- Witness of C19 on "7e2", with outputs that held 8, `N` and 1 before. -/
theorem parse_uart_config_outputs_witness :
    parse_uart_config true [55, 101, 50] 8 78 1 = (0, ((55 : Nat) : Int) - 48, toupper 101,
      ((50 : Nat) : Int) - 48) :=
  (parse_uart_config_outputs true 8 78 1).2.1 55 101 50 (by decide) (by decide) (by decide)

/-! ### Claims on the scripted-file protocol -/

theorem file_send_item_disabled (w : World) (dev : Option uartdev_t) (item : send_item_t)
    (h : item.enabled = false) : file_send_item w dev item = (0, w) := by
  unfold file_send_item
  rw [if_pos h]

/-- The step for an enabled, sendable item on an open port: one write of the
payload; it succeeds exactly when the write reports the payload length. -/
theorem file_send_item_enabled (w : World) (d : uartdev_t) (item : send_item_t)
    (hfd : 0 ≤ d.fd) (hen : item.enabled = true) (hs : item.sendable) :
    file_send_item w (some d) item =
      if w.write_ret 0 ≠ ((item.text.length / 2 : Nat) : Int) then
        (-1, (w.write d.fd item.payload).2)
      else (0, (w.write d.fd item.payload).2.usleep (item.delay * 1000)) := by
  obtain ⟨h, hh, hne, heven, hhex⟩ := hs.2 hen
  have hlen : h.length = 2 * (h.length / 2) := by omega
  have hpl := hex_pairs_length (h.length / 2) h hlen
  have hparse := parse_hex_string_ok (h.length / 2) h (List.replicate (h.length / 2) 0)
    ((h.length / 2 : Nat) : Int) hne hlen hhex (le_refl _) (by rw [List.length_replicate])
  have htext : item.text = h := by
    unfold send_item_t.text
    rw [hh]
    rfl
  have hpay : item.payload = hex_pairs h := by
    unfold send_item_t.payload
    rw [htext]
  have hne' : ¬ item.enabled = false := by rw [hen]; decide
  have hnn : ¬ (((h.length / 2 : Nat) : Int) < 0) := by omega
  have htake : (hex_pairs h ++ List.drop (h.length / 2) (List.replicate (h.length / 2) 0)).take
      (((h.length / 2 : Nat) : Int)).toNat = hex_pairs h := by
    rw [Int.toNat_ofNat]
    exact List.take_left' hpl
  unfold file_send_item
  rw [if_neg hne', hh]
  simp only
  rw [hparse]
  simp only
  rw [if_neg hnn, uartdev_send_open w d _ _ hfd (by omega), htake, htext, hpay]
  rfl

theorem file_send_items_range (dev : Option uartdev_t) :
    ∀ (l : List send_item_t) (w : World),
      (file_send_items dev l w).1 = 0 ∨ (file_send_items dev l w).1 = -1 := by
  intro l
  induction l with
  | nil => intro w; exact Or.inl rfl
  | cons item rest ih =>
    intro w
    unfold file_send_items
    split_ifs
    · exact Or.inr rfl
    · exact ih _

theorem file_send_items_append (dev : Option uartdev_t) :
    ∀ (a b : List send_item_t) (w : World),
      file_send_items dev (a ++ b) w =
        if (file_send_items dev a w).1 < 0 then (-1, (file_send_items dev a w).2)
        else file_send_items dev b (file_send_items dev a w).2 := by
  intro a
  induction a with
  | nil =>
    intro b w
    have h : ¬ ((file_send_items dev [] w).1 < 0) := by
      show ¬ ((0 : Int) < 0)
      decide
    rw [if_neg h]
    rfl
  | cons item rest ih =>
    intro b w
    show file_send_items dev (item :: (rest ++ b)) w = _
    rw [file_send_items]
    by_cases h1 : (file_send_item w dev item).1 < 0
    · have e : file_send_items dev (item :: rest) w = (-1, (file_send_item w dev item).2) := by
        rw [file_send_items, if_pos h1]
      rw [if_pos h1, e]
      have h2 : ((-1 : Int), (file_send_item w dev item).2).1 < 0 := by
        show (-1 : Int) < 0
        decide
      rw [if_pos h2]
    · have e : file_send_items dev (item :: rest) w =
          file_send_items dev rest (file_send_item w dev item).2 := by
        rw [file_send_items, if_neg h1]
      rw [if_neg h1, e, ih]

theorem file_cycles_flat (dev : Option uartdev_t) (items : List send_item_t) :
    ∀ (k : Nat) (w : World),
      file_cycles dev items k w =
        file_send_items dev (List.replicate k items).flatten w := by
  intro k
  induction k with
  | zero => intro w; rfl
  | succ k ih =>
    intro w
    rw [file_cycles, List.replicate_succ, List.flatten_cons, file_send_items_append, ih]

theorem filter_flatten_replicate (p : send_item_t → Bool) (items : List send_item_t) :
    ∀ k : Nat, ((List.replicate k items).flatten).filter p =
      (List.replicate k (items.filter p)).flatten := by
  intro k
  induction k with
  | zero => rfl
  | succ k ih =>
    rw [List.replicate_succ, List.flatten_cons, List.filter_append, ih, List.replicate_succ,
      List.flatten_cons]

/-- A pass over sendable items on an open port in which every write reports the
length of its payload: the pass succeeds, and its calls are those of the
enabled items, in order. -/
theorem file_send_items_ok (d : uartdev_t) (hfd : 0 ≤ d.fd) :
    ∀ (l : List send_item_t) (w : World), (∀ it ∈ l, it.sendable) →
      (∀ j it, (l.filter send_item_t.enabled)[j]? = some it →
        w.write_ret j = ((it.text.length / 2 : Nat) : Int)) →
      (file_send_items (some d) l w).1 = 0 ∧
      (file_send_items (some d) l w).2.trace =
        w.trace ++ (l.filter send_item_t.enabled).flatMap (item_events d.fd) ∧
      (file_send_items (some d) l w).2.out = w.out := by
  intro l
  induction l with
  | nil =>
    intro w _ _
    exact ⟨rfl, by simp [file_send_items], rfl⟩
  | cons item rest ih =>
    intro w hs hwr
    have hsr : ∀ it ∈ rest, it.sendable := fun it hit => hs it (List.mem_cons_of_mem _ hit)
    rw [file_send_items]
    by_cases hen : item.enabled = true
    · have hfil : (item :: rest).filter send_item_t.enabled =
          item :: rest.filter send_item_t.enabled := by
        rw [List.filter_cons, if_pos hen]
      rw [hfil] at hwr
      have h0 : w.write_ret 0 = ((item.text.length / 2 : Nat) : Int) := hwr 0 item (by simp)
      have hstep := file_send_item_enabled w d item hfd hen (hs item (by simp))
      rw [if_neg (by rw [h0]; exact fun h => h rfl)] at hstep
      rw [hstep]
      have hnn : ¬ (((0 : Int), (w.write d.fd item.payload).2.usleep (item.delay * 1000)).1 < 0) := by
        show ¬ ((0 : Int) < 0)
        decide
      rw [if_neg hnn]
      obtain ⟨r1, r2, r3⟩ := ih ((w.write d.fd item.payload).2.usleep (item.delay * 1000)) hsr
        (fun j it hj => hwr (j + 1) it (by simpa using hj))
      refine ⟨r1, ?_, ?_⟩
      · rw [r2, hfil]
        simp [World.usleep, World.write, item_events, h0]
      · rw [r3]
        rfl
    · have hen' : item.enabled = false := by
        cases h : item.enabled
        · rfl
        · exact absurd h hen
      have hfil : (item :: rest).filter send_item_t.enabled =
          rest.filter send_item_t.enabled := by
        rw [List.filter_cons, if_neg hen]
      rw [hfil] at hwr ⊢
      rw [file_send_item_disabled w (some d) item hen']
      have hnn : ¬ (((0 : Int), w).1 < 0) := by
        show ¬ ((0 : Int) < 0)
        decide
      rw [if_neg hnn]
      exact ih w hsr hwr

/-- A pass over sendable items on an open port in which the write of the
enabled item of index `k` is the first to report a wrong count: the pass fails,
and its calls are those of the `k` enabled items before, then that write. -/
theorem file_send_items_fail (d : uartdev_t) (hfd : 0 ≤ d.fd) :
    ∀ (l : List send_item_t) (w : World) (k : Nat) (itk : send_item_t),
      (∀ it ∈ l, it.sendable) →
      (l.filter send_item_t.enabled)[k]? = some itk →
      (∀ j it, j < k → (l.filter send_item_t.enabled)[j]? = some it →
        w.write_ret j = ((it.text.length / 2 : Nat) : Int)) →
      w.write_ret k ≠ ((itk.text.length / 2 : Nat) : Int) →
      (file_send_items (some d) l w).1 = -1 ∧
      (file_send_items (some d) l w).2.trace =
        w.trace ++ (((l.filter send_item_t.enabled).take k).flatMap (item_events d.fd) ++
          [Event.write d.fd itk.payload (w.write_ret k)]) := by
  intro l
  induction l with
  | nil =>
    intro w k itk _ hk _ _
    simp at hk
  | cons item rest ih =>
    intro w k itk hs hk hwr hbad
    have hsr : ∀ it ∈ rest, it.sendable := fun it hit => hs it (List.mem_cons_of_mem _ hit)
    rw [file_send_items]
    by_cases hen : item.enabled = true
    · have hfil : (item :: rest).filter send_item_t.enabled =
          item :: rest.filter send_item_t.enabled := by
        rw [List.filter_cons, if_pos hen]
      rw [hfil] at hk hwr ⊢
      have hstep := file_send_item_enabled w d item hfd hen (hs item (by simp))
      cases k with
      | zero =>
        simp only [List.getElem?_cons_zero, Option.some.injEq] at hk
        subst hk
        rw [if_pos hbad] at hstep
        rw [hstep]
        have hneg : (((-1 : Int), (w.write d.fd item.payload).2).1 < 0) := by
          show (-1 : Int) < 0
          decide
        rw [if_pos hneg]
        refine ⟨rfl, ?_⟩
        simp [World.write]
      | succ k =>
        have h0 : w.write_ret 0 = ((item.text.length / 2 : Nat) : Int) :=
          hwr 0 item (by omega) (by simp)
        rw [if_neg (by rw [h0]; exact fun h => h rfl)] at hstep
        rw [hstep]
        have hnn : ¬ (((0 : Int),
            (w.write d.fd item.payload).2.usleep (item.delay * 1000)).1 < 0) := by
          show ¬ ((0 : Int) < 0)
          decide
        rw [if_neg hnn]
        simp only [List.getElem?_cons_succ] at hk
        obtain ⟨r1, r2⟩ := ih ((w.write d.fd item.payload).2.usleep (item.delay * 1000)) k itk
          hsr hk (fun j it hj hjt => hwr (j + 1) it (by omega) (by simpa using hjt)) hbad
        refine ⟨r1, ?_⟩
        rw [r2]
        simp [World.usleep, World.write, item_events, h0]
    · have hen' : item.enabled = false := by
        cases h : item.enabled
        · rfl
        · exact absurd h hen
      have hfil : (item :: rest).filter send_item_t.enabled =
          rest.filter send_item_t.enabled := by
        rw [List.filter_cons, if_neg hen]
      rw [hfil] at hk hwr ⊢
      rw [file_send_item_disabled w (some d) item hen']
      have hnn : ¬ (((0 : Int), w).1 < 0) := by
        show ¬ ((0 : Int) < 0)
        decide
      rw [if_neg hnn]
      exact ih w k itk hsr hk hwr hbad

theorem item_events_count_write (fd : Int) (l : List send_item_t) :
    (l.flatMap (item_events fd)).countP Event.is_write = l.length := by
  induction l with
  | nil => rfl
  | cons item rest ih =>
    rw [List.flatMap_cons, List.countP_append, ih]
    simp [item_events, List.countP_cons, Event.is_write]
    omega

theorem schedule_length (c : json_config_t) :
    c.schedule.length =
      c.cycle_count.toNat * (c.items.filter send_item_t.enabled).length := by
  unfold json_config_t.schedule
  generalize c.cycle_count.toNat = k
  induction k with
  | zero => simp
  | succ k ih =>
    rw [List.replicate_succ, List.flatten_cons, List.length_append, ih]
    ring

/-- The body of `uart_file_test` on an open port and an accepted script: one
pass over the items of all cycles laid end to end. -/
theorem uart_file_test_open (w : World) (d : uartdev_t) (c : json_config_t)
    (hval : (validate_json_config (some c)).1 = 0) :
    uart_file_test w (some d) (some c) =
      file_send_items (some d) (List.replicate c.cycle_count.toNat c.items).flatten w := by
  unfold uart_file_test
  simp only
  rw [if_neg (by rw [hval]; exact fun h => h rfl), file_cycles_flat]

/-- C20: on an open port and a validated script whose items can be sent, with
`schedule` the enabled items in their original order, once for each of the
`cycle_count` cycles: the schedule holds `cycle_count` times the number of
enabled items; if every write reports the length of its payload, the protocol
succeeds and its calls are exactly, for each scheduled item in turn, the write
of its payload followed by its own delay (disabled items give no call); if the
write of the scheduled item of index `k` is the first to report another count,
the protocol fails and that write is its last call. -/
theorem uart_file_test_schedule (w : World) (d : uartdev_t) (c : json_config_t)
    (hfd : 0 ≤ d.fd) (hval : (validate_json_config (some c)).1 = 0)
    (hsend : ∀ it ∈ c.items, it.sendable) :
    c.schedule.length =
      c.cycle_count.toNat * (c.items.filter send_item_t.enabled).length ∧
    ((∀ j it, c.schedule[j]? = some it →
        w.write_ret j = ((it.text.length / 2 : Nat) : Int)) →
      (uart_file_test w (some d) (some c)).1 = 0 ∧
      (uart_file_test w (some d) (some c)).2.trace =
        w.trace ++ c.schedule.flatMap (item_events d.fd) ∧
      (c.schedule.flatMap (item_events d.fd)).countP Event.is_write =
        c.cycle_count.toNat * (c.items.filter send_item_t.enabled).length) ∧
    (∀ k itk, c.schedule[k]? = some itk →
      (∀ j it, j < k → c.schedule[j]? = some it →
        w.write_ret j = ((it.text.length / 2 : Nat) : Int)) →
      w.write_ret k ≠ ((itk.text.length / 2 : Nat) : Int) →
      (uart_file_test w (some d) (some c)).1 = -1 ∧
      (uart_file_test w (some d) (some c)).2.trace =
        w.trace ++ ((c.schedule.take k).flatMap (item_events d.fd) ++
          [Event.write d.fd itk.payload (w.write_ret k)])) := by
  have hall : ∀ it ∈ (List.replicate c.cycle_count.toNat c.items).flatten, it.sendable := by
    intro it hit
    obtain ⟨l, hl, hitl⟩ := List.mem_flatten.mp hit
    rw [(List.mem_replicate.mp hl).2] at hitl
    exact hsend it hitl
  have hsched : ((List.replicate c.cycle_count.toNat c.items).flatten).filter
      send_item_t.enabled = c.schedule :=
    filter_flatten_replicate send_item_t.enabled c.items c.cycle_count.toNat
  rw [uart_file_test_open w d c hval]
  refine ⟨schedule_length c, ?_, ?_⟩
  · intro hwr
    obtain ⟨r1, r2, _⟩ := file_send_items_ok d hfd _ w hall (by rw [hsched]; exact hwr)
    rw [hsched] at r2
    exact ⟨r1, r2, by rw [item_events_count_write, schedule_length]⟩
  · intro k itk hk hwr hbad
    have := file_send_items_fail d hfd _ w k itk hall (by rw [hsched]; exact hk)
      (by rw [hsched]; exact hwr) hbad
    rw [hsched] at this
    exact this

/-- Witness of C20 on the sample script: two cycles of three items of which the
second is disabled give four sends, items 1 and 3 twice each, in that order. -/
theorem uart_file_test_schedule_witness :
    (uart_file_test script_world (some sample_dev) (some sample_script)).1 = 0 ∧
    (uart_file_test script_world (some sample_dev) (some sample_script)).2.trace =
      script_world.trace ++ sample_script.schedule.flatMap (item_events sample_dev.fd) ∧
    (sample_script.schedule.flatMap (item_events sample_dev.fd)).countP Event.is_write =
      sample_script.cycle_count.toNat *
        (sample_script.items.filter send_item_t.enabled).length :=
  (uart_file_test_schedule script_world sample_dev sample_script (by decide) (by decide)
    (by
      intro it hit
      simp only [json_config_t.items, sample_script, Option.getD_some, List.mem_cons,
        List.mem_singleton, List.not_mem_nil, or_false] at hit
      rcases hit with rfl | rfl | rfl
      · exact ⟨Or.inr rfl, fun _ => ⟨_, rfl, by decide, by decide, by decide⟩⟩
      · exact ⟨Or.inl rfl, fun _ => ⟨_, rfl, by decide, by decide, by decide⟩⟩
      · exact ⟨Or.inr rfl, fun _ => ⟨_, rfl, by decide, by decide, by decide⟩⟩)).2.1
    (by
      intro j it h
      have hs : sample_script.schedule =
          [⟨1, some [52, 56, 54, 57], 10, 1⟩, ⟨3, some [50, 49], 30, 1⟩,
            ⟨1, some [52, 56, 54, 57], 10, 1⟩, ⟨3, some [50, 49], 30, 1⟩] := by decide
      rw [hs] at h
      rcases j with _ | _ | _ | _ | j
      · simp at h; subst h; rfl
      · simp at h; subst h; rfl
      · simp at h; subst h; rfl
      · simp at h; subst h; rfl
      · simp at h)

/-! ### The stop-bit field of `parse_uart_config` -/

/-- What a string that `parse_uart_config` accepts must look like, read off its
three checks. -/
theorem parse_uart_config_accepted (signed_char : Bool) (str : List Nat) (data_bit : Int)
    (parity : Nat) (stop_bit : Int) (hbytes : ∀ c ∈ str, c < 256)
    (h : (parse_uart_config signed_char str data_bit parity stop_bit).1 = 0) :
    (str.length = 3 ∨ str.length = 4) ∧
    (53 ≤ str.getD 0 0 ∧ str.getD 0 0 ≤ 56) ∧
    (str.getD 1 0 = 78 ∨ str.getD 1 0 = 69 ∨ str.getD 1 0 = 79 ∨
      str.getD 1 0 = 110 ∨ str.getD 1 0 = 101 ∨ str.getD 1 0 = 111) ∧
    (str.length = 3 → str.getD 2 0 = 49 ∨ str.getD 2 0 = 50) ∧
    (str.length = 4 → (48 ≤ str.getD 2 0 ∧ str.getD 2 0 ≤ 57) →
      (48 ≤ str.getD 3 0 ∧ str.getD 3 0 ≤ 57) →
      str.getD 2 0 = 48 ∧ (str.getD 3 0 = 49 ∨ str.getD 3 0 = 50)) := by
  have hget : ∀ i, str.getD i 0 < 256 := by
    intro i
    rw [List.getD_eq_getElem?_getD]
    cases hi : str[i]? with
    | none => simp
    | some c =>
      simp only [Option.getD_some]
      exact hbytes c (List.getElem?_mem hi)
  have hcv : ∀ c : Nat, c < 256 →
      (char_value signed_char c = (c : Int) ∨ (128 ≤ c ∧ char_value signed_char c = (c : Int) - 256)) := by
    intro c _
    unfold char_value
    split_ifs with hs
    · exact Or.inr ⟨hs.2, rfl⟩
    · exact Or.inl rfl
  unfold parse_uart_config at h
  simp only at h
  by_cases h1 : ((str.length : Nat) : Int) < 3 ∨ ((str.length : Nat) : Int) > 4
  · rw [if_pos h1] at h
    simp only at h
    omega
  · rw [if_neg h1] at h
    by_cases h2 : char_value signed_char (str.getD 0 0) - 48 < 5 ∨
        char_value signed_char (str.getD 0 0) - 48 > 8
    · rw [if_pos h2] at h
      simp only at h
      omega
    · rw [if_neg h2] at h
      by_cases h3 : toupper (str.getD 1 0) ≠ 78 ∧ toupper (str.getD 1 0) ≠ 69 ∧
          toupper (str.getD 1 0) ≠ 79
      · rw [if_pos h3] at h
        simp only at h
        omega
      · rw [if_neg h3] at h
        have hc0 := hcv (str.getD 0 0) (hget 0)
        have hc2 := hcv (str.getD 2 0) (hget 2)
        have hc3 := hcv (str.getD 3 0) (hget 3)
        have hb0 := hget 0
        have hb2 := hget 2
        have hb3 := hget 3
        have hpar : str.getD 1 0 = 78 ∨ str.getD 1 0 = 69 ∨ str.getD 1 0 = 79 ∨
            str.getD 1 0 = 110 ∨ str.getD 1 0 = 101 ∨ str.getD 1 0 = 111 := by
          unfold toupper at h3
          split_ifs at h3 <;> omega
        refine ⟨by omega, by omega, hpar, ?_, ?_⟩
        · intro h3len
          have hl : ((str.length : Nat) : Int) = 3 := by omega
          rw [if_pos hl] at h
          split_ifs at h with h4
          · simp only at h
            omega
          · omega
        · intro h4len hd2 hd3
          have hl : ¬ ((str.length : Nat) : Int) = 3 := by omega
          rw [if_neg hl] at h
          split_ifs at h with h4
          · simp only at h
            omega
          · omega

/-- C21 fails on the code: the four-character string "8N/;" has the non-digit
stop-bit field "/;", yet `parse_uart_config` returns 0 on it, with 8 data bits,
parity `N` and 1 stop bit, because `('/' - '0') * 10 + (';' - '0') = 1`. The
rest of the claim holds: an accepted string of bytes has 3 or 4 characters, a
digit `5`-`8` first, a letter among `N`, `E`, `O`, `n`, `e`, `o` second, a
one-character stop field that is `1` or `2`, and a two-character stop field
that, when made of digits, is "01" or "02". -/
theorem parse_uart_config_non_digit_stop :
    (∀ (signed_char : Bool) (data_bit : Int) (parity : Nat) (stop_bit : Int),
      parse_uart_config signed_char [56, 78, 47, 59] data_bit parity stop_bit =
        (0, 8, 78, 1)) ∧
    ¬ (48 ≤ 47 ∧ 47 ≤ 57) ∧ ¬ (48 ≤ 59 ∧ 59 ≤ 57) ∧
    (∀ (signed_char : Bool) (str : List Nat) (data_bit : Int) (parity : Nat) (stop_bit : Int),
      (∀ c ∈ str, c < 256) →
      (parse_uart_config signed_char str data_bit parity stop_bit).1 = 0 →
      (str.length = 3 ∨ str.length = 4) ∧
      (53 ≤ str.getD 0 0 ∧ str.getD 0 0 ≤ 56) ∧
      (str.getD 1 0 = 78 ∨ str.getD 1 0 = 69 ∨ str.getD 1 0 = 79 ∨
        str.getD 1 0 = 110 ∨ str.getD 1 0 = 101 ∨ str.getD 1 0 = 111) ∧
      (str.length = 3 → str.getD 2 0 = 49 ∨ str.getD 2 0 = 50) ∧
      (str.length = 4 → (48 ≤ str.getD 2 0 ∧ str.getD 2 0 ≤ 57) →
        (48 ≤ str.getD 3 0 ∧ str.getD 3 0 ≤ 57) →
        str.getD 2 0 = 48 ∧ (str.getD 3 0 = 49 ∨ str.getD 3 0 = 50))) := by
  refine ⟨?_, by decide, by decide, ?_⟩
  · intro signed_char data_bit parity stop_bit
    cases signed_char <;> rfl
  · intro signed_char str data_bit parity stop_bit hbytes h
    exact parse_uart_config_accepted signed_char str data_bit parity stop_bit hbytes h

/-! ### Parity letters in `uartdev_setup` -/

/-- Setting bits and then masking with them gives the bits back. -/
theorem set_bits_and_self (x m : Nat) : set_bits x m &&& m = m := by
  unfold set_bits
  apply Nat.eq_of_testBit_eq
  intro i
  rw [Nat.testBit_and, Nat.testBit_or]
  cases x.testBit i <;> cases m.testBit i <;> rfl

/-- The settings `uartdev_setup` hands to `tcsetattr` are those of
`setup_newtio` for the handle with its new descriptor. -/
theorem uartdev_setup_newtio (env : setup_env) (d : uartdev_t) (t : termios)
    (h : (uartdev_setup env (some d)).newtio = some t) :
    setup_newtio env { d with fd := env.open_ret } = some t := by
  unfold uartdev_setup at h
  simp only at h
  split_ifs at h
  all_goals first
    | (exact absurd h (by simp))
    | (cases hn : setup_newtio env { d with fd := env.open_ret } with
       | none => rw [hn] at h; exact absurd h (by simp)
       | some u => rw [hn] at h; exact h)

/-- With parity `N` the input flags built by `setup_newtio` have `INPCK`
clear. -/
theorem setup_newtio_upper_none (env : setup_env) (d : uartdev_t) (t : termios)
    (hp : d.parity = 78) (h : setup_newtio env d = some t) : t.c_iflag &&& INPCK = 0 := by
  unfold setup_newtio at h
  simp only at h
  split at h
  · exact absurd h (by simp)
  · split at h
    · exact absurd h (by simp)
    · split at h
      · exact absurd h (by simp)
      · simp only [Option.some.injEq] at h
        subst h
        simp only [setup_inpck, hp, if_true, clear_bits]
        rw [Nat.land_assoc, Nat.land_assoc]
        have hz : (4294967295 ^^^ INPCK) &&&
            ((4294967295 ^^^ (IXON ||| IXOFF ||| IXANY)) &&& INPCK) = 0 := by decide
        rw [hz]
        exact Nat.and_zero _

/-- With parity `n` the input flags built by `setup_newtio` have `INPCK` set. -/
theorem setup_newtio_lower_none (env : setup_env) (d : uartdev_t) (t : termios)
    (hp : d.parity = 110) (h : setup_newtio env d = some t) : t.c_iflag &&& INPCK = INPCK := by
  unfold setup_newtio at h
  simp only at h
  split at h
  · exact absurd h (by simp)
  · split at h
    · exact absurd h (by simp)
    · split at h
      · exact absurd h (by simp)
      · simp only [Option.some.injEq] at h
        subst h
        have hne : ¬ (110 : Nat) = 78 := by decide
        simp only [setup_inpck, hp, if_neg hne, clear_bits]
        rw [Nat.land_assoc]
        have hz : (4294967295 ^^^ (IXON ||| IXOFF ||| IXANY)) &&& INPCK = INPCK := by decide
        rw [hz]
        exact set_bits_and_self _ _

/-- C22 fails on the code for parity None: `uartdev_setup` tests
`dev->parity == 'N'` only, so for the handle that
`uartdev_new(port, 115200, 8, 'n', 1)` builds it hands `tcsetattr` input flags
16 (`INPCK` set), against 0 for `'N'`; for every system and handle, the input
flags computed for `'n'` have `INPCK` set and those for `'N'` have it clear.
The rest of the claim holds: `'e'` and `'E'`, and `'o'` and `'O'`, give the same
returned value and the same settings, and `'n'` and `'N'` the same returned
value and the same control flags. -/
theorem uartdev_setup_parity_case :
    (uartdev_new true true echo_world (some [47, 100, 101, 118]) 115200 8 110 1).1 =
      Except.ok (closed_dev 110) ∧
    (uartdev_setup sample_env (some (closed_dev 110))).ret = 0 ∧
    (uartdev_setup sample_env (some (closed_dev 110))).newtio.map termios.c_iflag = some 16 ∧
    (uartdev_setup sample_env (some (closed_dev 78))).ret = 0 ∧
    (uartdev_setup sample_env (some (closed_dev 78))).newtio.map termios.c_iflag = some 0 ∧
    (∀ (env : setup_env) (d : uartdev_t) (t : termios),
      (uartdev_setup env (some { d with parity := 110 })).newtio = some t →
      t.c_iflag &&& INPCK = INPCK) ∧
    (∀ (env : setup_env) (d : uartdev_t) (t : termios),
      (uartdev_setup env (some { d with parity := 78 })).newtio = some t →
      t.c_iflag &&& INPCK = 0) ∧
    (∀ (env : setup_env) (d : uartdev_t),
      (uartdev_setup env (some { d with parity := 110 })).ret =
        (uartdev_setup env (some { d with parity := 78 })).ret ∧
      (uartdev_setup env (some { d with parity := 110 })).newtio.map termios.c_cflag =
        (uartdev_setup env (some { d with parity := 78 })).newtio.map termios.c_cflag) ∧
    (∀ (env : setup_env) (d : uartdev_t),
      (uartdev_setup env (some { d with parity := 101 })).ret =
        (uartdev_setup env (some { d with parity := 69 })).ret ∧
      (uartdev_setup env (some { d with parity := 101 })).newtio =
        (uartdev_setup env (some { d with parity := 69 })).newtio) ∧
    (∀ (env : setup_env) (d : uartdev_t),
      (uartdev_setup env (some { d with parity := 111 })).ret =
        (uartdev_setup env (some { d with parity := 79 })).ret ∧
      (uartdev_setup env (some { d with parity := 111 })).newtio =
        (uartdev_setup env (some { d with parity := 79 })).newtio) := by
  refine ⟨by rfl, by decide, by decide, by decide, by decide, ?_, ?_, ?_, ?_, ?_⟩
  · intro env d t h
    exact setup_newtio_lower_none env _ t rfl (uartdev_setup_newtio env _ t h)
  · intro env d t h
    exact setup_newtio_upper_none env _ t rfl (uartdev_setup_newtio env _ t h)
  · intro env d
    unfold uartdev_setup
    simp only
    have hc : ∀ c : Nat, setup_parity c 110 = setup_parity c 78 := by
      intro c
      simp [setup_parity]
    have hn : ∀ e : uartdev_t,
        (setup_newtio env { e with parity := 110 }).map termios.c_cflag =
          (setup_newtio env { e with parity := 78 }).map termios.c_cflag := by
      intro e
      unfold setup_newtio
      simp only [hc]
      cases setup_data_bit _ e.data_bit with
      | none => rfl
      | some c2 =>
        simp only
        cases setup_stop_bit c2 e.stop_bit with
        | none => rfl
        | some c3 =>
          simp only
          cases setup_parity c3 78 with
          | none => rfl
          | some c4 => rfl
    have hn1 := hn { d with fd := env.open_ret }
    simp only at hn1
    by_cases h1 : d.fd ≥ 0
    · simp only [if_pos h1, and_self, Option.map_none']
    · simp only [if_neg h1]
      by_cases h2 : env.open_ret < 0
      · simp only [if_pos h2, and_self, Option.map_none']
      · simp only [if_neg h2]
        by_cases h3 : env.flock_ret < 0
        · simp only [if_pos h3, and_self, Option.map_none']
        · simp only [if_neg h3]
          generalize setup_newtio env
            (⟨env.open_ret, d.port, d.baud, d.data_bit, 110, d.stop_bit⟩ : uartdev_t) = a at hn1 ⊢
          generalize setup_newtio env
            (⟨env.open_ret, d.port, d.baud, d.data_bit, 78, d.stop_bit⟩ : uartdev_t) = b at hn1 ⊢
          cases a with
          | none =>
            cases b with
            | none => simp
            | some v => exact absurd hn1 (by simp)
          | some u =>
            cases b with
            | none => exact absurd hn1 (by simp)
            | some v =>
              simp only [Option.map_some', Option.some.injEq] at hn1
              simp only
              split_ifs <;> simp [hn1]
  · intro env d
    have hn : ∀ e : uartdev_t, setup_newtio env { e with parity := 101 } =
        setup_newtio env { e with parity := 69 } := by
      intro e
      simp [setup_newtio, setup_parity, setup_inpck]
    have hn1 := hn { d with fd := env.open_ret }
    simp only at hn1
    cases hb : setup_newtio env
        (⟨env.open_ret, d.port, d.baud, d.data_bit, 69, d.stop_bit⟩ : uartdev_t) with
    | none =>
      simp only [uartdev_setup, hn1, hb]
      split_ifs <;> exact ⟨rfl, rfl⟩
    | some v =>
      simp only [uartdev_setup, hn1, hb]
      split_ifs <;> exact ⟨rfl, rfl⟩
  · intro env d
    have hn : ∀ e : uartdev_t, setup_newtio env { e with parity := 111 } =
        setup_newtio env { e with parity := 79 } := by
      intro e
      simp [setup_newtio, setup_parity, setup_inpck]
    have hn1 := hn { d with fd := env.open_ret }
    simp only at hn1
    cases hb : setup_newtio env
        (⟨env.open_ret, d.port, d.baud, d.data_bit, 79, d.stop_bit⟩ : uartdev_t) with
    | none =>
      simp only [uartdev_setup, hn1, hb]
      split_ifs <;> exact ⟨rfl, rfl⟩
    | some v =>
      simp only [uartdev_setup, hn1, hb]
      split_ifs <;> exact ⟨rfl, rfl⟩

end UartAssist
